import Mathlib

/-!
Juggler sender: check reconciliation

A shallow embedding of `senders/juggler/api.go` (reconciliation, the update
call, the multi-host read, `getCheck`), of `cache.Get`, `cache.Delete` and the
sweep of `senders/juggler/cache.go`, of `senders/juggler/plugins.go` (marshaling
to script values, decoding the result of a plugin), of the decoder of
`senders/juggler/go2lua.go` (names under `Go2lua`) and of `Send` and `sendPoint`
of `senders/agave/agave.go` (names under `Agave`).

Conventions of the embedding:

* A Go `map[string]T` is an association list `List (String × T)`; `mapGet`
  returns the first binding of a key, `mapSet` overwrites it in place or appends
  a new binding, `mapDelete` removes every binding of a key.
* Go does not fix the order in which `range` visits a map.  Where the order can
  be observed (the update loop of `ensureCheck`) the order is an explicit
  parameter `order`, to be instantiated by any function returning a permutation.
* `js *Sender` is mutated by the `ensure*` methods (defaults are written back to
  the receiver), so every method returns the new receiver next to the check.
* `c.Flap` is a pointer in Go.  The only write through the pointer is
  `c.Flap.Enable = 1`, on a field that is never serialised (`json:"-"`) and is
  overwritten at the start of every `ensureFlap`; the embedding uses
  `Option jugglerFlapConfig` by value.
* Go `int`/`int64` fields are only compared, never computed with; they are `Int`.
* The script values of gopher-lua are the type `LValue`; the methods of the
  library that plugins.go calls (`RawGetString`, `RawSetString`, `Append`,
  `ForEach`, `LVAsString`) are functions on it.  `LNumber.String`,
  `strconv.ParseFloat` and the order in which `fmt` prints a map are parameters.
* A float64 is the number it stands for; the conversion of an integer to it is
  computed exactly (`roundToFloat64`).
-/

set_option autoImplicit false

namespace Juggler

/-! ## Generic map helpers -/

/-- Go `v, ok := m[k]`. -/
def mapGet {α : Type} : List (String × α) → String → Option α
  | [], _ => none
  | (k', v) :: rest, k => if k' = k then some v else mapGet rest k

/-- Go `m[k] = v`. -/
def mapSet {α : Type} : List (String × α) → String → α → List (String × α)
  | [], k, v => [(k, v)]
  | (k', v') :: rest, k, v =>
    if k' = k then (k, v) :: rest else (k', v') :: mapSet rest k v

/-- Go `delete(m, k)`. -/
def mapDelete {α : Type} (m : List (String × α)) (k : String) : List (String × α) :=
  m.filter (fun p => decide (p.1 ≠ k))

/-! ## Data model (api.go:17-88) -/

/-- The constant `defaultTag`. -/
def defaultTag : String := "combaine"

/-- Values stored under `interface{}` in a limit rule, with their `%v` rendering
given by `GoValue.fmtV`. -/
inductive GoValue where
  | int (i : Int)
  | str (s : String)
  | bool (b : Bool)
  | null
  deriving DecidableEq, Repr

/-- Rendering `fmt.Sprintf("%v", v)`. -/
def GoValue.fmtV : GoValue → String
  | .int i => toString i
  | .str s => s
  | .bool true => "true"
  | .bool false => "false"
  | .null => "<nil>"

structure jugglerChildrenCheck where
  Instance : String
  Host : String
  Type_ : String
  Service : String
  deriving DecidableEq, Repr

structure jugglerFlapConfig where
  Enable : Int
  BoostTime : Int
  StableTime : Int
  CriticalTime : Int
  deriving DecidableEq, Repr

structure aggKWArgs where
  IgnoreNoData : Int
  Limits : List (List (String × GoValue))
  deriving DecidableEq, Repr

structure jugglerCheck where
  Update : Bool
  Host : String
  Service : String
  Description : String
  Aggregator : String
  AggregatorKWArgs : aggKWArgs
  TTL : Int
  Tags : List String
  Methods : List String
  Children : List jugglerChildrenCheck
  Flap : Option jugglerFlapConfig
  Namespace : String
  deriving DecidableEq, Repr

structure jugglerEvent where
  taskTags : List (String × String)
  Host : String
  Service : String
  Status : String
  Description : String
  Instance : String
  Version : String
  Tags : List String
  deriving DecidableEq, Repr

/-- The type `jugglerResponse`: host name, then service name, then check. -/
abbrev jugglerResponse := List (String × List (String × jugglerCheck))

/-- The fields of `Sender` (with its embedded `Config`) that api.go reads or
writes.  The struct declaration itself is not part of the sources at hand; the
field list is the set of selectors `js.X` used in api.go, `Token` standing for
`js.Config.Token`, `ChecksOptions` for the map of per-service flap settings. -/
structure Sender where
  id : String
  Host : String
  TTL : Int
  Description : String
  CheckName : String
  Aggregator : String
  AggregatorKWArgs : aggKWArgs
  Methods : List String
  Method : String
  ChecksOptions : List (String × jugglerFlapConfig)
  Flap : Option jugglerFlapConfig
  Tags : List String
  Namespace : String
  Token : String
  JHosts : List String
  deriving DecidableEq, Repr

/-- The Go zero value `jugglerCheck{}`. -/
def emptyCheck : jugglerCheck :=
  { Update := false, Host := "", Service := "", Description := "", Aggregator := "",
    AggregatorKWArgs := { IgnoreNoData := 0, Limits := [] }, TTL := 0, Tags := [],
    Methods := [], Children := [], Flap := none, Namespace := "" }

/-- The Go zero value `jugglerFlapConfig{}`. -/
def emptyFlap : jugglerFlapConfig :=
  { Enable := 0, BoostTime := 0, StableTime := 0, CriticalTime := 0 }

/-! ## Attribute steps (api.go:244-391) -/

/-- The method `Sender.ensureTTL` (api.go:244-253). -/
def ensureTTL (js : Sender) (c : jugglerCheck) : Sender × jugglerCheck :=
  let js := if js.TTL = 0 then { js with TTL := 900 } else js
  if c.TTL ≠ js.TTL then (js, { c with Update := true, TTL := js.TTL }) else (js, c)

/-- The method `Sender.ensureDescription` (api.go:255-264). -/
def ensureDescription (js : Sender) (c : jugglerCheck) : Sender × jugglerCheck :=
  let js := if js.Description = "" then { js with Description := js.CheckName } else js
  if c.Description ≠ js.Description ∧ js.Description ≠ "" then
    (js, { c with Update := true, Description := js.Description })
  else (js, c)

/-- One desired limit rule against the remote rule at the same position
(api.go:277-287): true when some key of the desired rule is missing from the
remote rule or is bound there to a value with a different `%v` rendering. -/
def limitOutdated (cv : List (String × GoValue)) (v : List (String × GoValue)) : Bool :=
  v.any (fun kv =>
    match mapGet cv kv.1 with
    | some x => decide (x.fmtV ≠ kv.2.fmtV)
    | none => true)

/-- The loop labelled `CHECK` (api.go:275-288) over the desired limit rules,
`cl` being the remote rules from the same position on.  The loop is only
entered when both lists have the same length; a missing remote rule is read as
the empty map. -/
def limitsOutdated : List (List (String × GoValue)) → List (List (String × GoValue)) → Bool
  | _, [] => false
  | [], v :: vs => limitOutdated [] v || limitsOutdated [] vs
  | cv :: cl, v :: vs => limitOutdated cv v || limitsOutdated cl vs

/-- The flag `aggregatorOutdated` as computed by api.go:267-290. -/
def aggregatorOutdated (js : Sender) (c : jugglerCheck) : Bool :=
  let o1 := decide (c.AggregatorKWArgs.IgnoreNoData ≠ js.AggregatorKWArgs.IgnoreNoData)
  let o2 := o1 || decide (c.AggregatorKWArgs.Limits.length ≠ js.AggregatorKWArgs.Limits.length)
  if !o2 then limitsOutdated c.AggregatorKWArgs.Limits js.AggregatorKWArgs.Limits else o2

/-- The method `Sender.ensureAggregator` (api.go:266-297). -/
def ensureAggregator (js : Sender) (c : jugglerCheck) : Sender × jugglerCheck :=
  if aggregatorOutdated js c then
    (js, { c with Update := true, Aggregator := js.Aggregator,
                  AggregatorKWArgs := js.AggregatorKWArgs })
  else (js, c)

/-- The defaulting of `js.Methods` (api.go:300-306). -/
def defaultMethods (js : Sender) : Sender :=
  if js.Methods.length = 0 then
    if js.Method ≠ "" then { js with Methods := js.Method.splitOn "," }
    else { js with Methods := ["GOLEM"] }
  else js

/-- The flag `methodsOutdated` (api.go:307-321), `jm` the desired methods. -/
def methodsOutdated (cm jm : List String) : Bool :=
  if cm.length ≠ jm.length then true
  else jm.any (fun m => decide (m ∉ cm))

/-- The method `Sender.ensureMethods` (api.go:299-327). -/
def ensureMethods (js : Sender) (c : jugglerCheck) : Sender × jugglerCheck :=
  let js := defaultMethods js
  if methodsOutdated c.Methods js.Methods then
    (js, { c with Update := true, Methods := js.Methods })
  else (js, c)

/-- The method `Sender.ensureFlap` (api.go:329-355). -/
def ensureFlap (js : Sender) (c : jugglerCheck) : Sender × jugglerCheck :=
  let flap : jugglerFlapConfig :=
    match c.Flap with
    | some f => { f with Enable := 1 }
    | none => { emptyFlap with Enable := 1 }
  let c := { c with Flap := some flap }
  match mapGet js.ChecksOptions c.Service with
  | some f =>
    if f.Enable = 1 then
      if flap ≠ f then (js, { c with Update := true, Flap := some f }) else (js, c)
    else (js, c)
  | none =>
    match js.Flap with
    | some g =>
      if g.Enable = 1 then
        if flap ≠ g then (js, { c with Update := true, Flap := some g }) else (js, c)
      else (js, { c with Flap := none })
    | none => (js, { c with Flap := none })

/-- The defaulting of `js.Tags` (api.go:358-360). -/
def defaultTags (js : Sender) : Sender :=
  if js.Tags.length = 0 then { js with Tags := [defaultTag] } else js

/-- The loop api.go:372-378: `tagsSet` holds the remote tags as they were before
the loop and is not extended while tags are appended. -/
def appendMissingTags (tagsSet : List String) : jugglerCheck → List String → jugglerCheck
  | c, [] => c
  | c, tag :: rest =>
    if tag ∉ tagsSet then
      appendMissingTags tagsSet { c with Update := true, Tags := c.Tags ++ [tag] } rest
    else appendMissingTags tagsSet c rest

/-- The method `Sender.ensureTags` (api.go:357-380). -/
def ensureTags (js : Sender) (c : jugglerCheck) : Sender × jugglerCheck :=
  let js := defaultTags js
  if c.Tags.length = 0 then (js, { c with Update := true, Tags := js.Tags })
  else (js, appendMissingTags c.Tags c js.Tags)

/-- The method `Sender.ensureNamespace` (api.go:382-391). -/
def ensureNamespace (js : Sender) (c : jugglerCheck) : Sender × jugglerCheck :=
  let js := if js.Namespace = "" then { js with Namespace := "combaine" } else js
  if js.Token ≠ "" ∧ c.Namespace ≠ js.Namespace then
    (js, { c with Update := true, Namespace := js.Namespace })
  else (js, c)

/-- The seven attribute steps in the order of api.go:190-203. -/
def ensureAttributes (js : Sender) (c : jugglerCheck) : Sender × jugglerCheck :=
  let r := ensureTTL js c
  let r := ensureAggregator r.1 r.2
  let r := ensureMethods r.1 r.2
  let r := ensureFlap r.1 r.2
  let r := ensureTags r.1 r.2
  let r := ensureDescription r.1 r.2
  ensureNamespace r.1 r.2

/-! ## The update call (api.go:393-445) -/

/-- Go `error` values that api.go returns or inspects: the two context errors,
an error with a given text, the error built from the map `errs` of
`updateCheck` (api.go:441), the error of api.go:444, and the error built from
the slice `jerrors` of `checkFetcher` (api.go:135), kept as the texts of its
elements. -/
inductive GoError where
  | canceled
  | deadlineExceeded
  | errorf (msg : String)
  | updateErrs (errs : List String)
  | unexpected (host service : String)
  | getCheckFailed (jerrors : List String)
  deriving DecidableEq, Repr

/-- What one iteration of the host loop of `updateCheck` observes:
`badRequest` is `http.NewRequest` failing, `response` a completed exchange whose
body was read, `readError` a failing `ioutil.ReadAll`, `canceled` and
`deadlineExceeded` the two context errors returned by `chttp.Do`, `netError` any
other error of `chttp.Do`. -/
inductive HttpOutcome where
  | badRequest (msg : String)
  | response (status : Nat) (body : String)
  | readError (msg : String)
  | canceled
  | deadlineExceeded
  | netError (msg : String)
  deriving DecidableEq, Repr

/-- The backend as seen by the sender: the outcome of a POST of `check` to
`host`, given the number of POSTs issued before it. -/
abbrev Backend := Nat → String → jugglerCheck → HttpOutcome

/-- Go `errs[k] = ""` on the map `errs` of api.go:402, kept as its key list. -/
def errsSet (errs : List String) (k : String) : List String :=
  if k ∈ errs then errs else errs ++ [k]

/-- The host loop of `updateCheck` (api.go:403-444); `posts` is the log of the
requests handed to `chttp.Do` so far. -/
def updateCheckHosts (net : Backend) (check : jugglerCheck) :
    List String → List String → List (String × jugglerCheck) →
    Option GoError × List (String × jugglerCheck)
  | [], errs, posts =>
    if errs.length > 0 then (some (.updateErrs errs), posts)
    else (some (.unexpected check.Host check.Service), posts)
  | host :: rest, errs, posts =>
    match net posts.length host check with
    | .badRequest msg => (some (.errorf msg), posts)
    | .response status body =>
      if status ≠ 200 then
        updateCheckHosts net check rest (errsSet errs body) (posts ++ [(host, check)])
      else (none, posts ++ [(host, check)])
    | .readError msg =>
      updateCheckHosts net check rest (errsSet errs msg) (posts ++ [(host, check)])
    | .canceled => (some .canceled, posts ++ [(host, check)])
    | .deadlineExceeded => (some .deadlineExceeded, posts ++ [(host, check)])
    | .netError msg =>
      updateCheckHosts net check rest (errsSet errs msg) (posts ++ [(host, check)])

/-- The method `Sender.updateCheck` (api.go:393-445).  `json.Marshal` cannot
fail on the values of this model. -/
def updateCheck (js : Sender) (net : Backend) (posts : List (String × jugglerCheck))
    (check : jugglerCheck) : Option GoError × List (String × jugglerCheck) :=
  updateCheckHosts net check js.JHosts [] posts

/-! ## The cache entry point used by reconciliation (cache.go:11-26, 81-86) -/

/-- The struct `itemType` without its `ready` channel. -/
structure itemType where
  expires : Int
  value : String
  err : Option GoError
  deriving DecidableEq, Repr

/-- The field `cache.store`. -/
abbrev CacheStore := List (String × itemType)

/-- The method `cache.Delete` (cache.go:81-86). -/
def cacheDelete (store : CacheStore) (key : String) : CacheStore :=
  mapDelete store key

/-! ## Reconciliation (api.go:159-242) -/

/-- The set `childSet` built by api.go:168-173, as the list of its keys. -/
def buildChildSet : List (String × jugglerCheck) → List String
  | [] => []
  | (serviceName, v) :: rest =>
    v.Children.map (fun c => c.Host ++ ":" ++ serviceName) ++ buildChildSet rest

/-- The variables that the trigger loop of `ensureCheck` carries from one
trigger to the next. -/
structure LoopState where
  js : Sender
  services : List (String × jugglerCheck)
  updated : List String
  deriving DecidableEq, Repr

/-- One iteration of the trigger loop (api.go:175-223). -/
def ensureTrigger (childSet : List String) (st : LoopState) (t : jugglerEvent) : LoopState :=
  let check : jugglerCheck :=
    match mapGet st.services t.Service with
    | some c => c
    | none => { emptyCheck with Update := true }
  let r : (Sender × jugglerCheck) × List String :=
    if t.Service ∉ st.updated then
      (ensureAttributes st.js check, st.updated ++ [t.Service])
    else ((st.js, check), st.updated)
  let js := r.1.1
  let check := r.1.2
  let check : jugglerCheck :=
    if (t.Host ++ ":" ++ t.Service) ∉ childSet then
      { check with
        Update := true
        Children := check.Children ++
          [{ Instance := "", Host := t.Host, Type_ := "HOST", Service := t.Service }] }
    else check
  if check.Update then
    { js := js
      services := mapSet st.services t.Service { check with Host := js.Host, Service := t.Service }
      updated := r.2 }
  else { js := js, services := st.services, updated := r.2 }

/-- The trigger loop (api.go:175-223). -/
def ensureTriggers (childSet : List String) (st : LoopState) (triggers : List jugglerEvent) :
    LoopState :=
  triggers.foldl (ensureTrigger childSet) st

/-- What the update loop leaves behind: the returned error, the flag
`cleanCache`, the checks `updateCheck` was called with (in call order) and the
request log. -/
structure UpdateLoopResult where
  err : Option GoError
  cleanCache : Bool
  calls : List jugglerCheck
  posts : List (String × jugglerCheck)
  deriving DecidableEq, Repr

/-- The update loop (api.go:233-241) over the services in the order `range`
yields them. -/
def updateLoop (js : Sender) (net : Backend) :
    List (String × jugglerCheck) → UpdateLoopResult → UpdateLoopResult
  | [], acc => acc
  | (_, c) :: rest, acc =>
    if c.Update then
      let r := updateCheck js net acc.posts c
      match r.1 with
      | some e => { err := some e, cleanCache := true, calls := acc.calls ++ [c], posts := r.2 }
      | none =>
        updateLoop js net rest
          { err := none, cleanCache := true, calls := acc.calls ++ [c], posts := r.2 }
    else updateLoop js net rest acc

/-- The start of the update loop: `cleanCache := false` (api.go:224), nothing
called or sent yet. -/
def noUpdates : UpdateLoopResult :=
  { err := none, cleanCache := false, calls := [], posts := [] }

/-- Everything `ensureCheck` returns or leaves behind. -/
structure EnsureResult where
  err : Option GoError
  js : Sender
  hostChecks : jugglerResponse
  cache : CacheStore
  calls : List jugglerCheck
  posts : List (String × jugglerCheck)
  deriving DecidableEq, Repr

/-- The services map of `js.Host` that `ensureCheck` works on (api.go:162-167). -/
def hostServices (js : Sender) (hostChecks : jugglerResponse) : List (String × jugglerCheck) :=
  match mapGet hostChecks js.Host with
  | some services => services
  | none => []

/-- The services map of `js.Host` after the trigger loop. -/
def reconciled (js : Sender) (hostChecks : jugglerResponse) (triggers : List jugglerEvent) :
    LoopState :=
  let services := hostServices js hostChecks
  ensureTriggers (buildChildSet services) { js := js, services := services, updated := [] }
    triggers

/-- The method `Sender.ensureCheck` (api.go:161-242).  `order` is the order in
which `range services` of api.go:233 yields the entries, `net` the backend,
`store` the store of `GlobalCache`. -/
def ensureCheck (order : List (String × jugglerCheck) → List (String × jugglerCheck))
    (net : Backend) (store : CacheStore) (js : Sender) (hostChecks : jugglerResponse)
    (triggers : List jugglerEvent) : EnsureResult :=
  let st := reconciled js hostChecks triggers
  let u := updateLoop st.js net (order st.services) noUpdates
  { err := u.err
    js := st.js
    hostChecks := mapSet hostChecks js.Host st.services
    cache := if u.cleanCache then cacheDelete store st.js.Host else store
    calls := u.calls
    posts := u.posts }

/-! ## Concrete configurations used in the examples -/

/-- A sender for host `h` with one backend host and every option unset. -/
def baseSender : Sender :=
  { id := "id", Host := "h", TTL := 0, Description := "", CheckName := "chk",
    Aggregator := "agg", AggregatorKWArgs := { IgnoreNoData := 0, Limits := [] },
    Methods := [], Method := "", ChecksOptions := [], Flap := none, Tags := [],
    Namespace := "", Token := "", JHosts := ["j1"] }

/-- An event of child host `h` for service `s`. -/
def trigger (h s : String) : jugglerEvent :=
  { taskTags := [], Host := h, Service := s, Status := "OK", Description := "",
    Instance := "", Version := "", Tags := [] }

/-- A backend that accepts every update. -/
def acceptAll : Backend := fun _ _ _ => .response 200 "ok"

/-- A backend that rejects every update with status 500. -/
def rejectAll : Backend := fun _ _ _ => .response 500 "no"

/-- A desired limit rule with the single key `crit`. -/
def desiredRule : List (String × GoValue) := [("crit", .int 1)]

/-- A remote limit rule that binds `crit` as desired and has the extra key `warn`. -/
def remoteRule : List (String × GoValue) := [("crit", .int 1), ("warn", .int 2)]

/-- A sender whose aggregator arguments hold `desiredRule`. -/
def ruleSender : Sender :=
  { baseSender with AggregatorKWArgs := { IgnoreNoData := 0, Limits := [desiredRule] } }

/-- A remote check whose aggregator arguments hold `remoteRule`. -/
def ruleCheck : jugglerCheck :=
  { emptyCheck with AggregatorKWArgs := { IgnoreNoData := 0, Limits := [remoteRule] } }

/-- A sender asking for the methods `GOLEM, GOLEM`. -/
def twiceGolemSender : Sender := { baseSender with Methods := ["GOLEM", "GOLEM"] }

/-- A remote check with the methods `GOLEM, SMS`. -/
def golemSmsCheck : jugglerCheck := { emptyCheck with Methods := ["GOLEM", "SMS"] }

/-- The global flap setting of the flap examples. -/
def globalFlap : jugglerFlapConfig :=
  { Enable := 1, BoostTime := 0, StableTime := 60, CriticalTime := 0 }

/-- An enabled per-service flap setting. -/
def serviceFlap : jugglerFlapConfig :=
  { Enable := 1, BoostTime := 1, StableTime := 2, CriticalTime := 3 }

/-- A sender with a flap override for service `s` that is not enabled and an
enabled global flap setting. -/
def disabledOverrideSender : Sender :=
  { baseSender with
    ChecksOptions := [("s", { serviceFlap with Enable := 0 })]
    Flap := some globalFlap }

/-- A remote check of service `s` without flap settings. -/
def plainCheck : jugglerCheck := { emptyCheck with Host := "h", Service := "s" }

/-- The receiver after the seven attribute steps: every default written back. -/
def withDefaults (js : Sender) : Sender :=
  { js with
    TTL := if js.TTL = 0 then 900 else js.TTL
    Methods := (defaultMethods js).Methods
    Tags := (defaultTags js).Tags
    Description := if js.Description = "" then js.CheckName else js.Description
    Namespace := if js.Namespace = "" then "combaine" else js.Namespace }

/-- The checks of the entries marked for update, in the order of the entries:
the arguments of the update calls of a pass in which no call fails. -/
def markedChecks (entries : List (String × jugglerCheck)) : List jugglerCheck :=
  (entries.filter (fun p => p.2.Update)).map (fun p => p.2)

/-- Go `hostChecks[h][s]` for a host and a service. -/
def checkOf (hostChecks : jugglerResponse) (h s : String) : Option jugglerCheck :=
  match mapGet hostChecks h with
  | some services => mapGet services s
  | none => none

/-- The state of a fetched response: every dirty flag cleared (the flag is not
part of the JSON form, `json:"-"`). -/
def clearUpdate (hostChecks : jugglerResponse) : jugglerResponse :=
  hostChecks.map (fun p => (p.1, p.2.map (fun q => (q.1, { q.2 with Update := false }))))

/-- A sender with an enabled flap override for service `s` and an enabled
global flap setting that differs from it. -/
def overrideSender : Sender :=
  { baseSender with ChecksOptions := [("s", serviceFlap)], Flap := some globalFlap }

/-- A stale cache store with an entry for host `h` and one for host `x`. -/
def twoEntryStore : CacheStore :=
  [("h", { expires := 0, value := "", err := none }),
   ("x", { expires := 0, value := "", err := none })]

/-- The remote flap of a check as `ensureFlap` compares it: enable bit forced
to 1, the empty flap standing in for a missing one (api.go:330-333). -/
def forcedFlap (c : jugglerCheck) : jugglerFlapConfig :=
  { (c.Flap.getD emptyFlap) with Enable := 1 }

/-- A remote check whose attributes are equal to the ones the sender desires:
TTL, aggregator arguments, methods, tags, description and namespace equal to
the configured values after defaulting, and the flap equal to the enabled
override of the check's Service or, without an override, to the enabled global
setting. -/
def attributesInSync (js : Sender) (c : jugglerCheck) : Prop :=
  c.TTL = (withDefaults js).TTL ∧
  c.AggregatorKWArgs = js.AggregatorKWArgs ∧
  c.Methods = (withDefaults js).Methods ∧
  c.Tags = (withDefaults js).Tags ∧
  c.Description = (withDefaults js).Description ∧
  c.Namespace = (withDefaults js).Namespace ∧
  (∀ f, mapGet js.ChecksOptions c.Service = some f → f.Enable = 1 → forcedFlap c = f) ∧
  (∀ g, mapGet js.ChecksOptions c.Service = none → js.Flap = some g → g.Enable = 1 →
    forcedFlap c = g)

/-- A remote check of service `s` in sync with `baseSender`, with child host `a`. -/
def syncedCheck : jugglerCheck :=
  { emptyCheck with
    Host := "h", Service := "s", Description := "chk", TTL := 900, Tags := ["combaine"],
    Methods := ["GOLEM"], Namespace := "combaine",
    Children := [{ Instance := "", Host := "a", Type_ := "HOST", Service := "s" }] }

/-! ## The multi-host read (api.go:105-136) -/

/-- The text of `context.Canceled`. -/
def canceledText : String := "context canceled"

/-- The text of `context.DeadlineExceeded`. -/
def deadlineExceededText : String := "context deadline exceeded"

/-- The backend as seen by `checkFetcher`: the outcome of `chttp.Get` for a host
and a query, given the number of GETs issued before it.  `chttp.Get` takes the
URL, so `badRequest` stands for one more kind of error it returns. -/
abbrev GetBackend := Nat → String → String → HttpOutcome

/-- What `checkFetcher` returns, with the hosts handed to `chttp.Get`, in order. -/
structure FetchResult where
  body : Option String
  err : Option GoError
  gets : List String
  deriving DecidableEq, Repr

/-- The loop labelled `GET_CHECK` with the final return of `checkFetcher`
(api.go:107-135); `jerrors` holds the texts of the collected errors. -/
def checkFetcherHosts (net : GetBackend) (q : String) :
    List String → List String → List String → FetchResult
  | [], jerrors, gets => { body := none, err := some (.getCheckFailed jerrors), gets := gets }
  | jhost :: rest, jerrors, gets =>
    match net gets.length jhost q with
    | .response status body =>
      if status ≠ 200 then
        checkFetcherHosts net q rest
          (jerrors ++ [jhost ++ ": " ++ toString status ++ " " ++ body]) (gets ++ [jhost])
      else { body := some body, err := none, gets := gets ++ [jhost] }
    | .readError msg =>
      checkFetcherHosts net q rest (jerrors ++ [jhost ++ ": " ++ msg]) (gets ++ [jhost])
    | .canceled =>
      { body := none, err := some (.getCheckFailed (jerrors ++ [canceledText])),
        gets := gets ++ [jhost] }
    | .deadlineExceeded =>
      { body := none, err := some (.getCheckFailed (jerrors ++ [deadlineExceededText])),
        gets := gets ++ [jhost] }
    | .netError msg =>
      checkFetcherHosts net q rest (jerrors ++ [jhost ++ ": " ++ msg]) (gets ++ [jhost])
    | .badRequest msg =>
      checkFetcherHosts net q rest (jerrors ++ [jhost ++ ": " ++ msg]) (gets ++ [jhost])

/-- The closure `checkFetcher` of `getCheck` (api.go:105-136). -/
def checkFetcher (net : GetBackend) (q : String) (hosts : List String) : FetchResult :=
  checkFetcherHosts net q hosts [] []

/-- The elements of a slice as `fmt` prints them: separated by one blank. -/
def joinBlank : List String → String
  | [] => ""
  | [a] => a
  | a :: b :: rest => a ++ " " ++ joinBlank (b :: rest)

/-- The text of the error of api.go:135, `"Failed to get juggler check: %q"`
applied to `jerrors`: the quoted texts, separated by blanks, in brackets.
`quote` is `strconv.Quote`. -/
def getCheckErrorText (quote : String → String) (jerrors : List String) : String :=
  "Failed to get juggler check: [" ++ joinBlank (jerrors.map quote) ++ "]"

/-- An outcome after which a host loop goes on to the next host: a response
with a status other than 200, an unreadable body, or an error of the transport
that is not a context error. -/
def HttpOutcome.remoteFailure : HttpOutcome → Bool
  | .response status _ => decide (status ≠ 200)
  | .readError _ => true
  | .netError _ => true
  | _ => false

/-- The key under which `updateCheck` records a remote failure in `errs`
(api.go:420, 426, 436). -/
def HttpOutcome.failureKey : HttpOutcome → String
  | .response _ body => body
  | .readError msg => msg
  | .netError msg => msg
  | .badRequest msg => msg
  | .canceled => canceledText
  | .deadlineExceeded => deadlineExceededText

/-- The text `checkFetcher` appends to `jerrors` for a failure of a host
(api.go:118, 122, 131). -/
def HttpOutcome.fetchFailureText (jhost : String) : HttpOutcome → String
  | .response status body => jhost ++ ": " ++ toString status ++ " " ++ body
  | .readError msg => jhost ++ ": " ++ msg
  | .netError msg => jhost ++ ": " ++ msg
  | .badRequest msg => jhost ++ ": " ++ msg
  | .canceled => canceledText
  | .deadlineExceeded => deadlineExceededText

/-! ## The cache read (cache.go:45-79) -/

/-- What `cache.Get` returns and leaves behind; `fetched` tells whether the
fetch function was invoked. -/
structure GetResult where
  value : String
  err : Option GoError
  store : CacheStore
  fetched : Bool
  deriving DecidableEq, Repr

/-- The method `cache.Get` (cache.go:46-79) for a caller that runs alone, so
that an entry found in the store is ready.  `f` is what the fetch function
returns when invoked, `now1` the clock at cache.go:52, `now2` the clock at
cache.go:72.  Times and durations are integers (nanoseconds); `Sub` saturates
without changing the sign it is tested for. -/
def cacheGet (store : CacheStore) (ttl : Int) (key : String) (f : String × Option GoError)
    (now1 now2 : Int) : GetResult :=
  match mapGet store key with
  | none =>
    let item : itemType := { expires := now1 + ttl, value := f.1, err := f.2 }
    let store := mapSet store key item
    let store := if item.err ≠ none then mapDelete store key else store
    let store := if now2 - item.expires ≥ 0 then mapDelete store key else store
    { value := item.value, err := item.err, store := store, fetched := true }
  | some item =>
    let store := if now2 - item.expires ≥ 0 then mapDelete store key else store
    { value := item.value, err := item.err, store := store, fetched := false }

/-- The non-children attributes of a check: TTL, aggregator and its arguments,
methods, flap, tags, description and namespace. -/
def attributesOf (c : jugglerCheck) :
    Int × String × aggKWArgs × List String × Option jugglerFlapConfig × List String ×
      String × String :=
  (c.TTL, c.Aggregator, c.AggregatorKWArgs, c.Methods, c.Flap, c.Tags, c.Description,
    c.Namespace)

/-- An outcome after which `checkFetcher` goes on to the next host: a remote
failure or any other error of `chttp.Get` that is not a context error. -/
def HttpOutcome.fetchFailure : HttpOutcome → Bool
  | .badRequest _ => true
  | o => o.remoteFailure

/-- The context error an outcome stands for, if any. -/
def HttpOutcome.contextError : HttpOutcome → Option GoError
  | .canceled => some .canceled
  | .deadlineExceeded => some .deadlineExceeded
  | _ => none

/-- The outcomes a host loop meets when it contacts `hosts` in order, the first
of them as request number `n`. -/
def outcomesFrom (net : Nat → String → HttpOutcome) : Nat → List String → List HttpOutcome
  | _, [] => []
  | n, host :: rest => net n host :: outcomesFrom net (n + 1) rest

/-- The map `errs` of `updateCheck` after the failures `outcomes` were recorded
in it one after the other. -/
def failureKeys (errs : List String) (outcomes : List HttpOutcome) : List String :=
  outcomes.foldl (fun e o => errsSet e o.failureKey) errs

/-- The texts `checkFetcher` appends to `jerrors` for the failures `outcomes`
of `hosts`. -/
def fetchFailureTexts (hosts : List String) (outcomes : List HttpOutcome) : List String :=
  List.zipWith (fun jhost o => o.fetchFailureText jhost) hosts outcomes

/-- A read backend whose host `good` answers and whose other hosts are
unreachable. -/
def oneGoodHost : GetBackend := fun _ host _ =>
  if host = "good" then .response 200 "checks" else .netError "connection refused"

/-- A backend that answers every update with status 201. -/
def answerCreated : Backend := fun _ _ _ => .response 201 "created"

/-- A backend that rejects the first update and lets the second meet the deadline. -/
def rejectThenDeadline : Backend := fun n _ _ =>
  if n = 0 then .response 500 "no" else .deadlineExceeded

/-- A read backend that rejects the first read and lets the second meet the deadline. -/
def readRejectThenDeadline : GetBackend := fun n _ _ =>
  if n = 0 then .response 500 "no" else .deadlineExceeded

/-- A store with a ready entry for key `h` that expires at time 10. -/
def oneEntryStore : CacheStore :=
  [("h", { expires := 10, value := "cached", err := none })]

/-! ## The background sweep (cache.go:88-111) -/

/-- The keys `cache.cleaner` collects in `staleItems` during one walk over the
store (cache.go:95-100), the clock reading `now` at every entry. -/
def staleItems (store : CacheStore) (now : Int) : List String :=
  (store.filter (fun kv => decide (now - kv.2.expires > 0))).map Prod.fst

/-- One round of the loop of `cache.cleaner` after its sleep (cache.go:94-108),
run without a concurrent `Get`: the stale keys are collected, then deleted. -/
def cleanerPass (store : CacheStore) (now : Int) : CacheStore :=
  let stale := staleItems store now
  if stale.length > 0 then stale.foldl mapDelete store else store

/-- Whether the test of `cache.Get` (cache.go:72) evicts an entry at time `now`. -/
def expiredForGet (item : itemType) (now : Int) : Bool :=
  decide (now - item.expires ≥ 0)

/-! ## Script values (gopher-lua) -/

/-- A float64, by the number it stands for: a rational for a finite value
(negative zero is not told from zero), an infinity, or a NaN.  The code never
computes with floats; it converts integers to them and hands them on. -/
inductive Float64 where
  | finite (q : ℚ)
  | inf (negative : Bool)
  | nan
  deriving DecidableEq, Repr

/-- The number of binary digits of `n`, for any `fuel` of at least that many. -/
def bitLen : Nat → Nat → Nat
  | 0, _ => 0
  | fuel + 1, n => if n = 0 then 0 else bitLen fuel (n / 2) + 1

/-- The Go conversion `float64(i)` of an integer, as an integer: `i` rounded
to 53 significant binary digits, a tie going to the even neighbour.  No 64-bit
integer is out of the range of float64. -/
def roundToFloat64 (i : Int) : Int :=
  let a := i.natAbs
  let sh := bitLen a a - 53
  let q := a / 2 ^ sh
  let r := a % 2 ^ sh
  let q' := if 2 * r > 2 ^ sh ∨ (2 * r = 2 ^ sh ∧ q % 2 = 1) then q + 1 else q
  Int.sign i * ((q' * 2 ^ sh : Nat) : Int)

/-- Go `float64(i)`, which is also `lua.LNumber(i)` for an integer `i`. -/
def Float64.ofInt (i : Int) : Float64 := .finite (roundToFloat64 i)

/-- A `lua.LValue`: nil, a boolean, a number, a string, a table, or a value of
another kind (function, userdata, thread, channel).  A table is kept as its
three parts: the array part (the value at index `i + 1` at position `i`), the
entries with a string key, and the entries with any other key.  The order of
the lists is the order in which `ForEach` visits the part. -/
inductive LValue where
  | LNil
  | LBool (b : Bool)
  | LNumber (x : Float64)
  | LString (s : String)
  | LTable (array : List LValue) (strdict : List (String × LValue))
      (dict : List (LValue × LValue))
  | LOther
  deriving Repr

/-- A `*lua.LTable` that is not nil. -/
structure LTable where
  array : List LValue
  strdict : List (String × LValue)
  dict : List (LValue × LValue)
  deriving Repr

/-- A table as a script value. -/
def LTable.toLValue (t : LTable) : LValue := .LTable t.array t.strdict t.dict

/-- Go `v == lua.LNil`. -/
def LValue.isNil : LValue → Bool
  | .LNil => true
  | _ => false

/-- The function `lua.LVAsString`: the text of a string or of a number, and the
empty string for any other value.  `fmtNumber` is `LNumber.String`. -/
def LVAsString (fmtNumber : Float64 → String) : LValue → String
  | .LString s => s
  | .LNumber x => fmtNumber x
  | _ => ""

/-- The method `LTable.RawGetString`: the value under a string key, `LNil`
when there is none. -/
def rawGetString (t : LTable) (key : String) : LValue :=
  match mapGet t.strdict key with
  | some v => v
  | none => .LNil

/-- The method `LTable.RawSetString` on the string-keyed part: storing nil
removes the key. -/
def rawSetString (strdict : List (String × LValue)) (key : String) (value : LValue) :
    List (String × LValue) :=
  match value with
  | .LNil => mapDelete strdict key
  | v => mapSet strdict key v

/-- The method `LTable.Append` on an array part that does not end in nil:
appending nil does nothing. -/
def tableAppend (array : List LValue) (value : LValue) : List LValue :=
  match value with
  | .LNil => array
  | v => array ++ [v]

/-- The pairs `LTable.ForEach` hands to its callback, in order: the array part
under the keys 1, 2, ..., then the string keys, then the other keys; a nil
value is skipped. -/
def forEach (t : LTable) : List (LValue × LValue) :=
  ((t.array.enum.map fun iv => (LValue.LNumber (.finite (iv.1 + 1 : Nat)), iv.2)) ++
    (t.strdict.map fun kv => (LValue.LString kv.1, kv.2)) ++ t.dict).filter
    fun kv => !kv.2.isNil

/-! ## Decoding the result of a plugin (plugins.go:133-186) -/

/-- The fields of the event that `luaResultToJugglerEvents` of plugins.go
writes: `Tags` is a `map[string]string` there, `Level` a string. -/
structure pluginEvent where
  Tags : List (String × String)
  Description : String
  Service : String
  Level : String
  deriving DecidableEq, Repr

/-- The map `je.Tags` after the inner `ForEach` (plugins.go:155-158) went over
the pairs `tags`. -/
def luaTags (fmtNumber : Float64 → String) (tags : List (LValue × LValue)) :
    List (String × String) :=
  tags.foldl (fun m kv => mapSet m (LVAsString fmtNumber kv.1) (LVAsString fmtNumber kv.2)) []

/-- The description of an item (plugins.go:167-169). -/
def itemDescription (fmtNumber : Float64 → String) (lt : LTable) : String :=
  let description := LVAsString fmtNumber (rawGetString lt "description")
  if description = "" then "no trigger description" else description

/-- The service of an item (plugins.go:170-172). -/
def itemService (fmtNumber : Float64 → String) (lt : LTable) : String :=
  let service := LVAsString fmtNumber (rawGetString lt "service")
  if service = "" then "UnknownServce" else service

/-- The body of the callback of plugins.go:142-181 for the pair `k`, `v`: the
key it records in `errs` before it returns, or the event it appends. -/
def itemEvent (fmtNumber : Float64 → String) (k v : LValue) : Except String pluginEvent :=
  match v with
  | .LTable array strdict dict =>
    let lt : LTable := { array := array, strdict := strdict, dict := dict }
    match rawGetString lt "tags" with
    | .LTable tarray tstrdict tdict =>
      let tags := luaTags fmtNumber (forEach { array := tarray, strdict := tstrdict, dict := tdict })
      match mapGet tags "type" with
      | none =>
        let name := match mapGet tags "name" with
          | some entity => entity
          | none => "UnknownEntity"
        .error ("Missing tag type for " ++ name)
      | some _ =>
        match rawGetString lt "level" with
        | .LNil =>
          .ok { Tags := tags, Description := itemDescription fmtNumber lt ++ " (force OK)",
                Service := itemService fmtNumber lt, Level := "OK" }
        | lvl =>
          .ok { Tags := tags, Description := itemDescription fmtNumber lt,
                Service := itemService fmtNumber lt, Level := LVAsString fmtNumber lvl }
    | _ => .error ("Failed to get tags from lua result[" ++ LVAsString fmtNumber k ++ "]")
  | _ =>
    .error ("Failed to convert: result[" ++ LVAsString fmtNumber k ++ "]=" ++
      LVAsString fmtNumber v ++ " is not lua table")

/-- The variables `errs` (by its keys) and `events` of `luaResultToJugglerEvents`. -/
structure DecodeState where
  errs : List String
  events : List pluginEvent
  deriving DecidableEq, Repr

/-- One call of the callback of plugins.go:142-181. -/
def decodeItem (fmtNumber : Float64 → String) (st : DecodeState) (kv : LValue × LValue) :
    DecodeState :=
  match itemEvent fmtNumber kv.1 kv.2 with
  | .error msg => { st with errs := errsSet st.errs msg }
  | .ok je => { st with events := st.events ++ [je] }

/-- The text of `fmt.Errorf("%s", errs)` for a map whose values are all empty:
`key:` for every key, separated by blanks, after `map[` and before `]`.
`order` is the order in which `fmt` prints the keys. -/
def errsText (order : List String → List String) (errs : List String) : String :=
  "map[" ++ joinBlank ((order errs).map fun k => k ++ ":") ++ "]"

/-- The method `Sender.luaResultToJugglerEvents` (plugins.go:135-186); `none`
is a nil table. -/
def luaResultToJugglerEvents (fmtNumber : Float64 → String) (order : List String → List String)
    (result : Option LTable) : Except GoError (List pluginEvent) :=
  match result with
  | none => .error (.errorf "lua plugin result is nil")
  | some t =>
    let st := (forEach t).foldl (decodeItem fmtNumber) { errs := [], events := [] }
    if st.errs.length > 0 then .error (.errorf (errsText order st.errs)) else .ok st.events

/-- An item that passes the checks of plugins.go:143-166: a table whose `tags`
field is a table in which the tag `type` is set. -/
def validItem (fmtNumber : Float64 → String) (v : LValue) : Bool :=
  match v with
  | .LTable array strdict dict =>
    match rawGetString { array := array, strdict := strdict, dict := dict } "tags" with
    | .LTable tarray tstrdict tdict =>
      (mapGet (luaTags fmtNumber
        (forEach { array := tarray, strdict := tstrdict, dict := tdict })) "type").isSome
    | _ => false
  | _ => false

/-! ## Marshaling to script values (plugins.go:14-131) -/

/-- A Go value as `reflect` sorts it in `toLuaValue` and in the dumpers: a
float (32 or 64 bits), a signed integer, an unsigned integer (`uintptr`
included), a string, a boolean, a `[]byte` by its text, any other slice or
array, a map by the `%s` text of its keys in the order of `MapKeys`, a struct
by its fields (all exported; `Interface` panics on another one, a case the
embedding leaves out), the nil interface, and a value of any other kind
(pointer, complex, channel, ...). -/
inductive GoAny where
  | float (x : Float64)
  | int (i : Int)
  | uint (n : Nat)
  | string (s : String)
  | bool (b : Bool)
  | bytes (s : String)
  | slice (xs : List GoAny)
  | map (kvs : List (String × GoAny))
  | struct (fields : List (String × GoAny))
  | nil
  | other
  deriving Repr

/-- The errors of the dumpers: the one of `strconv.ParseFloat`, the one of
plugins.go:110 and the one of plugins.go:128, each with the value that
determines its text. -/
inductive DumpError where
  | parseFloat (s : String)
  | notANumber (v : GoAny)
  | unexpected (v : GoAny)
  deriving Repr

/-- The type `dumperFunc` (plugins.go:14). -/
abbrev dumperFunc := GoAny → Except DumpError LValue

mutual
/-- The function `toLuaValue` (plugins.go:49-93). -/
def toLuaValue (dumper : dumperFunc) : GoAny → Except DumpError LValue
  | .bytes s => dumper (.string s)
  | .slice xs => toLuaItems dumper [] xs
  | .map kvs => toLuaFields dumper [] kvs
  | .struct fields => toLuaFields dumper [] fields
  | v => dumper v

/-- The loop of plugins.go:58-66 from some element on; `inTable` is the array
part built so far. -/
def toLuaItems (dumper : dumperFunc) (inTable : List LValue) :
    List GoAny → Except DumpError LValue
  | [] => .ok (.LTable inTable [] [])
  | item :: rest =>
    match toLuaValue dumper item with
    | .error err => .error err
    | .ok v => toLuaItems dumper (tableAppend inTable v) rest

/-- The loops of plugins.go:69-77 and 81-89 from some entry on; `inTable` is
the string-keyed part built so far. -/
def toLuaFields (dumper : dumperFunc) (inTable : List (String × LValue)) :
    List (String × GoAny) → Except DumpError LValue
  | [] => .ok (.LTable [] inTable [])
  | (key, item) :: rest =>
    match toLuaValue dumper item with
    | .error err => .error err
    | .ok v => toLuaFields dumper (rawSetString inTable key v) rest
end

/-- The function `dumperToLuaNumber` (plugins.go:95-113); `parseFloat` is
`strconv.ParseFloat` at 64 bits, `none` when it returns an error. -/
def dumperToLuaNumber (parseFloat : String → Option Float64) : dumperFunc
  | .float x => .ok (.LNumber x)
  | .int i => .ok (.LNumber (.ofInt i))
  | .uint n => .ok (.LNumber (.ofInt n))
  | .string s =>
    match parseFloat s with
    | some num => .ok (.LNumber num)
    | none => .error (.parseFloat s)
  | v => .error (.notANumber v)

/-- The function `dumperToLuaValue` (plugins.go:115-131). -/
def dumperToLuaValue : dumperFunc
  | .float x => .ok (.LNumber x)
  | .int i => .ok (.LNumber (.ofInt i))
  | .uint n => .ok (.LNumber (.ofInt n))
  | .string s => .ok (.LString s)
  | .bool b => .ok (.LBool b)
  | v => .error (.unexpected v)

/-- The loop of `jPluginConfigToLuaTable` (plugins.go:18-24) from some entry
on; `table` is the string-keyed part built so far. -/
def jPluginConfigLoop (table : List (String × LValue)) :
    List (String × GoAny) → Except DumpError LTable
  | [] => .ok { array := [], strdict := table, dict := [] }
  | (name, value) :: rest =>
    match toLuaValue dumperToLuaValue value with
    | .error err => .error err
    | .ok val => jPluginConfigLoop (rawSetString table name val) rest

/-- The function `jPluginConfigToLuaTable` (plugins.go:16-26); the
configuration is a map, visited in the order of the list. -/
def jPluginConfigToLuaTable (config : List (String × GoAny)) : Except DumpError LTable :=
  jPluginConfigLoop [] config

/-- The fields of `common.AggregationResult` that plugins.go reads. -/
structure AggregationResult where
  Tags : List (String × String)
  Result : GoAny
  deriving Repr

/-- The table `tags` of plugins.go:33-36 for the tags of one result. -/
def tagsTable (tags : List (String × String)) : LValue :=
  .LTable [] (tags.foldl (fun t kv => rawSetString t kv.1 (.LString kv.2)) []) []

/-- The loop of `dataToLuaTable` (plugins.go:30-45) from some result on; `out`
is the array part built so far. -/
def dataToLuaTableLoop (parseFloat : String → Option Float64) (out : List LValue) :
    List AggregationResult → Except DumpError LTable
  | [] => .ok { array := out, strdict := [], dict := [] }
  | item :: rest =>
    let table := rawSetString [] "Tags" (tagsTable item.Tags)
    match toLuaValue (dumperToLuaNumber parseFloat) item.Result with
    | .error err => .error err
    | .ok val =>
      let table := rawSetString table "Result" val
      dataToLuaTableLoop parseFloat (tableAppend out (.LTable [] table [])) rest

/-- The function `dataToLuaTable` (plugins.go:28-47). -/
def dataToLuaTable (parseFloat : String → Option Float64) (data : List AggregationResult) :
    Except DumpError LTable :=
  dataToLuaTableLoop parseFloat [] data

mutual
/-- The leaves of a value: what `toLuaValue` hands to the dumper, in the order
of the walk.  A `[]byte` is one leaf. -/
def leaves : GoAny → List GoAny
  | .slice xs => leavesOfItems xs
  | .map kvs => leavesOfFields kvs
  | .struct fields => leavesOfFields fields
  | v => [v]

/-- The leaves of the elements of a slice. -/
def leavesOfItems : List GoAny → List GoAny
  | [] => []
  | item :: rest => leaves item ++ leavesOfItems rest

/-- The leaves of the values of a map or of the fields of a struct. -/
def leavesOfFields : List (String × GoAny) → List GoAny
  | [] => []
  | (_, item) :: rest => leaves item ++ leavesOfFields rest
end

/-- A leaf that is a float, a signed or unsigned integer, or a string or
`[]byte` whose text `parseFloat` accepts. -/
def numericLeaf (parseFloat : String → Option Float64) : GoAny → Bool
  | .float _ => true
  | .int _ => true
  | .uint _ => true
  | .string s => (parseFloat s).isSome
  | .bytes s => (parseFloat s).isSome
  | _ => false

/-- The entry `dataToLuaTable` appends for a result whose `Result` converts to
`val` (plugins.go:31-44). -/
def resultEntry (item : AggregationResult) (val : LValue) : LValue :=
  .LTable [] [("Tags", tagsTable item.Tags), ("Result", val)] []

/-! ## Inputs of the examples for the cache sweep, the decoder and the marshaling -/

/-- A formatter of numbers for the examples: the decimal text of a whole
number. -/
def fmtWhole : Float64 → String
  | .finite q => if q.den = 1 then toString q.num else "?"
  | _ => "?"

/-- A number parser for the examples: it knows the texts `12` and `0.5`. -/
def parseSample (s : String) : Option Float64 :=
  if s = "12" then some (.finite 12) else if s = "0.5" then some (.finite (1 / 2)) else none

/-- A table with string keys only. -/
def record (fields : List (String × LValue)) : LValue := .LTable [] fields []

/-- A result item with the tags `type` and `name` and the given other fields. -/
def taggedItem (fields : List (String × LValue)) : LValue :=
  record (("tags", record [("type", .LString "host"), ("name", .LString "front")]) :: fields)

/-- A result item whose tags lack `type`; `name` is set. -/
def untypedItem : LValue :=
  record [("tags", record [("name", .LString "front")]), ("level", .LString "CRIT")]

/-- A result item whose tags lack both `type` and `name`. -/
def namelessItem : LValue :=
  record [("tags", record [("role", .LString "db")])]

/-- A script result that is a sequence of items. -/
def resultOf (items : List LValue) : LTable := { array := items, strdict := [], dict := [] }

/-! ## Reading converted values back (the round trip of the numeric mode) -/

/-- Go `x == y` on float64: a NaN is equal to nothing, itself included. -/
def Float64.numEq (x y : Float64) : Bool :=
  decide (x ≠ .nan ∧ x = y)

/-- A numeric leaf is numerically equal to the script number `y`: a float or an
integer by its value, a string or `[]byte` by the number `parseFloat` reads
from its text. -/
def leafEqual (parseFloat : String → Option Float64) : GoAny → Float64 → Bool
  | .float x, y => x.numEq y
  | .int i, y => Float64.numEq (.finite i) y
  | .uint n, y => Float64.numEq (.finite n) y
  | .string s, y =>
    match parseFloat s with
    | some x => x.numEq y
    | none => false
  | .bytes s, y =>
    match parseFloat s with
    | some x => x.numEq y
    | none => false
  | _, _ => false

mutual
/-- The script value `lv` has the shape of the Go value: a sequence with one
entry per element of a slice, in order; a table with one string key per entry
of a map or field of a struct, in order; a number for a leaf, accepted by
`leaf`. -/
def readsBack (leaf : GoAny → Float64 → Bool) : GoAny → LValue → Bool
  | .slice xs, lv =>
    match lv with
    | .LTable ys [] [] => readsBackItems leaf xs ys
    | _ => false
  | .map kvs, lv =>
    match lv with
    | .LTable [] fs [] => readsBackFields leaf kvs fs
    | _ => false
  | .struct fields, lv =>
    match lv with
    | .LTable [] fs [] => readsBackFields leaf fields fs
    | _ => false
  | v, lv =>
    match lv with
    | .LNumber y => leaf v y
    | _ => false

/-- The elements of a slice against the entries of a sequence. -/
def readsBackItems (leaf : GoAny → Float64 → Bool) : List GoAny → List LValue → Bool
  | [], ys => ys.isEmpty
  | item :: rest, ys =>
    match ys with
    | y :: ys' => readsBack leaf item y && readsBackItems leaf rest ys'
    | [] => false

/-- The entries of a map against the string-keyed entries of a table. -/
def readsBackFields (leaf : GoAny → Float64 → Bool) :
    List (String × GoAny) → List (String × LValue) → Bool
  | [], fs => fs.isEmpty
  | (key, item) :: rest, fs =>
    match fs with
    | (key', y) :: fs' =>
      decide (key = key') && readsBack leaf item y && readsBackFields leaf rest fs'
    | [] => false
end

mutual
/-- Every map of the value has distinct keys and every struct distinct field
names, as in Go. -/
def distinctKeys : GoAny → Bool
  | .slice xs => distinctKeysItems xs
  | .map kvs => decide (kvs.map Prod.fst).Nodup && distinctKeysFields kvs
  | .struct fields => decide (fields.map Prod.fst).Nodup && distinctKeysFields fields
  | _ => true

/-- The elements of a slice have distinct keys in their maps. -/
def distinctKeysItems : List GoAny → Bool
  | [] => true
  | item :: rest => distinctKeys item && distinctKeysItems rest

/-- The values of a map have distinct keys in their maps. -/
def distinctKeysFields : List (String × GoAny) → Bool
  | [] => true
  | (_, item) :: rest => distinctKeys item && distinctKeysFields rest
end

/-- A numeric leaf that float64 holds without loss: a float other than NaN, an
integer that its conversion to float64 leaves as it is, a text that
`parseFloat` reads as a number other than NaN. -/
def exactLeaf (parseFloat : String → Option Float64) : GoAny → Bool
  | .float x => decide (x ≠ .nan)
  | .int i => decide (roundToFloat64 i = i)
  | .uint n => decide (roundToFloat64 n = n)
  | .string s =>
    match parseFloat s with
    | some x => decide (x ≠ .nan)
    | none => false
  | .bytes s =>
    match parseFloat s with
    | some x => decide (x ≠ .nan)
    | none => false
  | _ => false

/-! ## Reading the checks of a host (api.go:90-157) -/

/-- One service object of the response as the two calls of `json.Unmarshal`
(api.go:143, 147) read it: as a `jugglerCheck`, and as a `jugglerFlapConfig`
by the members `boost_time`, `stable_time` and `critical_time` of the same
object.  An object that is `null` is left out: api.go:151 would dereference a
nil pointer for it. -/
structure decodedService where
  check : jugglerCheck
  flap : jugglerFlapConfig
  deriving DecidableEq, Repr

/-- What decoding the body of the response gives: the error of the first
`json.Unmarshal`, the error of the second, or both readings of every service
object of every host. -/
inductive Decoded where
  | checksError (msg : String)
  | flapsError (msg : String)
  | document (doc : List (String × List (String × decodedService)))
  deriving DecidableEq, Repr

/-- The variable `hostChecks` after api.go:143. -/
def checkView (doc : List (String × List (String × decodedService))) : jugglerResponse :=
  doc.map fun hs => (hs.1, hs.2.map fun sd => (sd.1, sd.2.check))

/-- The variable `flap` after api.go:147. -/
def flapView (doc : List (String × List (String × decodedService))) :
    List (String × List (String × jugglerFlapConfig)) :=
  doc.map fun hs => (hs.1, hs.2.map fun sd => (sd.1, sd.2.flap))

/-- The condition of api.go:152. -/
def hasFlapTimes (v : jugglerFlapConfig) : Bool :=
  decide (v.StableTime ≠ 0 ∨ v.CriticalTime ≠ 0 ∨ v.BoostTime ≠ 0)

/-- The loop of api.go:151-157 over `flap[js.Host]`, on the map
`hostChecks[js.Host]`. -/
def mergeFlaps (services : List (String × jugglerCheck))
    (flaps : List (String × jugglerFlapConfig)) : List (String × jugglerCheck) :=
  flaps.foldl (fun sv cv =>
    if hasFlapTimes cv.2 then
      let chk := match mapGet sv cv.1 with
        | some c => c
        | none => emptyCheck
      mapSet sv cv.1 { chk with Flap := some cv.2 }
    else sv) services

/-- The variable `hostChecks` after the two decodings and the loop of
api.go:143-157, for the sender's Host `host`. -/
def mergeResponse (host : String) (doc : List (String × List (String × decodedService))) :
    jugglerResponse :=
  let hostChecks := checkView doc
  match mapGet (flapView doc) host with
  | some flaps =>
    match mapGet hostChecks host with
    | some services => mapSet hostChecks host (mergeFlaps services flaps)
    | none => hostChecks
  | none => hostChecks

/-- What `getCheck` returns and leaves behind. -/
structure GetCheckResult where
  js : Sender
  hostChecks : Option jugglerResponse
  err : Option GoError
  store : CacheStore
  deriving DecidableEq, Repr

/-- The method `Sender.getCheck` (api.go:92-157).  `encodeQuery` is
`url.Values.Encode` on the tags and the host, `decode` the two calls of
`json.Unmarshal`, `net` the backend of the reads; the cache is read as in
`cacheGet`. -/
def getCheck (encodeQuery : List String → String → String) (decode : String → Decoded)
    (net : GetBackend) (store : CacheStore) (ttl now1 now2 : Int) (js : Sender) :
    GetCheckResult :=
  let js := if js.Tags.length = 0 then { js with Tags := ["combaine"] } else js
  let query := encodeQuery js.Tags js.Host
  let fetched := checkFetcher net query js.JHosts
  let body := match fetched.body with
    | some b => b
    | none => ""
  let r := cacheGet store ttl js.Host (body, fetched.err) now1 now2
  match r.err with
  | some e => { js := js, hostChecks := none, err := some e, store := r.store }
  | none =>
    match decode r.value with
    | .checksError msg =>
      { js := js, hostChecks := none,
        err := some (.errorf ("Failed to Unmarshal hostChecks: " ++ msg)), store := r.store }
    | .flapsError msg =>
      { js := js, hostChecks := none,
        err := some (.errorf ("Failed to Unmarshal flaps: " ++ msg)), store := r.store }
    | .document doc =>
      { js := js, hostChecks := some (mergeResponse js.Host doc), err := none,
        store := r.store }

/-- The check of a service after the merge of api.go:151-157: the flap reading
of its object as `Flap` when one of its times is set, the check as decoded
otherwise. -/
def mergedCheck (d : decodedService) : jugglerCheck :=
  if hasFlapTimes d.flap then { d.check with Flap := some d.flap } else d.check

/-! ## The verdict of the juggler sender on its deliveries -/

/-- What `Sender.Send` reports after its deliveries: the error it returns and
the warning it logs. -/
structure SendReport where
  err : Option GoError
  warning : Option String
  deriving DecidableEq, Repr

/-- The number of deliveries that failed. -/
def failedCount (deliveries : List Bool) : Nat :=
  (deliveries.filter fun ok => !ok).length

/-- The number of deliveries that succeeded. -/
def succeededCount (deliveries : List Bool) : Nat :=
  (deliveries.filter fun ok => ok).length

/-- The failure count out of the total, as the text `failed/total`. -/
def ratioText (failed total : Nat) : String :=
  toString failed ++ "/" ++ toString total

/-- Modelled from the spec: the aggregate step of `Sender.Send` of the juggler
sender (juggler.go, which holds `Send`, is not among the sources; only its test
is).  §4.5 step 4: if zero events succeed, return an error naming the failure
count out of total; if some succeed and some fail, log a warning and return
success.  §7: a partial failure is logged as a warning and returned as success,
a total failure is returned as an error naming the failure ratio.  §8: the
warning counts `6/12`, the error contains `12/12`.  The spec fixes the ratio in
both texts and no other wording, so the texts of the model are the ratio.
`deliveries` holds `true` for an event that was delivered. -/
def sendVerdict (deliveries : List Bool) : SendReport :=
  if succeededCount deliveries = 0 then
    { err := some (.errorf (ratioText (failedCount deliveries) deliveries.length)),
      warning := none }
  else if failedCount deliveries > 0 then
    { err := none,
      warning := some (ratioText (failedCount deliveries) deliveries.length) }
  else { err := none, warning := none }

/-- The deliveries of the partial failure of §8: 12 events, every second one
fails. -/
def sixOfTwelve : List Bool :=
  [true, false, true, false, true, false, true, false, true, false, true, false]

/-! ## The decoder of go2lua.go (go2lua.go:136-179) -/

/-- The fields of the event that `luaResultToJugglerEvents` of go2lua.go
writes; `Level` is a number there. -/
structure Go2lua.jugglerEvent where
  Host : String
  Description : String
  Service : String
  Level : Int
  deriving DecidableEq, Repr

/-- The table `jLevels` (go2lua.go:18-23). -/
def Go2lua.jLevels : List (String × Int) :=
  [("OK", 0), ("WARN", 1), ("CRIT", 2), ("INFO", 3)]

/-- The variables `errs` and `events` of the decoder of go2lua.go. -/
structure Go2lua.DecodeState where
  errs : List String
  events : List Go2lua.jugglerEvent
  deriving DecidableEq, Repr

/-- One call of the callback of go2lua.go:148-174; `none` is the run-time
panic of a method called on a nil `*lua.LTable`.  After a failed conversion
`lt, ok := v.(*lua.LTable)` the callback records the error and goes on to
`lt.RawGetString("host")` with `lt == nil`. -/
def Go2lua.decodeItem (fmtNumber : Float64 → String) (defaultLevel : String)
    (st : Go2lua.DecodeState) (kv : LValue × LValue) : Option Go2lua.DecodeState :=
  match kv.2 with
  | .LTable array strdict dict =>
    let lt : LTable := { array := array, strdict := strdict, dict := dict }
    let host := LVAsString fmtNumber (rawGetString lt "host")
    if host = "" then some { st with errs := st.errs ++ ["UnknownHost in event"] }
    else
      let description := LVAsString fmtNumber (rawGetString lt "description")
      let description := if description = "" then "no trigger description" else description
      let service := LVAsString fmtNumber (rawGetString lt "service")
      let service := if service = "" then "UnknownServce" else service
      let level := LVAsString fmtNumber (rawGetString lt "level")
      let je : Go2lua.jugglerEvent :=
        match mapGet Go2lua.jLevels level with
        | some l => { Host := host, Description := description, Service := service, Level := l }
        | none =>
          { Host := host,
            Description := description ++ " (Forse status " ++ defaultLevel ++ ")",
            Service := service,
            Level := match mapGet Go2lua.jLevels defaultLevel with
              | some l => l
              | none => 0 }
      some { st with events := st.events ++ [je] }
  | _ => none

/-- The callback over the pairs of `ForEach`, up to the first panic. -/
def Go2lua.decodeItems (fmtNumber : Float64 → String) (defaultLevel : String) :
    Go2lua.DecodeState → List (LValue × LValue) → Option Go2lua.DecodeState
  | st, [] => some st
  | st, kv :: rest =>
    match Go2lua.decodeItem fmtNumber defaultLevel st kv with
    | some st' => Go2lua.decodeItems fmtNumber defaultLevel st' rest
    | none => none

/-- How a call of the decoder of go2lua.go ends: with a run-time panic, or by
returning the events or an error. -/
inductive Go2lua.Outcome where
  | fault
  | returned (result : Except GoError (List Go2lua.jugglerEvent))
  deriving Repr

/-- The function `luaResultToJugglerEvents` of go2lua.go (go2lua.go:138-179).
`defaultCheckLevel` is the constant `DEFAULT_CHECK_LEVEL`, whose declaration
is not among the sources; the text of the error is the `%s` form of the slice
`errs`. -/
def Go2lua.luaResultToJugglerEvents (fmtNumber : Float64 → String)
    (defaultCheckLevel defaultLevel : String) (result : Option LTable) : Go2lua.Outcome :=
  let defaultLevel := if defaultLevel = "" then defaultCheckLevel else defaultLevel
  match result with
  | none => .returned (.error (.errorf "lua plugin result is nil"))
  | some t =>
    match Go2lua.decodeItems fmtNumber defaultLevel { errs := [], events := [] } (forEach t) with
    | none => .fault
    | some st =>
      if st.errs ≠ [] then .returned (.error (.errorf ("[" ++ joinBlank st.errs ++ "]")))
      else .returned (.ok st.events)

/-! ## The agave sender (agave.go:53-86, 183-240) -/

/-- What one iteration of the host loop of `sendPoint` observes: a completed
exchange whose body was read, a failing `ioutil.ReadAll`, the two context
errors returned by `chttp.Do`, any other error of `chttp.Do`. -/
inductive Agave.Outcome where
  | response (status : Nat) (body : String)
  | readError (msg : String)
  | canceled
  | deadlineExceeded
  | netError (msg : String)
  deriving DecidableEq, Repr

/-- The errors the method `sendPoint` (agave.go:206-240) sends on the channel
`e` for one URL, by their texts, in order.  `net` is the backend by host and
URL, `statusText` the field `resp.Status` of a response with a status code. -/
def Agave.sendPoint (statusText : Nat → String) (net : String → String → Agave.Outcome)
    (url : String) : List String → List String
  | [] => []
  | host :: rest =>
    match net host url with
    | .response status _ =>
      if status ≠ 200 then
        ("Bad response from agave: " ++ statusText status) ::
          Agave.sendPoint statusText net url rest
      else []
    | .readError msg => msg :: Agave.sendPoint statusText net url rest
    | .canceled => [canceledText]
    | .deadlineExceeded => [deadlineExceededText]
    | .netError msg => msg :: Agave.sendPoint statusText net url rest

/-- The method `Send` of the agave sender from agave.go:60 on, for the map
`repacked` that `as.send` returned.  `urlOf` renders the URL template for a
subgroup and its joined values (it cannot fail on these arguments); the
goroutines of the subgroups are run one after the other, the set `errs` being
the same for every schedule; `order` is the order in which `fmt` prints the
keys of `errs`. -/
def Agave.Send (statusText : Nat → String) (net : String → String → Agave.Outcome)
    (urlOf : String → String → String) (order : List String → List String)
    (hosts : List String) (repacked : List (String × List String)) : Option GoError :=
  let sent := repacked.flatMap fun sv =>
    Agave.sendPoint statusText net (urlOf sv.1 ("+".intercalate sv.2)) hosts
  let errs := sent.foldl errsSet []
  if errs.length > 0 then
    let checkByHosts := repacked.length * hosts.length
    if errs.length = checkByHosts then
      some (.errorf ("map[" ++ joinBlank ((order errs).map fun k => k ++ ":\x7b\x7d") ++ "]"))
    else none
  else none

/-! ## Inputs of the examples for the last claims -/

/-- A service object whose stable and critical times are set. -/
def timedService : decodedService :=
  { check := emptyCheck,
    flap := { Enable := 0, BoostTime := 0, StableTime := 60, CriticalTime := 90 } }

/-- A service object with an empty `flaps` member and no flap time: the JSON
object with the single member `flaps`, bound to the empty object. -/
def flapsMemberService : decodedService :=
  { check := { emptyCheck with Flap := some emptyFlap }, flap := emptyFlap }

/-- A decoder for the examples: every body is the response with host `h` and
the services `s` and `t`. -/
def sampleDecode : String → Decoded := fun _ =>
  .document [("h", [("s", flapsMemberService), ("t", timedService)]),
    ("x", [("u", timedService)])]

/-- A read backend whose hosts all answer. -/
def readyBackend : GetBackend := fun _ _ _ => .response 200 "body"

/-- A remote check in sync with `baseSender` that has flap times. -/
def flappingCheck : jugglerCheck :=
  { syncedCheck with
    Flap := some { Enable := 0, BoostTime := 0, StableTime := 60, CriticalTime := 90 } }

/-- A remote check whose aggregator arguments are those of `baseSender` and
whose aggregator is another one. -/
def otherAggregatorCheck : jugglerCheck :=
  { syncedCheck with Aggregator := "other" }

/-- The reason phrases of the examples. -/
def sampleStatusText (status : Nat) : String :=
  if status = 500 then "500 Internal Server Error" else toString status

/-- An agave backend whose hosts all answer with status 500. -/
def agaveDown : String → String → Agave.Outcome := fun _ _ => .response 500 "down"

/-- An agave backend whose host `a1` answers with status 500 and whose other
hosts are unreachable. -/
def agaveMixed : String → String → Agave.Outcome := fun host _ =>
  if host = "a1" then .response 500 "down" else .netError "connection refused"

/-! ## The update calls of a pass, one after the other -/

/-- The request log after the update calls for `checks`, made one after the
other by `updateCheck` from the request log `posts`. -/
def postsAfter (js : Sender) (net : Backend) :
    List (String × jugglerCheck) → List jugglerCheck → List (String × jugglerCheck)
  | posts, [] => posts
  | posts, c :: rest => postsAfter js net (updateCheck js net posts c).2 rest

/-- Every update call for `checks`, made one after the other by `updateCheck`
from the request log `posts`, returns no error. -/
def allAccepted (js : Sender) (net : Backend) :
    List (String × jugglerCheck) → List jugglerCheck → Bool
  | _, [] => true
  | posts, c :: rest =>
    (updateCheck js net posts c).1.isNone &&
      allAccepted js net (updateCheck js net posts c).2 rest

/-- A backend that rejects the first request with status 500 and accepts every
later one. -/
def rejectFirst : Backend := fun n _ _ =>
  if n = 0 then .response 500 "no" else .response 200 "ok"

/-- A backend that accepts the first request and rejects every later one with
status 500. -/
def rejectLater : Backend := fun n _ _ =>
  if n = 0 then .response 200 "ok" else .response 500 "no"

/-- The check that a pass of `baseSender` creates for an event of child host
`a` and service `s`. -/
def createdCheck (s : String) : jugglerCheck :=
  { Update := true, Host := "h", Service := s, Description := "chk", Aggregator := "",
    AggregatorKWArgs := { IgnoreNoData := 0, Limits := [] }, TTL := 900,
    Tags := ["combaine"], Methods := ["GOLEM"],
    Children := [{ Instance := "", Host := "a", Type_ := "HOST", Service := s }],
    Flap := none, Namespace := "" }

/-! ## Theorems -/

theorem appendMissingTags_eq (S : List String) (D : List String) (c : jugglerCheck) :
    appendMissingTags S c D =
      { c with Update := c.Update || decide (D.filter (fun t => decide (t ∉ S)) ≠ []),
               Tags := c.Tags ++ D.filter (fun t => decide (t ∉ S)) } := by
  induction D generalizing c with
  | nil => simp [appendMissingTags]
  | cons t rest ih =>
    by_cases h : t ∈ S
    · simp [appendMissingTags, h, ih]
    · simp [appendMissingTags, h, ih]

theorem limitOutdated_eq_false_iff (cv v : List (String × GoValue)) :
    limitOutdated cv v = false ↔
      ∀ kv ∈ v, ∃ x, mapGet cv kv.1 = some x ∧ x.fmtV = kv.2.fmtV := by
  unfold limitOutdated
  rw [List.any_eq_false]
  constructor
  · intro h kv hkv
    have := h kv hkv
    cases hg : mapGet cv kv.1 with
    | none => simp [hg] at this
    | some x => simp [hg] at this; exact ⟨x, rfl, this⟩
  · intro h kv hkv
    obtain ⟨x, hx, hf⟩ := h kv hkv
    simp [hx, hf]

theorem limitsOutdated_eq_false_iff (cl vl : List (List (String × GoValue)))
    (hlen : cl.length = vl.length) :
    limitsOutdated cl vl = false ↔
      ∀ (i : Nat) (cv v : List (String × GoValue)), cl[i]? = some cv → vl[i]? = some v →
        ∀ kv ∈ v, ∃ x, mapGet cv kv.1 = some x ∧ x.fmtV = kv.2.fmtV := by
  induction vl generalizing cl with
  | nil => simp [limitsOutdated]
  | cons v vs ih =>
    cases cl with
    | nil => simp at hlen
    | cons cv cl =>
      simp only [List.length_cons, add_left_inj] at hlen
      simp only [limitsOutdated, Bool.or_eq_false_iff, limitOutdated_eq_false_iff, ih cl hlen]
      constructor
      · rintro ⟨h0, hs⟩ i cv' v' hc hv
        cases i with
        | zero =>
          simp at hc hv
          subst hc; subst hv
          exact h0
        | succ j =>
          simp at hc hv
          exact hs j cv' v' hc hv
      · intro h
        refine ⟨h 0 cv v (by simp) (by simp), ?_⟩
        intro i cv' v' hc hv
        exact h (i + 1) cv' v' (by simpa using hc) (by simpa using hv)

/-- C10: after `ensureTTL` the check's TTL is the desired TTL (900 when the
configured TTL is 0), the update flag is raised exactly when the remote TTL
differed from it and is otherwise left as it was; nothing else changes. -/
theorem ensureTTL_sets_desired_ttl (js : Sender) (c : jugglerCheck) :
    (ensureTTL js c).2.TTL = (if js.TTL = 0 then 900 else js.TTL) ∧
    (ensureTTL js c).1.TTL = (if js.TTL = 0 then 900 else js.TTL) ∧
    (ensureTTL js c).2.Update =
      (c.Update || decide (c.TTL ≠ (if js.TTL = 0 then 900 else js.TTL))) ∧
    (ensureTTL js c).2 =
      { c with TTL := (if js.TTL = 0 then 900 else js.TTL),
               Update := (ensureTTL js c).2.Update } := by
  cases c
  unfold ensureTTL
  by_cases h0 : js.TTL = 0 <;> simp only [h0, if_true, if_false] <;> split <;> simp_all

/-- C4: `ensureTags` keeps the remote tags in their order and appends the
desired tags that are missing from them, in the order of the desired list; with
no remote tags the desired list is copied.  The desired list is `["combaine"]`
when none is configured.  The update flag is raised exactly when there were no
remote tags or a tag was appended. -/
theorem ensureTags_union (js : Sender) (c : jugglerCheck) :
    (defaultTags js).Tags = (if js.Tags = [] then ["combaine"] else js.Tags) ∧
    (ensureTags js c).2.Tags =
      (if c.Tags = [] then (defaultTags js).Tags
       else c.Tags ++ (defaultTags js).Tags.filter (fun t => decide (t ∉ c.Tags))) ∧
    (ensureTags js c).2.Update =
      (c.Update || decide (c.Tags = []) ||
        decide ((defaultTags js).Tags.filter (fun t => decide (t ∉ c.Tags)) ≠ [])) ∧
    c.Tags <+: (ensureTags js c).2.Tags ∧
    (ensureTags { baseSender with Tags := ["app", "combaine"] }
      { emptyCheck with Tags := ["combaine"] }).2.Tags = ["combaine", "app"] := by
  refine ⟨?_, ?_, ?_, ?_, by decide⟩
  · unfold defaultTags
    cases h : js.Tags <;> simp [defaultTag, h]
  · unfold ensureTags
    cases h : c.Tags with
    | nil => simp
    | cons t ts => simp [appendMissingTags_eq, h]
  · unfold ensureTags
    cases h : c.Tags with
    | nil => simp
    | cons t ts => simp [appendMissingTags_eq, h]
  · unfold ensureTags
    cases h : c.Tags with
    | nil => simp
    | cons t ts => simp [appendMissingTags_eq, h]

theorem aggregatorOutdated_eq_false_iff (js : Sender) (c : jugglerCheck) :
    aggregatorOutdated js c = false ↔
      (c.AggregatorKWArgs.IgnoreNoData = js.AggregatorKWArgs.IgnoreNoData ∧
       c.AggregatorKWArgs.Limits.length = js.AggregatorKWArgs.Limits.length ∧
       ∀ (i : Nat) (cv v : List (String × GoValue)),
         c.AggregatorKWArgs.Limits[i]? = some cv → js.AggregatorKWArgs.Limits[i]? = some v →
         ∀ kv ∈ v, ∃ x, mapGet cv kv.1 = some x ∧ x.fmtV = kv.2.fmtV) := by
  unfold aggregatorOutdated
  by_cases h1 : c.AggregatorKWArgs.IgnoreNoData = js.AggregatorKWArgs.IgnoreNoData
  · by_cases h2 : c.AggregatorKWArgs.Limits.length = js.AggregatorKWArgs.Limits.length
    · simp [h1, h2, limitsOutdated_eq_false_iff _ _ h2]
    · simp [h1, h2]
  · simp [h1]

/-- C7 fails as stated: the remote rule of `ruleCheck` has the key `warn`, the
desired rule of `ruleSender` does not, and `ensureAggregator` neither marks the
check nor replaces its arguments. -/
theorem ensureAggregator_misses_extra_remote_key :
    ruleCheck.Update = false ∧
    (ensureAggregator ruleSender ruleCheck).2.Update = false ∧
    (ensureAggregator ruleSender ruleCheck).2.AggregatorKWArgs.Limits = [remoteRule] ∧
    ruleSender.AggregatorKWArgs.Limits = [desiredRule] ∧
    mapGet remoteRule "warn" = some (.int 2) ∧ mapGet desiredRule "warn" = none := by
  decide

/-- C7 (amended): `ensureAggregator` leaves the check alone exactly when the
ignore-no-data flags are equal, the limit lists have the same length and, at
every position, every key of the desired rule is bound in the remote rule to a
value with the same `%v` rendering; otherwise it replaces the aggregator id and
the arguments by the desired ones and raises the update flag. -/
theorem ensureAggregator_detects_desired_keys (js : Sender) (c : jugglerCheck) :
    (aggregatorOutdated js c = false ↔
      (c.AggregatorKWArgs.IgnoreNoData = js.AggregatorKWArgs.IgnoreNoData ∧
       c.AggregatorKWArgs.Limits.length = js.AggregatorKWArgs.Limits.length ∧
       ∀ (i : Nat) (cv v : List (String × GoValue)),
         c.AggregatorKWArgs.Limits[i]? = some cv → js.AggregatorKWArgs.Limits[i]? = some v →
         ∀ kv ∈ v, ∃ x, mapGet cv kv.1 = some x ∧ x.fmtV = kv.2.fmtV)) ∧
    (ensureAggregator js c).2 =
      (if aggregatorOutdated js c then
        { c with Update := true, Aggregator := js.Aggregator,
                 AggregatorKWArgs := js.AggregatorKWArgs }
       else c) ∧
    (ensureAggregator js c).1 = js := by
  refine ⟨aggregatorOutdated_eq_false_iff js c, ?_, ?_⟩
  · unfold ensureAggregator
    split <;> rfl
  · unfold ensureAggregator
    split <;> rfl

/-- The C7 statement at a concrete pair: `ruleCheck` is left alone by
`ruleSender`, and its rule binds the desired key `crit` as desired. -/
theorem ensureAggregator_detects_desired_keys_witness :
    (ensureAggregator ruleSender ruleCheck).2 = ruleCheck ∧
    ∃ x, mapGet remoteRule "crit" = some x ∧ x.fmtV = (GoValue.int 1).fmtV := by
  have h := ensureAggregator_detects_desired_keys ruleSender ruleCheck
  have hfalse : aggregatorOutdated ruleSender ruleCheck = false := by decide
  refine ⟨by rw [h.2.1, hfalse]; rfl, ?_⟩
  exact (h.1.1 hfalse).2.2 0 remoteRule desiredRule rfl rfl ("crit", .int 1) (by simp [desiredRule])

theorem methodsOutdated_eq_true_iff (cm jm : List String) :
    methodsOutdated cm jm = true ↔ (cm.length ≠ jm.length ∨ ∃ m, m ∈ jm ∧ m ∉ cm) := by
  unfold methodsOutdated
  by_cases h : cm.length = jm.length <;> simp [h]

/-- With equal lengths and a duplicate-free `jm` contained in `cm`, every
element of `cm` is in `jm`. -/
theorem subset_of_nodup_of_length_eq (cm jm : List String) (hnd : jm.Nodup)
    (hlen : cm.length = jm.length) (hsub : ∀ m, m ∈ jm → m ∈ cm) :
    ∀ m, m ∈ cm → m ∈ jm := by
  intro m hm
  have hsub' : jm ⊆ cm := fun x hx => hsub x hx
  have hs : jm.Subperm cm := hnd.subperm hsub'
  have hp : jm.Perm cm := hs.perm_of_length_le (by omega)
  exact hp.symm.subset hm

/-- C8 fails as stated: `SMS` is a remote method of `golemSmsCheck` that is not
among the desired methods of `twiceGolemSender`, yet `ensureMethods` neither
replaces the methods nor marks the check. -/
theorem ensureMethods_keeps_unwanted_method :
    (defaultMethods twiceGolemSender).Methods = ["GOLEM", "GOLEM"] ∧
    "SMS" ∈ golemSmsCheck.Methods ∧ "SMS" ∉ (defaultMethods twiceGolemSender).Methods ∧
    golemSmsCheck.Update = false ∧
    (ensureMethods twiceGolemSender golemSmsCheck).2.Methods = ["GOLEM", "SMS"] ∧
    (ensureMethods twiceGolemSender golemSmsCheck).2.Update = false := by
  decide

/-- C8 (amended): with the desired methods defaulting to the comma-split
`Method` option or to `["GOLEM"]`, `ensureMethods` replaces the remote methods
and raises the update flag exactly when the lengths differ or some desired
method is missing from the remote ones, and leaves the check alone otherwise.
When the desired methods are free of duplicates this is the comparison of two
sets: the check is left alone only if remote and desired methods have the same
elements. -/
theorem ensureMethods_compares_desired (js : Sender) (c : jugglerCheck) :
    (defaultMethods js).Methods =
      (if js.Methods = [] then
        (if js.Method ≠ "" then js.Method.splitOn "," else ["GOLEM"])
       else js.Methods) ∧
    (ensureMethods js c).1 = defaultMethods js ∧
    (ensureMethods js c).2 =
      (if c.Methods.length ≠ (defaultMethods js).Methods.length ∨
          (∃ m, m ∈ (defaultMethods js).Methods ∧ m ∉ c.Methods) then
        { c with Update := true, Methods := (defaultMethods js).Methods }
       else c) ∧
    ((defaultMethods js).Methods.Nodup →
      (c.Methods.length ≠ (defaultMethods js).Methods.length ∨
          (∃ m, m ∈ (defaultMethods js).Methods ∧ m ∉ c.Methods)) ∨
        ∀ m, m ∈ c.Methods ↔ m ∈ (defaultMethods js).Methods) := by
  refine ⟨?_, ?_, ?_, ?_⟩
  · unfold defaultMethods
    cases h : js.Methods with
    | nil => by_cases hm : js.Method = "" <;> simp [hm]
    | cons a l => simp [h]
  · dsimp only [ensureMethods]
    split <;> rfl
  · dsimp only [ensureMethods]
    by_cases h : methodsOutdated c.Methods (defaultMethods js).Methods = true
    · have h' := (methodsOutdated_eq_true_iff _ _).1 h
      simp only [h, if_true, h']
    · have h' : ¬ (c.Methods.length ≠ (defaultMethods js).Methods.length ∨
          ∃ m, m ∈ (defaultMethods js).Methods ∧ m ∉ c.Methods) :=
        fun hh => h ((methodsOutdated_eq_true_iff _ _).2 hh)
      simp only [h, if_false, h']
      simp
  · intro hnd
    by_cases h : c.Methods.length ≠ (defaultMethods js).Methods.length ∨
        (∃ m, m ∈ (defaultMethods js).Methods ∧ m ∉ c.Methods)
    · exact Or.inl h
    · right
      push_neg at h
      intro m
      exact ⟨subset_of_nodup_of_length_eq _ _ hnd h.1 h.2 m, h.2 m⟩

/-- The C8 statement at `baseSender` (desired methods `["GOLEM"]`) and a remote
check with the methods `["SMS"]`: the methods are replaced. -/
theorem ensureMethods_compares_desired_witness :
    (defaultMethods baseSender).Methods.Nodup ∧
    (ensureMethods baseSender { emptyCheck with Methods := ["SMS"] }).2 =
      { emptyCheck with Update := true, Methods := ["GOLEM"] } := by
  have h := ensureMethods_compares_desired baseSender { emptyCheck with Methods := ["SMS"] }
  have hnd : (defaultMethods baseSender).Methods.Nodup := by decide
  have _h4 := h.2.2.2 hnd
  exact ⟨hnd, by rw [h.2.2.1]; decide⟩

theorem ensureFlap_forced_cases (c : jugglerCheck) :
    (match c.Flap with
      | some f => ({ f with Enable := 1 } : jugglerFlapConfig)
      | none => { emptyFlap with Enable := 1 }) =
    forcedFlap c := by
  unfold forcedFlap
  cases c.Flap <;> rfl

/-- C9 fails as stated: `disabledOverrideSender` has an override for service
`s` that is not enabled and an enabled global flap setting, and `ensureFlap`
does not fall through to the global setting: the check keeps its own (empty)
flap and is not marked. -/
theorem ensureFlap_disabled_override_no_fallback :
    mapGet disabledOverrideSender.ChecksOptions plainCheck.Service =
      some { serviceFlap with Enable := 0 } ∧
    disabledOverrideSender.Flap = some globalFlap ∧ globalFlap.Enable = 1 ∧
    (ensureFlap disabledOverrideSender plainCheck).2.Flap = some (forcedFlap plainCheck) ∧
    forcedFlap plainCheck = { emptyFlap with Enable := 1 } ∧
    (ensureFlap disabledOverrideSender plainCheck).2.Flap ≠ some globalFlap ∧
    (ensureFlap disabledOverrideSender plainCheck).2.Flap ≠ none ∧
    (ensureFlap disabledOverrideSender plainCheck).2.Update = false := by
  decide

/-- C9 (amended): `ensureFlap` looks up the override of the check's Service.
An enabled override becomes the check's flap, the update flag being raised
exactly when it differs from the remote flap with the enable bit forced to 1.
An override that is not enabled leaves the remote flap (enable bit forced to 1,
the empty flap if there was none) and the update flag as they are.  Without an
override an enabled global setting becomes the check's flap, the flag being
raised exactly when it differs; with neither the flap is cleared and the flag is
left alone. -/
theorem ensureFlap_fallback (js : Sender) (c : jugglerCheck) :
    (∀ f, mapGet js.ChecksOptions c.Service = some f → f.Enable = 1 →
      (ensureFlap js c).2.Flap = some f ∧
      (ensureFlap js c).2.Update =
        (c.Update || decide (forcedFlap c ≠ f))) ∧
    (∀ f, mapGet js.ChecksOptions c.Service = some f → f.Enable ≠ 1 →
      (ensureFlap js c).2.Flap = some (forcedFlap c) ∧
      (ensureFlap js c).2.Update = c.Update) ∧
    (∀ g, mapGet js.ChecksOptions c.Service = none → js.Flap = some g → g.Enable = 1 →
      (ensureFlap js c).2.Flap = some g ∧
      (ensureFlap js c).2.Update =
        (c.Update || decide (forcedFlap c ≠ g))) ∧
    (mapGet js.ChecksOptions c.Service = none → (∀ g, js.Flap = some g → g.Enable ≠ 1) →
      (ensureFlap js c).2.Flap = none ∧ (ensureFlap js c).2.Update = c.Update) ∧
    (ensureFlap js c).1 = js := by
  refine ⟨?_, ?_, ?_, ?_, ?_⟩
  · intro f hf he
    simp only [ensureFlap, hf, he, ensureFlap_forced_cases]
    by_cases hd : forcedFlap c = f
    · simp [hd]
    · simp [hd]
  · intro f hf he
    simp [ensureFlap, hf, he, ensureFlap_forced_cases]
  · intro g hf hg he
    simp only [ensureFlap, hf, hg, he, ensureFlap_forced_cases]
    by_cases hd : forcedFlap c = g
    · simp [hd]
    · simp [hd]
  · intro hf hg
    cases hj : js.Flap with
    | none => simp [ensureFlap, hf, hj]
    | some g => simp [ensureFlap, hf, hj, hg g hj]
  · cases h1 : mapGet js.ChecksOptions c.Service with
    | some f => simp only [ensureFlap, h1]; split_ifs <;> rfl
    | none =>
      cases h2 : js.Flap with
      | none => simp only [ensureFlap, h1, h2]
      | some g => simp only [ensureFlap, h1, h2]; split_ifs <;> rfl

/-- The C9 statement at a sender with an enabled override for service `s`: the
override replaces the missing remote flap and the check is marked. -/
theorem ensureFlap_fallback_witness :
    mapGet { baseSender with ChecksOptions := [("s", serviceFlap)] }.ChecksOptions
      plainCheck.Service = some serviceFlap ∧
    serviceFlap.Enable = 1 ∧
    (ensureFlap { baseSender with ChecksOptions := [("s", serviceFlap)] } plainCheck).2.Flap =
      some serviceFlap ∧
    (ensureFlap { baseSender with ChecksOptions := [("s", serviceFlap)] } plainCheck).2.Update =
      true := by
  have h := (ensureFlap_fallback
    { baseSender with ChecksOptions := [("s", serviceFlap)] } plainCheck).1
    serviceFlap (by decide) (by decide)
  exact ⟨by decide, by decide, h.1, by rw [h.2]; decide⟩

/-! ### The update loop -/

theorem mapGet_mapDelete_self {α : Type} (m : List (String × α)) (k : String) :
    mapGet (mapDelete m k) k = none := by
  induction m with
  | nil => rfl
  | cons p rest ih =>
    obtain ⟨k', v⟩ := p
    by_cases h : k' = k
    · simpa [mapDelete, List.filter_cons, h] using ih
    · simpa [mapDelete, List.filter_cons, h, mapGet] using ih

theorem mapGet_mapDelete_of_ne {α : Type} (m : List (String × α)) (k k' : String)
    (hne : k' ≠ k) : mapGet (mapDelete m k) k' = mapGet m k' := by
  induction m with
  | nil => rfl
  | cons p rest ih =>
    obtain ⟨k₁, v⟩ := p
    have ih' : mapGet (List.filter (fun p => decide (p.1 ≠ k)) rest) k' = mapGet rest k' := ih
    by_cases h : k₁ = k
    · have h' : ¬ k₁ = k' := fun e => hne (e ▸ h)
      rw [mapDelete, List.filter_cons_of_neg (by simp [h])]
      simp only [mapGet, h', if_false]
      exact ih'
    · rw [mapDelete, List.filter_cons_of_pos (by simp [h])]
      by_cases h2 : k₁ = k'
      · simp only [mapGet, h2, if_true]
      · simp only [mapGet, h2, if_false]
        exact ih'

theorem updateLoop_spec (js : Sender) (net : Backend) (entries : List (String × jugglerCheck))
    (acc : UpdateLoopResult) :
    ∃ pre rest, markedChecks entries = pre ++ rest ∧
      (updateLoop js net entries acc).calls = acc.calls ++ pre ∧
      ((updateLoop js net entries acc).err = none → rest = []) ∧
      (pre = [] → updateLoop js net entries acc = acc) ∧
      (pre ≠ [] → (updateLoop js net entries acc).cleanCache = true ∧
        ∀ e, (updateLoop js net entries acc).err = some e →
          ∃ p c posts, pre = p ++ [c] ∧ (updateCheck js net posts c).1 = some e) := by
  induction entries generalizing acc with
  | nil =>
    exact ⟨[], [], rfl, by simp [updateLoop], fun _ => rfl, fun _ => rfl, fun h => absurd rfl h⟩
  | cons p rest ih =>
    obtain ⟨k, c⟩ := p
    by_cases hu : c.Update = true
    · cases hr : (updateCheck js net acc.posts c).1 with
      | some e =>
        refine ⟨[c], markedChecks rest, by simp [markedChecks, hu], ?_, ?_, ?_, ?_⟩
        · simp [updateLoop, hu, hr]
        · simp [updateLoop, hu, hr]
        · simp
        · intro _
          refine ⟨by simp [updateLoop, hu, hr], ?_⟩
          intro e' he'
          refine ⟨[], c, acc.posts, rfl, ?_⟩
          simp [updateLoop, hu, hr] at he'
          rw [hr, he']
      | none =>
        obtain ⟨pre, rst, hsplit, hcalls, herr, _hnil, hne⟩ :=
          ih ⟨none, true, acc.calls ++ [c], (updateCheck js net acc.posts c).2⟩
        have hstep : updateLoop js net ((k, c) :: rest) acc =
            updateLoop js net rest
              ⟨none, true, acc.calls ++ [c], (updateCheck js net acc.posts c).2⟩ := by
          simp [updateLoop, hu, hr]
        refine ⟨c :: pre, rst, by simp [markedChecks, hu] at hsplit ⊢; exact hsplit, ?_, ?_, ?_, ?_⟩
        · rw [hstep, hcalls]; simp
        · rw [hstep]; exact herr
        · simp
        · intro _
          rw [hstep]
          by_cases hp : pre = []
          · subst hp
            rw [_hnil rfl]
            exact ⟨rfl, fun e he => by simp at he⟩
          · obtain ⟨hc, hex⟩ := hne hp
            refine ⟨hc, fun e he => ?_⟩
            obtain ⟨p, c', posts, hpre, hfail⟩ := hex e he
            exact ⟨c :: p, c', posts, by simp [hpre], hfail⟩
    · have hu' : c.Update = false := by simpa using hu
      have hstep : updateLoop js net ((k, c) :: rest) acc = updateLoop js net rest acc := by
        simp [updateLoop, hu']
      obtain ⟨pre, rst, hsplit, hcalls, herr, hnil, hne⟩ := ih acc
      refine ⟨pre, rst, by simpa [markedChecks, hu'] using hsplit, ?_, ?_, ?_, ?_⟩
      · rw [hstep]; exact hcalls
      · rw [hstep]; exact herr
      · rw [hstep]; exact hnil
      · rw [hstep]; exact hne

theorem markedChecks_perm {l₁ l₂ : List (String × jugglerCheck)} (h : l₁.Perm l₂) :
    (markedChecks l₁).Perm (markedChecks l₂) :=
  (h.filter _).map _

theorem markedChecks_eq_nil_iff (l : List (String × jugglerCheck)) :
    markedChecks l = [] ↔ ∀ p ∈ l, p.2.Update = false := by
  simp [markedChecks, List.filter_eq_nil_iff]

/-! ### The receiver along the attribute steps -/

theorem ensureTTL_fst (js : Sender) (c : jugglerCheck) :
    (ensureTTL js c).1 = { js with TTL := if js.TTL = 0 then 900 else js.TTL } := by
  cases js
  simp only [ensureTTL]
  split_ifs <;> simp_all

theorem ensureAggregator_fst (js : Sender) (c : jugglerCheck) :
    (ensureAggregator js c).1 = js := by
  simp only [ensureAggregator]
  split_ifs <;> rfl

theorem ensureMethods_fst (js : Sender) (c : jugglerCheck) :
    (ensureMethods js c).1 = defaultMethods js := by
  simp only [ensureMethods]
  split_ifs <;> rfl

theorem ensureFlap_fst (js : Sender) (c : jugglerCheck) : (ensureFlap js c).1 = js := by
  cases h1 : mapGet js.ChecksOptions c.Service with
  | some f => simp only [ensureFlap, h1]; split_ifs <;> rfl
  | none =>
    cases h2 : js.Flap with
    | none => simp only [ensureFlap, h1, h2]
    | some g => simp only [ensureFlap, h1, h2]; split_ifs <;> rfl

theorem ensureTags_fst (js : Sender) (c : jugglerCheck) :
    (ensureTags js c).1 = defaultTags js := by
  simp only [ensureTags]
  split_ifs <;> rfl

theorem ensureDescription_fst (js : Sender) (c : jugglerCheck) :
    (ensureDescription js c).1 =
      { js with Description := if js.Description = "" then js.CheckName else js.Description } := by
  cases js
  simp only [ensureDescription]
  split_ifs <;> simp_all

theorem ensureNamespace_fst (js : Sender) (c : jugglerCheck) :
    (ensureNamespace js c).1 =
      { js with Namespace := if js.Namespace = "" then "combaine" else js.Namespace } := by
  cases js
  simp only [ensureNamespace]
  split_ifs <;> simp_all

theorem ensureAttributes_fst (js : Sender) (c : jugglerCheck) :
    (ensureAttributes js c).1 = withDefaults js := by
  simp only [ensureAttributes, ensureNamespace_fst, ensureDescription_fst, ensureTags_fst,
    ensureFlap_fst, ensureMethods_fst, ensureAggregator_fst, ensureTTL_fst]
  cases js
  simp only [withDefaults, defaultTags, defaultMethods]
  split_ifs <;> simp_all

theorem ensureTrigger_host (childSet : List String) (st : LoopState) (t : jugglerEvent) :
    (ensureTrigger childSet st t).js.Host = st.js.Host := by
  simp only [ensureTrigger]
  split_ifs <;> simp [ensureAttributes_fst, withDefaults]

theorem ensureTriggers_host (childSet : List String) (triggers : List jugglerEvent)
    (st : LoopState) : (ensureTriggers childSet st triggers).js.Host = st.js.Host := by
  induction triggers generalizing st with
  | nil => rfl
  | cons t rest ih =>
    simp only [ensureTriggers, List.foldl_cons] at ih ⊢
    rw [ih, ensureTrigger_host]

theorem reconciled_host (js : Sender) (hostChecks : jugglerResponse)
    (triggers : List jugglerEvent) : (reconciled js hostChecks triggers).js.Host = js.Host := by
  simp only [reconciled]
  rw [ensureTriggers_host]

/-! ### Reconciliation pass -/

/-- C1, the code at the failing input: with no remote check, two events for
child host `a` and service `s` leave the check of `s` with two equal Children
entries, and the check with both entries is what is sent. -/
theorem ensureCheck_appends_child_twice :
    buildChildSet (hostServices baseSender []) = [] ∧
    (checkOf (ensureCheck id acceptAll [] baseSender []
        [trigger "a" "s", trigger "a" "s"]).hostChecks "h" "s").map (fun c => c.Children) =
      some [{ Instance := "", Host := "a", Type_ := "HOST", Service := "s" },
            { Instance := "", Host := "a", Type_ := "HOST", Service := "s" }] ∧
    (ensureCheck id acceptAll [] baseSender []
        [trigger "a" "s", trigger "a" "s"]).calls.map (fun c => c.Children.length) = [2] := by
  decide

/-- C2 fails as stated: with two services marked for update and a backend that
rejects every update with a remote error, one update call is made and the pass
ends with the aggregate error of that call, in either iteration order. -/
theorem ensureCheck_stops_after_failed_update :
    (markedChecks (reconciled baseSender [] [trigger "a" "s", trigger "a" "t"]).services).map
      (fun c => c.Service) = ["s", "t"] ∧
    (ensureCheck id rejectAll [] baseSender []
      [trigger "a" "s", trigger "a" "t"]).calls.map (fun c => c.Service) = ["s"] ∧
    (ensureCheck id rejectAll [] baseSender []
      [trigger "a" "s", trigger "a" "t"]).err = some (.updateErrs ["no"]) ∧
    (ensureCheck List.reverse rejectAll [] baseSender []
      [trigger "a" "s", trigger "a" "t"]).calls.map (fun c => c.Service) = ["t"] ∧
    (ensureCheck List.reverse rejectAll [] baseSender []
      [trigger "a" "s", trigger "a" "t"]).err = some (.updateErrs ["no"]) := by
  decide

theorem markedChecks_cons_marked (k : String) (c : jugglerCheck)
    (rest : List (String × jugglerCheck)) (hu : c.Update = true) :
    markedChecks ((k, c) :: rest) = c :: markedChecks rest := by
  simp [markedChecks, List.filter, hu]

theorem markedChecks_cons_unmarked (k : String) (c : jugglerCheck)
    (rest : List (String × jugglerCheck)) (hu : ¬ c.Update = true) :
    markedChecks ((k, c) :: rest) = markedChecks rest := by
  simp [markedChecks, List.filter, hu]

theorem updateLoop_cons_unmarked (js : Sender) (net : Backend) (k : String) (c : jugglerCheck)
    (rest : List (String × jugglerCheck)) (acc : UpdateLoopResult) (hu : ¬ c.Update = true) :
    updateLoop js net ((k, c) :: rest) acc = updateLoop js net rest acc := by
  simp [updateLoop, hu]

theorem updateLoop_cons_failed (js : Sender) (net : Backend) (k : String) (c : jugglerCheck)
    (rest : List (String × jugglerCheck)) (acc : UpdateLoopResult) (e : GoError)
    (hu : c.Update = true) (hfail : (updateCheck js net acc.posts c).1 = some e) :
    updateLoop js net ((k, c) :: rest) acc =
      { err := some e, cleanCache := true, calls := acc.calls ++ [c],
        posts := (updateCheck js net acc.posts c).2 } := by
  simp [updateLoop, hu, hfail]

theorem updateLoop_cons_accepted (js : Sender) (net : Backend) (k : String) (c : jugglerCheck)
    (rest : List (String × jugglerCheck)) (acc : UpdateLoopResult)
    (hu : c.Update = true) (hok : (updateCheck js net acc.posts c).1 = none) :
    updateLoop js net ((k, c) :: rest) acc =
      updateLoop js net rest
        { err := none, cleanCache := true, calls := acc.calls ++ [c],
          posts := (updateCheck js net acc.posts c).2 } := by
  simp [updateLoop, hu, hok]

/-- The loop at the first marked check whose update fails: the checks before
it are sent, it is sent, its error is the result, and nothing is sent after
it. -/
theorem updateLoop_first_failure (js : Sender) (net : Backend)
    (entries : List (String × jugglerCheck)) (acc : UpdateLoopResult)
    (pre : List jugglerCheck) (c : jugglerCheck) (post : List jugglerCheck) (e : GoError)
    (hsplit : markedChecks entries = pre ++ c :: post)
    (hacc : allAccepted js net acc.posts pre = true)
    (hfail : (updateCheck js net (postsAfter js net acc.posts pre) c).1 = some e) :
    updateLoop js net entries acc =
      { err := some e, cleanCache := true, calls := acc.calls ++ pre ++ [c],
        posts := (updateCheck js net (postsAfter js net acc.posts pre) c).2 } := by
  induction entries generalizing acc pre with
  | nil => simp [markedChecks] at hsplit
  | cons p rest ih =>
    obtain ⟨k, c0⟩ := p
    by_cases hu : c0.Update = true
    · rw [markedChecks_cons_marked k c0 rest hu] at hsplit
      cases pre with
      | nil =>
        simp only [List.nil_append, List.cons.injEq] at hsplit
        obtain ⟨hc, _⟩ := hsplit
        subst hc
        simp only [postsAfter] at hfail ⊢
        rw [updateLoop_cons_failed js net k c0 rest acc e hu hfail]
        simp
      | cons p0 pre1 =>
        simp only [List.cons_append, List.cons.injEq] at hsplit
        obtain ⟨hc, hrest⟩ := hsplit
        subst hc
        simp only [allAccepted, Bool.and_eq_true, Option.isNone_iff_eq_none] at hacc
        simp only [postsAfter] at hfail ⊢
        rw [updateLoop_cons_accepted js net k c0 rest acc hu hacc.1]
        rw [ih _ pre1 hrest hacc.2 hfail]
        simp
    · rw [markedChecks_cons_unmarked k c0 rest hu] at hsplit
      rw [updateLoop_cons_unmarked js net k c0 rest acc hu]
      exact ih acc pre hsplit hacc hfail

/-- The loop when the update of every marked check is accepted: every marked
check is sent and no error is set. -/
theorem updateLoop_all_accepted (js : Sender) (net : Backend)
    (entries : List (String × jugglerCheck)) (acc : UpdateLoopResult)
    (hacc : allAccepted js net acc.posts (markedChecks entries) = true) :
    (updateLoop js net entries acc).calls = acc.calls ++ markedChecks entries ∧
    (updateLoop js net entries acc).posts = postsAfter js net acc.posts (markedChecks entries) ∧
    (acc.err = none → (updateLoop js net entries acc).err = none) := by
  induction entries generalizing acc with
  | nil => simp [markedChecks, updateLoop, postsAfter]
  | cons p rest ih =>
    obtain ⟨k, c0⟩ := p
    by_cases hu : c0.Update = true
    · rw [markedChecks_cons_marked k c0 rest hu] at hacc ⊢
      simp only [allAccepted, Bool.and_eq_true, Option.isNone_iff_eq_none] at hacc
      rw [updateLoop_cons_accepted js net k c0 rest acc hu hacc.1]
      obtain ⟨h1, h2, h3⟩ := ih
        { err := none, cleanCache := true, calls := acc.calls ++ [c0],
          posts := (updateCheck js net acc.posts c0).2 } hacc.2
      refine ⟨?_, ?_, fun _ => h3 rfl⟩
      · rw [h1]
        simp
      · rw [h2]
        simp [postsAfter]
    · rw [markedChecks_cons_unmarked k c0 rest hu] at hacc ⊢
      rw [updateLoop_cons_unmarked js net k c0 rest acc hu]
      exact ih acc hacc

/-- C2 (amended): the update calls of a pass are the checks marked for update,
in iteration order, up to and including the first call that fails.  If the
pass returns no error every marked check was sent; if it returns an error,
that error is the result of the last call made.  A failing update ends the
pass: when the marked checks are `pre ++ c :: post`, the updates of `pre` are
accepted and the update of `c` fails with `e`, the pass returns `e`, its calls
are exactly `pre ++ [c]`, and the requests sent are those of `pre` and of `c`,
none for a check of `post`, whatever the backend would answer to them.  When
the update of every marked check is accepted the pass returns no error and
sends them all. -/
theorem ensureCheck_aborts_on_first_failure
    (order : List (String × jugglerCheck) → List (String × jugglerCheck)) (net : Backend)
    (store : CacheStore) (js : Sender) (hostChecks : jugglerResponse)
    (triggers : List jugglerEvent) :
    (ensureCheck order net store js hostChecks triggers).calls <+:
      markedChecks (order (reconciled js hostChecks triggers).services) ∧
    ((ensureCheck order net store js hostChecks triggers).err = none →
      (ensureCheck order net store js hostChecks triggers).calls =
        markedChecks (order (reconciled js hostChecks triggers).services)) ∧
    (∀ e, (ensureCheck order net store js hostChecks triggers).err = some e →
      ∃ pre c posts,
        (ensureCheck order net store js hostChecks triggers).calls = pre ++ [c] ∧
        (updateCheck (reconciled js hostChecks triggers).js net posts c).1 = some e) ∧
    (∀ pre c post e,
      markedChecks (order (reconciled js hostChecks triggers).services) = pre ++ c :: post →
      allAccepted (reconciled js hostChecks triggers).js net [] pre = true →
      (updateCheck (reconciled js hostChecks triggers).js net
        (postsAfter (reconciled js hostChecks triggers).js net [] pre) c).1 = some e →
      (ensureCheck order net store js hostChecks triggers).err = some e ∧
      (ensureCheck order net store js hostChecks triggers).calls = pre ++ [c] ∧
      (ensureCheck order net store js hostChecks triggers).posts =
        (updateCheck (reconciled js hostChecks triggers).js net
          (postsAfter (reconciled js hostChecks triggers).js net [] pre) c).2) ∧
    (allAccepted (reconciled js hostChecks triggers).js net []
        (markedChecks (order (reconciled js hostChecks triggers).services)) = true →
      (ensureCheck order net store js hostChecks triggers).err = none ∧
      (ensureCheck order net store js hostChecks triggers).calls =
        markedChecks (order (reconciled js hostChecks triggers).services) ∧
      (ensureCheck order net store js hostChecks triggers).posts =
        postsAfter (reconciled js hostChecks triggers).js net []
          (markedChecks (order (reconciled js hostChecks triggers).services))) := by
  obtain ⟨pre, rest, hsplit, hcalls, herr, hnil, hne⟩ :=
    updateLoop_spec (reconciled js hostChecks triggers).js net
      (order (reconciled js hostChecks triggers).services) noUpdates
  have hc : (ensureCheck order net store js hostChecks triggers).calls = pre := by
    simpa [ensureCheck, noUpdates] using hcalls
  refine ⟨?_, ?_, ?_, ?_, ?_⟩
  · rw [hc, hsplit]
    exact List.prefix_append pre rest
  · intro he
    have := herr (by simpa [ensureCheck] using he)
    rw [hc, hsplit, this, List.append_nil]
  · intro e he
    have he1 : (updateLoop (reconciled js hostChecks triggers).js net
        (order (reconciled js hostChecks triggers).services) noUpdates).err = some e := by
      simpa [ensureCheck] using he
    by_cases hp : pre = []
    · rw [hnil hp] at he1
      simp [noUpdates] at he1
    · obtain ⟨p, c, posts, hpre, hfail⟩ := (hne hp).2 e he1
      exact ⟨p, c, posts, by rw [hc, hpre], hfail⟩
  · intro pre1 c post e hm hacc hfail
    have hloop := updateLoop_first_failure (reconciled js hostChecks triggers).js net
      (order (reconciled js hostChecks triggers).services) noUpdates pre1 c post e hm
      (by simpa [noUpdates] using hacc) (by simpa [noUpdates] using hfail)
    simp only [ensureCheck, hloop]
    simp [noUpdates]
  · intro hacc
    obtain ⟨h1, h2, h3⟩ := updateLoop_all_accepted (reconciled js hostChecks triggers).js net
      (order (reconciled js hostChecks triggers).services) noUpdates
      (by simpa [noUpdates] using hacc)
    simp only [ensureCheck]
    refine ⟨h3 rfl, ?_, ?_⟩
    · rw [h1]
      simp [noUpdates]
    · rw [h2]
      simp [noUpdates]

/-- The C2 statement at backends that fail one request.  `rejectFirst` rejects
the first request only: the pass for the two new services `s` and `t` sends
the check of `s`, returns its error, and sends nothing for `t`, which the
backend would have accepted.  `rejectLater` accepts the first request only:
the check of `s` is sent and accepted, the check of `t` is sent and fails, and
the pass returns that error. -/
theorem ensureCheck_aborts_on_first_failure_witness :
    ((ensureCheck id rejectFirst [] baseSender [] [trigger "a" "s", trigger "a" "t"]).err =
        some (.updateErrs ["no"]) ∧
      (ensureCheck id rejectFirst [] baseSender [] [trigger "a" "s", trigger "a" "t"]).calls =
        [createdCheck "s"] ∧
      (ensureCheck id rejectFirst [] baseSender [] [trigger "a" "s", trigger "a" "t"]).posts =
        [("j1", createdCheck "s")]) ∧
    ((ensureCheck id rejectLater [] baseSender [] [trigger "a" "s", trigger "a" "t"]).err =
        some (.updateErrs ["no"]) ∧
      (ensureCheck id rejectLater [] baseSender [] [trigger "a" "s", trigger "a" "t"]).calls =
        [createdCheck "s", createdCheck "t"] ∧
      (ensureCheck id rejectLater [] baseSender [] [trigger "a" "s", trigger "a" "t"]).posts =
        [("j1", createdCheck "s"), ("j1", createdCheck "t")]) :=
  ⟨(ensureCheck_aborts_on_first_failure id rejectFirst [] baseSender []
      [trigger "a" "s", trigger "a" "t"]).2.2.2.1 [] (createdCheck "s") [createdCheck "t"]
      (.updateErrs ["no"]) (by decide) (by decide) (by decide),
   (ensureCheck_aborts_on_first_failure id rejectLater [] baseSender []
      [trigger "a" "s", trigger "a" "t"]).2.2.2.1 [createdCheck "s"] (createdCheck "t") []
      (.updateErrs ["no"]) (by decide) (by decide) (by decide)⟩

/-- C3, the code at the failing input: `overrideSender` has an enabled flap
override for service `s`.  The first pass creates the check of `s` with the
global flap; the second pass over the produced checks, dirty flags cleared,
same events and configuration, replaces the flap by the override and issues an
update call. -/
theorem ensureCheck_second_pass_updates :
    (checkOf (ensureCheck id acceptAll [] overrideSender [] [trigger "a" "s"]).hostChecks
      "h" "s").map (fun c => c.Flap) = some (some globalFlap) ∧
    (ensureCheck id acceptAll [] overrideSender
      (clearUpdate (ensureCheck id acceptAll [] overrideSender [] [trigger "a" "s"]).hostChecks)
      [trigger "a" "s"]).calls.map (fun c => (c.Service, c.Flap)) =
      [("s", some serviceFlap)] := by
  decide

/-- C6: `ensureCheck` deletes the cache entry of the sender's Host exactly when
an update call was made in the pass, whether or not the pass ended with an
error; without an update call the store is left as it is, and the entries of
other keys are never touched. -/
theorem ensureCheck_cache_invalidation
    (order : List (String × jugglerCheck) → List (String × jugglerCheck)) (net : Backend)
    (store : CacheStore) (js : Sender) (hostChecks : jugglerResponse)
    (triggers : List jugglerEvent) :
    (ensureCheck order net store js hostChecks triggers).cache =
      (if (ensureCheck order net store js hostChecks triggers).calls = [] then store
       else cacheDelete store js.Host) ∧
    ((ensureCheck order net store js hostChecks triggers).calls ≠ [] →
      mapGet (ensureCheck order net store js hostChecks triggers).cache js.Host = none) ∧
    (∀ k, k ≠ js.Host →
      mapGet (ensureCheck order net store js hostChecks triggers).cache k = mapGet store k) ∧
    ((∀ p ∈ order (reconciled js hostChecks triggers).services, p.2.Update = false) →
      (ensureCheck order net store js hostChecks triggers).calls = [] ∧
      (ensureCheck order net store js hostChecks triggers).cache = store) := by
  obtain ⟨pre, rest, hsplit, hcalls, _herr, hnil, hne⟩ :=
    updateLoop_spec (reconciled js hostChecks triggers).js net
      (order (reconciled js hostChecks triggers).services) noUpdates
  have hc : (ensureCheck order net store js hostChecks triggers).calls = pre := by
    simpa [ensureCheck, noUpdates] using hcalls
  have hcache : (ensureCheck order net store js hostChecks triggers).cache =
      (if (ensureCheck order net store js hostChecks triggers).calls = [] then store
       else cacheDelete store js.Host) := by
    rw [hc]
    by_cases hp : pre = []
    · simp only [ensureCheck, hnil hp, hp]
      simp [noUpdates]
    · simp only [ensureCheck, (hne hp).1, hp, reconciled_host]
      simp
  refine ⟨hcache, ?_, ?_, ?_⟩
  · intro hne'
    rw [hcache, if_neg hne']
    exact mapGet_mapDelete_self store js.Host
  · intro k hk
    rw [hcache]
    split
    · rfl
    · exact mapGet_mapDelete_of_ne store js.Host k hk
  · intro hall
    have hm := (markedChecks_eq_nil_iff _).2 hall
    rw [hm] at hsplit
    have hp : pre = [] := (List.append_eq_nil.1 hsplit.symm).1
    have hcalls' : (ensureCheck order net store js hostChecks triggers).calls = [] := by
      rw [hc, hp]
    exact ⟨hcalls', by rw [hcache, if_pos hcalls']⟩

/-- The C6 statement at a pass whose only update call is rejected: the entry of
host `h` is gone, the entry of host `x` is still there. -/
theorem ensureCheck_cache_invalidation_witness :
    (ensureCheck id rejectAll twoEntryStore baseSender [] [trigger "a" "s"]).calls ≠ [] ∧
    (ensureCheck id rejectAll twoEntryStore baseSender [] [trigger "a" "s"]).err ≠ none ∧
    mapGet (ensureCheck id rejectAll twoEntryStore baseSender [] [trigger "a" "s"]).cache
      baseSender.Host = none ∧
    mapGet (ensureCheck id rejectAll twoEntryStore baseSender [] [trigger "a" "s"]).cache "x" =
      mapGet twoEntryStore "x" :=
  ⟨by decide, by decide,
   (ensureCheck_cache_invalidation id rejectAll twoEntryStore baseSender []
      [trigger "a" "s"]).2.1 (by decide),
   (ensureCheck_cache_invalidation id rejectAll twoEntryStore baseSender []
      [trigger "a" "s"]).2.2.1 "x" (by decide)⟩

/-! ### A pass over checks that are in sync -/

theorem mapGet_of_mem_of_nodup {α : Type} (m : List (String × α)) (hnd : (m.map Prod.fst).Nodup)
    (k : String) (v : α) (hmem : (k, v) ∈ m) : mapGet m k = some v := by
  induction m with
  | nil => simp at hmem
  | cons p rest ih =>
    obtain ⟨k', v'⟩ := p
    simp only [List.map_cons, List.nodup_cons] at hnd
    rcases List.mem_cons.1 hmem with h | h
    · cases h
      simp [mapGet]
    · have hk : k' ≠ k := by
        intro e
        apply hnd.1
        rw [e]
        exact List.mem_map_of_mem Prod.fst h
      simp only [mapGet, hk, if_false]
      exact ih hnd.2 h

theorem aggregatorOutdated_self (js : Sender) (c : jugglerCheck)
    (hwf : ∀ v ∈ js.AggregatorKWArgs.Limits, (v.map Prod.fst).Nodup)
    (heq : c.AggregatorKWArgs = js.AggregatorKWArgs) : aggregatorOutdated js c = false := by
  rw [aggregatorOutdated_eq_false_iff, heq]
  refine ⟨rfl, rfl, ?_⟩
  intro i cv v hcv hv kv hkv
  have : cv = v := by rw [hcv] at hv; exact Option.some.inj hv
  subst this
  have hmem : cv ∈ js.AggregatorKWArgs.Limits := by
    obtain ⟨hi, hget⟩ := List.getElem?_eq_some_iff.1 hcv
    rw [← hget]
    exact List.getElem_mem hi
  exact ⟨kv.2, mapGet_of_mem_of_nodup cv (hwf cv hmem) kv.1 kv.2 hkv, rfl⟩

theorem methodsOutdated_self (m : List String) : methodsOutdated m m = false := by
  simp [methodsOutdated]

theorem defaultTags_ne_nil (js : Sender) : (defaultTags js).Tags ≠ [] := by
  unfold defaultTags
  cases h : js.Tags <;> simp [h]

theorem defaultMethods_eq (js : Sender) :
    defaultMethods js =
      { js with Methods := if js.Methods = [] then
          (if js.Method = "" then ["GOLEM"] else js.Method.splitOn ",") else js.Methods } := by
  cases js with
  | mk id Host TTL Description CheckName Aggregator AggregatorKWArgs Methods Method ChecksOptions
      Flap Tags Namespace Token JHosts =>
    cases Methods with
    | nil => by_cases hm : Method = "" <;> simp [defaultMethods, hm]
    | cons a l => simp [defaultMethods]

theorem defaultTags_eq (js : Sender) :
    defaultTags js = { js with Tags := if js.Tags = [] then [defaultTag] else js.Tags } := by
  cases js with
  | mk id Host TTL Description CheckName Aggregator AggregatorKWArgs Methods Method ChecksOptions
      Flap Tags Namespace Token JHosts =>
    cases Tags with
    | nil => simp [defaultTags]
    | cons a l => simp [defaultTags]

theorem withDefaults_eq (js : Sender) :
    withDefaults js =
      { js with
        TTL := if js.TTL = 0 then 900 else js.TTL
        Methods := if js.Methods = [] then
          (if js.Method = "" then ["GOLEM"] else js.Method.splitOn ",") else js.Methods
        Tags := if js.Tags = [] then [defaultTag] else js.Tags
        Description := if js.Description = "" then js.CheckName else js.Description
        Namespace := if js.Namespace = "" then "combaine" else js.Namespace } := by
  simp only [withDefaults, defaultMethods_eq, defaultTags_eq]

theorem withDefaults_defaultMethods (js : Sender) :
    withDefaults (defaultMethods js) = withDefaults js := by
  cases js
  simp only [withDefaults_eq, defaultMethods_eq, Sender.mk.injEq, true_and, and_true]
  split_ifs <;> simp_all

theorem withDefaults_defaultTags (js : Sender) :
    withDefaults (defaultTags js) = withDefaults js := by
  cases js
  simp only [withDefaults_eq, defaultTags_eq, Sender.mk.injEq, true_and, and_true]
  split_ifs <;> simp_all

theorem withDefaults_idem (js : Sender) : withDefaults (withDefaults js) = withDefaults js := by
  cases js
  simp only [withDefaults_eq, Sender.mk.injEq, true_and, and_true]
  refine ⟨?_, ?_, ?_, ?_, ?_⟩ <;> split_ifs <;> simp_all

theorem stepTTL (js : Sender) (c : jugglerCheck) (h : c.TTL = (withDefaults js).TTL) :
    ∃ s, ensureTTL js c = (s, c) ∧ withDefaults s = withDefaults js := by
  refine ⟨(ensureTTL js c).1, ?_, ?_⟩
  · simp only [withDefaults] at h
    simp only [ensureTTL]
    split_ifs <;> simp_all
  · rw [ensureTTL_fst]
    cases js
    simp only [withDefaults_eq, Sender.mk.injEq, true_and, and_true]
    split_ifs <;> simp_all

theorem stepAggregator (js : Sender) (c : jugglerCheck)
    (hwf : ∀ v ∈ (withDefaults js).AggregatorKWArgs.Limits, (v.map Prod.fst).Nodup)
    (h : c.AggregatorKWArgs = (withDefaults js).AggregatorKWArgs) :
    ∃ s, ensureAggregator js c = (s, c) ∧ withDefaults s = withDefaults js := by
  refine ⟨js, ?_, rfl⟩
  have : aggregatorOutdated js c = false := aggregatorOutdated_self js c hwf h
  simp [ensureAggregator, this]

theorem stepMethods (js : Sender) (c : jugglerCheck) (h : c.Methods = (withDefaults js).Methods) :
    ∃ s, ensureMethods js c = (s, c) ∧ withDefaults s = withDefaults js := by
  refine ⟨defaultMethods js, ?_, withDefaults_defaultMethods js⟩
  have h' : c.Methods = (defaultMethods js).Methods := h
  simp [ensureMethods, ← h', methodsOutdated_self]

theorem stepFlap (js : Sender) (c : jugglerCheck)
    (hF1 : ∀ f, mapGet (withDefaults js).ChecksOptions c.Service = some f → f.Enable = 1 →
      forcedFlap c = f)
    (hF2 : ∀ g, mapGet (withDefaults js).ChecksOptions c.Service = none →
      (withDefaults js).Flap = some g → g.Enable = 1 → forcedFlap c = g) :
    ∃ s fl, ensureFlap js c = (s, { c with Flap := fl }) ∧ withDefaults s = withDefaults js := by
  have hforced : (match c.Flap with
      | some f => ({ f with Enable := 1 } : jugglerFlapConfig)
      | none => { emptyFlap with Enable := 1 }) = forcedFlap c := by
    unfold forcedFlap
    cases c.Flap <;> rfl
  have hF1' : ∀ f, mapGet js.ChecksOptions c.Service = some f → f.Enable = 1 →
      forcedFlap c = f := hF1
  have hF2' : ∀ g, mapGet js.ChecksOptions c.Service = none → js.Flap = some g →
      g.Enable = 1 → forcedFlap c = g := hF2
  cases hg : mapGet js.ChecksOptions c.Service with
  | some f =>
    by_cases he : f.Enable = 1
    · refine ⟨js, some f, ?_, rfl⟩
      simp only [ensureFlap, hg, he, hforced, hF1' f hg he]
      simp
    · exact ⟨js, some (forcedFlap c), by simp only [ensureFlap, hg, he, if_false, hforced], rfl⟩
  | none =>
    cases hj : js.Flap with
    | none => exact ⟨js, none, by simp only [ensureFlap, hg, hj], rfl⟩
    | some g =>
      by_cases he : g.Enable = 1
      · refine ⟨js, some g, ?_, rfl⟩
        simp only [ensureFlap, hg, hj, he, hforced, hF2' g hg hj he]
        simp
      · exact ⟨js, none, by simp only [ensureFlap, hg, hj, he, if_false], rfl⟩

theorem stepTags (js : Sender) (c : jugglerCheck) (h : c.Tags = (withDefaults js).Tags) :
    ∃ s, ensureTags js c = (s, c) ∧ withDefaults s = withDefaults js := by
  refine ⟨defaultTags js, ?_, withDefaults_defaultTags js⟩
  have h' : c.Tags = (defaultTags js).Tags := h
  have hne : c.Tags ≠ [] := by rw [h']; exact defaultTags_ne_nil js
  have hlen : ¬ c.Tags.length = 0 := fun h0 => hne (List.length_eq_zero.1 h0)
  have hf : c.Tags.filter (fun t => decide (t ∉ c.Tags)) = [] := by
    simp [List.filter_eq_nil_iff]
  simp only [ensureTags, hlen, if_false, appendMissingTags_eq, ← h', hf]
  simp

theorem stepDescription (js : Sender) (c : jugglerCheck)
    (h : c.Description = (withDefaults js).Description) :
    ∃ s, ensureDescription js c = (s, c) ∧ withDefaults s = withDefaults js := by
  refine ⟨(ensureDescription js c).1, ?_, ?_⟩
  · simp only [withDefaults] at h
    simp only [ensureDescription]
    split_ifs <;> simp_all
  · rw [ensureDescription_fst]
    cases js
    simp only [withDefaults_eq, Sender.mk.injEq, true_and, and_true]
    split_ifs <;> simp_all

theorem stepNamespace (js : Sender) (c : jugglerCheck)
    (h : c.Namespace = (withDefaults js).Namespace) :
    ∃ s, ensureNamespace js c = (s, c) ∧ withDefaults s = withDefaults js := by
  refine ⟨(ensureNamespace js c).1, ?_, ?_⟩
  · simp only [withDefaults] at h
    simp only [ensureNamespace]
    split_ifs <;> simp_all
  · rw [ensureNamespace_fst]
    cases js
    simp only [withDefaults_eq, Sender.mk.injEq, true_and, and_true]
    split_ifs <;> simp_all

/-- The attribute steps on a check that is in sync change at most its flap and
do not raise the update flag. -/
theorem ensureAttributes_of_inSync (js : Sender) (c : jugglerCheck)
    (hwf : ∀ v ∈ js.AggregatorKWArgs.Limits, (v.map Prod.fst).Nodup)
    (hs : attributesInSync js c) :
    ∃ fl, (ensureAttributes js c).2 = { c with Flap := fl } := by
  obtain ⟨hTTL, hAgg, hMeth, hTags, hDesc, hNs, hF1, hF2⟩ := hs
  obtain ⟨s1, e1, w1⟩ := stepTTL js c hTTL
  obtain ⟨s2, e2, w2⟩ := stepAggregator s1 c (by rw [w1]; exact hwf) (by rw [w1]; exact hAgg)
  obtain ⟨s3, e3, w3⟩ := stepMethods s2 c (by rw [w2, w1]; exact hMeth)
  obtain ⟨s4, fl, e4, w4⟩ := stepFlap s3 c (by rw [w3, w2, w1]; exact hF1)
    (by rw [w3, w2, w1]; exact hF2)
  obtain ⟨s5, e5, w5⟩ := stepTags s4 { c with Flap := fl } (by rw [w4, w3, w2, w1]; exact hTags)
  obtain ⟨s6, e6, w6⟩ := stepDescription s5 { c with Flap := fl }
    (by rw [w5, w4, w3, w2, w1]; exact hDesc)
  obtain ⟨s7, e7, _⟩ := stepNamespace s6 { c with Flap := fl }
    (by rw [w6, w5, w4, w3, w2, w1]; exact hNs)
  refine ⟨fl, ?_⟩
  simp only [ensureAttributes, e1, e2, e3, e4, e5, e6, e7]

theorem mapGet_mapSet_self {α : Type} (m : List (String × α)) (k : String) (v : α) :
    mapGet (mapSet m k v) k = some v := by
  induction m with
  | nil => simp [mapSet, mapGet]
  | cons p rest ih =>
    obtain ⟨k', v'⟩ := p
    by_cases h : k' = k
    · simp [mapSet, mapGet, h]
    · simp [mapSet, mapGet, h, ih]

theorem childKey_mem_buildChildSet (services : List (String × jugglerCheck)) (s : String)
    (c : jugglerCheck) (ch : jugglerChildrenCheck) (hget : mapGet services s = some c)
    (hch : ch ∈ c.Children) : (ch.Host ++ ":" ++ s) ∈ buildChildSet services := by
  induction services with
  | nil => simp [mapGet] at hget
  | cons p rest ih =>
    obtain ⟨k, v⟩ := p
    simp only [buildChildSet, List.mem_append]
    by_cases hk : k = s
    · left
      simp only [mapGet, hk, if_true, Option.some.injEq] at hget
      subst hget
      subst hk
      exact List.mem_map.2 ⟨ch, hch, rfl⟩
    · right
      simp only [mapGet, hk, if_false] at hget
      exact ih hget

theorem attributesInSync_congr (js js' : Sender) (c : jugglerCheck)
    (h : withDefaults js' = withDefaults js) (hs : attributesInSync js c) :
    attributesInSync js' c := by
  have hA : js'.AggregatorKWArgs = js.AggregatorKWArgs :=
    (congrArg Sender.AggregatorKWArgs h :
      (withDefaults js').AggregatorKWArgs = (withDefaults js).AggregatorKWArgs)
  have hC : js'.ChecksOptions = js.ChecksOptions :=
    (congrArg Sender.ChecksOptions h :
      (withDefaults js').ChecksOptions = (withDefaults js).ChecksOptions)
  have hF : js'.Flap = js.Flap :=
    (congrArg Sender.Flap h : (withDefaults js').Flap = (withDefaults js).Flap)
  unfold attributesInSync at hs ⊢
  rw [h, hA, hC, hF]
  exact hs

/-- One trigger whose check is in sync and whose child is known leaves the
services as they are. -/
theorem ensureTrigger_of_inSync (childSet : List String) (st : LoopState) (t : jugglerEvent)
    (c : jugglerCheck) (hget : mapGet st.services t.Service = some c)
    (hupd : c.Update = false)
    (hwf : ∀ v ∈ st.js.AggregatorKWArgs.Limits, (v.map Prod.fst).Nodup)
    (hs : attributesInSync st.js c) (hchild : (t.Host ++ ":" ++ t.Service) ∈ childSet) :
    (ensureTrigger childSet st t).services = st.services ∧
    withDefaults (ensureTrigger childSet st t).js = withDefaults st.js := by
  obtain ⟨fl, hfl⟩ := ensureAttributes_of_inSync st.js c hwf hs
  have hfst := ensureAttributes_fst st.js c
  by_cases hu : t.Service ∈ st.updated
  · simp [ensureTrigger, hget, hu, hchild, hupd]
  · simp [ensureTrigger, hget, hu, hchild, hupd, hfl, hfst, withDefaults_idem]

theorem ensureTriggers_of_inSync (childSet : List String) (js : Sender)
    (services : List (String × jugglerCheck)) (triggers : List jugglerEvent)
    (hwf : ∀ v ∈ js.AggregatorKWArgs.Limits, (v.map Prod.fst).Nodup)
    (hall : ∀ t ∈ triggers, ∃ c, mapGet services t.Service = some c ∧ c.Update = false ∧
      attributesInSync js c ∧ (t.Host ++ ":" ++ t.Service) ∈ childSet)
    (st : LoopState) (hst : st.services = services) (hjs : withDefaults st.js = withDefaults js) :
    (ensureTriggers childSet st triggers).services = services := by
  induction triggers generalizing st with
  | nil => simpa [ensureTriggers] using hst
  | cons t rest ih =>
    obtain ⟨c, hget, hupd, hs, hchild⟩ := hall t (List.mem_cons_self t rest)
    have hA : st.js.AggregatorKWArgs = js.AggregatorKWArgs :=
      (congrArg Sender.AggregatorKWArgs hjs :
        (withDefaults st.js).AggregatorKWArgs = (withDefaults js).AggregatorKWArgs)
    obtain ⟨h1, h2⟩ := ensureTrigger_of_inSync childSet st t c (by rw [hst]; exact hget) hupd
      (by rw [hA]; exact hwf) (attributesInSync_congr js st.js c hjs hs) hchild
    simp only [ensureTriggers, List.foldl_cons]
    exact ih (fun t' ht' => hall t' (List.mem_cons_of_mem t ht')) _ (by rw [h1, hst])
      (by rw [h2, hjs])

theorem mapGet_mem {α : Type} (m : List (String × α)) (k : String) (v : α)
    (h : mapGet m k = some v) : (k, v) ∈ m := by
  induction m with
  | nil => simp [mapGet] at h
  | cons p rest ih =>
    obtain ⟨k', v'⟩ := p
    by_cases hk : k' = k
    · simp only [mapGet, hk, if_true, Option.some.injEq] at h
      simp [hk, h]
    · simp only [mapGet, hk, if_false] at h
      exact List.mem_cons_of_mem _ (ih h)

/-- C5: when the pass returns no error, the update calls are exactly the checks
of the Host marked for update after the trigger loop, one call for each, in
whatever order `range` yields them.  When no remote check is marked (the flag
is not part of a fetched check), every event's Service has a remote check whose
attributes equal the desired ones and which already lists the event's Host as a
child, no update call is made; the desired limit rules, being Go maps, have
distinct keys. -/
theorem ensureCheck_updates_marked_only
    (order : List (String × jugglerCheck) → List (String × jugglerCheck))
    (horder : ∀ l, (order l).Perm l) (net : Backend)
    (store : CacheStore) (js : Sender) (hostChecks : jugglerResponse)
    (triggers : List jugglerEvent) :
    mapGet (ensureCheck order net store js hostChecks triggers).hostChecks js.Host =
      some (reconciled js hostChecks triggers).services ∧
    ((ensureCheck order net store js hostChecks triggers).err = none →
      (ensureCheck order net store js hostChecks triggers).calls.Perm
        (markedChecks (reconciled js hostChecks triggers).services)) ∧
    ((∀ p ∈ hostServices js hostChecks, p.2.Update = false) →
     (∀ v ∈ js.AggregatorKWArgs.Limits, (v.map Prod.fst).Nodup) →
     (∀ t ∈ triggers, ∃ c, mapGet (hostServices js hostChecks) t.Service = some c ∧
        attributesInSync js c ∧ ∃ ch ∈ c.Children, ch.Host = t.Host) →
      (ensureCheck order net store js hostChecks triggers).calls = [] ∧
      (ensureCheck order net store js hostChecks triggers).err = none) := by
  obtain ⟨pre, rest, hsplit, hcalls, herr, hnil, _hne⟩ :=
    updateLoop_spec (reconciled js hostChecks triggers).js net
      (order (reconciled js hostChecks triggers).services) noUpdates
  have hc : (ensureCheck order net store js hostChecks triggers).calls = pre := by
    simpa [ensureCheck, noUpdates] using hcalls
  refine ⟨by simp [ensureCheck, mapGet_mapSet_self], ?_, ?_⟩
  · intro he
    have hr := herr (by simpa [ensureCheck] using he)
    rw [hc]
    rw [hr, List.append_nil] at hsplit
    rw [← hsplit]
    exact markedChecks_perm (horder _)
  · intro hclean hwf hall
    have hserv : (reconciled js hostChecks triggers).services = hostServices js hostChecks := by
      simp only [reconciled]
      refine ensureTriggers_of_inSync _ js (hostServices js hostChecks) triggers hwf ?_ _ rfl rfl
      intro t ht
      obtain ⟨c, hget, hs, ch, hch, hhost⟩ := hall t ht
      refine ⟨c, hget, hclean (t.Service, c) (mapGet_mem _ _ _ hget), hs, ?_⟩
      rw [← hhost]
      exact childKey_mem_buildChildSet _ _ c ch hget hch
    have hm : markedChecks (order (reconciled js hostChecks triggers).services) = [] := by
      rw [markedChecks_eq_nil_iff]
      intro p hp
      rw [hserv] at hp
      exact hclean p ((horder _).subset hp)
    rw [hm] at hsplit
    have hp : pre = [] := (List.append_eq_nil.1 hsplit.symm).1
    refine ⟨by rw [hc, hp], ?_⟩
    simp only [ensureCheck, hnil hp]
    rfl

/-- The C5 statement at a remote check of service `s` that is in sync with
`baseSender` and already has child host `a`: two events of `a` for `s` cause no
update call. -/
theorem ensureCheck_updates_marked_only_witness :
    (ensureCheck id acceptAll [] baseSender [("h", [("s", syncedCheck)])]
      [trigger "a" "s", trigger "a" "s"]).calls = [] ∧
    (ensureCheck id acceptAll [] baseSender [("h", [("s", syncedCheck)])]
      [trigger "a" "s", trigger "a" "s"]).err = none := by
  refine (ensureCheck_updates_marked_only id (fun l => List.Perm.refl l) acceptAll []
    baseSender [("h", [("s", syncedCheck)])] [trigger "a" "s", trigger "a" "s"]).2.2
    (by decide) (by decide) ?_
  intro t ht
  have ht' : t = trigger "a" "s" := by
    simp only [List.mem_cons, List.mem_singleton, or_self, List.not_mem_nil, or_false] at ht
    exact ht
  subst ht'
  refine ⟨syncedCheck, by decide, ?_,
    ⟨{ Instance := "", Host := "a", Type_ := "HOST", Service := "s" }, by decide, rfl⟩⟩
  refine ⟨by decide, by decide, by decide, by decide, by decide, by decide, ?_, ?_⟩
  · intro f hf
    have hn : mapGet baseSender.ChecksOptions syncedCheck.Service = none := by decide
    rw [hn] at hf
    cases hf
  · intro g _ hg
    have hn : baseSender.Flap = none := by decide
    rw [hn] at hg
    cases hg

/-! ### Description and namespace -/

/-- C11: `ensureDescription` defaults an empty desired description to the check
name; it replaces the remote description and raises the update flag exactly
when the desired description is non-empty and differs from the remote one, and
otherwise leaves the check as it is. -/
theorem ensureDescription_replaces_nonempty (js : Sender) (c : jugglerCheck) :
    (ensureDescription js c).1.Description =
      (if js.Description = "" then js.CheckName else js.Description) ∧
    (ensureDescription js c).2 =
      (if (if js.Description = "" then js.CheckName else js.Description) ≠ "" ∧
          c.Description ≠ (if js.Description = "" then js.CheckName else js.Description) then
        { c with Update := true,
                 Description := if js.Description = "" then js.CheckName else js.Description }
       else c) := by
  simp only [ensureDescription]
  by_cases h0 : js.Description = ""
  · simp only [h0, if_true]
    split_ifs <;> simp_all
  · simp only [h0, if_false]
    split_ifs <;> simp_all

/-- C12: with an empty token `ensureNamespace` leaves the check as it is; with
a token the namespace becomes the desired one (`combaine` when none is
configured) and the update flag is raised exactly when the remote namespace
differed. -/
theorem ensureNamespace_needs_token (js : Sender) (c : jugglerCheck) :
    (ensureNamespace js c).1.Namespace =
      (if js.Namespace = "" then "combaine" else js.Namespace) ∧
    (js.Token = "" → (ensureNamespace js c).2 = c) ∧
    (js.Token ≠ "" →
      (ensureNamespace js c).2 =
        { c with
          Namespace := if js.Namespace = "" then "combaine" else js.Namespace
          Update := c.Update ||
            decide (c.Namespace ≠ (if js.Namespace = "" then "combaine" else js.Namespace)) }) := by
  cases c
  simp only [ensureNamespace]
  by_cases h0 : js.Namespace = ""
  · simp only [h0, if_true]
    refine ⟨?_, ?_, ?_⟩
    · split_ifs <;> rfl
    · intro ht; simp [ht]
    · intro ht; split_ifs <;> simp_all
  · simp only [h0, if_false]
    refine ⟨?_, ?_, ?_⟩
    · split_ifs <;> rfl
    · intro ht; simp [ht]
    · intro ht; split_ifs <;> simp_all

/-- The C12 statement at a sender with token `t` and no namespace, and a remote
check in namespace `other`: the namespace becomes `combaine` and the check is
marked. -/
theorem ensureNamespace_needs_token_witness :
    ({ baseSender with Token := "t" } : Sender).Token ≠ "" ∧
    (ensureNamespace { baseSender with Token := "t" }
      { emptyCheck with Namespace := "other" }).2 =
      { emptyCheck with Namespace := "combaine", Update := true } := by
  refine ⟨by decide, ?_⟩
  rw [(ensureNamespace_needs_token { baseSender with Token := "t" }
    { emptyCheck with Namespace := "other" }).2.2 (by decide)]
  decide

/-! ### Host loops -/

theorem updateCheckHosts_failures (net : Backend) (check : jugglerCheck) (pre rest : List String)
    (errs : List String) (posts : List (String × jugglerCheck))
    (hpre : ∀ o ∈ outcomesFrom (fun n host => net n host check) posts.length pre,
      o.remoteFailure = true) :
    updateCheckHosts net check (pre ++ rest) errs posts =
      updateCheckHosts net check rest
        (failureKeys errs (outcomesFrom (fun n host => net n host check) posts.length pre))
        (posts ++ pre.map (fun host => (host, check))) := by
  induction pre generalizing errs posts with
  | nil => simp [outcomesFrom, failureKeys]
  | cons h t ih =>
    have h0 : (net posts.length h check).remoteFailure = true :=
      hpre _ (by simp [outcomesFrom])
    have ht : ∀ o ∈ outcomesFrom (fun n host => net n host check)
        (posts ++ [(h, check)]).length t, o.remoteFailure = true := by
      intro o ho
      apply hpre
      simp only [outcomesFrom, List.mem_cons]
      right
      simpa using ho
    have hlen : (posts ++ [(h, check)]).length = posts.length + 1 := by simp
    cases ho : net posts.length h check with
    | badRequest msg => rw [ho] at h0; simp [HttpOutcome.remoteFailure] at h0
    | canceled => rw [ho] at h0; simp [HttpOutcome.remoteFailure] at h0
    | deadlineExceeded => rw [ho] at h0; simp [HttpOutcome.remoteFailure] at h0
    | response status body =>
      rw [ho] at h0
      have hs : status ≠ 200 := by simpa [HttpOutcome.remoteFailure] using h0
      rw [List.cons_append]
      simp only [updateCheckHosts, ho, hs, ne_eq, not_false_eq_true, if_true]
      rw [ih _ _ ht, hlen]
      simp [outcomesFrom, failureKeys, ho, HttpOutcome.failureKey]
    | readError msg =>
      rw [List.cons_append]
      simp only [updateCheckHosts, ho]
      rw [ih _ _ ht, hlen]
      simp [outcomesFrom, failureKeys, ho, HttpOutcome.failureKey]
    | netError msg =>
      rw [List.cons_append]
      simp only [updateCheckHosts, ho]
      rw [ih _ _ ht, hlen]
      simp [outcomesFrom, failureKeys, ho, HttpOutcome.failureKey]

theorem checkFetcherHosts_failures (net : GetBackend) (q : String) (pre rest : List String)
    (jerrors gets : List String)
    (hpre : ∀ o ∈ outcomesFrom (fun n host => net n host q) gets.length pre,
      o.fetchFailure = true) :
    checkFetcherHosts net q (pre ++ rest) jerrors gets =
      checkFetcherHosts net q rest
        (jerrors ++ fetchFailureTexts pre
          (outcomesFrom (fun n host => net n host q) gets.length pre))
        (gets ++ pre) := by
  induction pre generalizing jerrors gets with
  | nil => simp [outcomesFrom, fetchFailureTexts]
  | cons h t ih =>
    have h0 : (net gets.length h q).fetchFailure = true := hpre _ (by simp [outcomesFrom])
    have ht : ∀ o ∈ outcomesFrom (fun n host => net n host q) (gets ++ [h]).length t,
        o.fetchFailure = true := by
      intro o ho
      apply hpre
      simp only [outcomesFrom, List.mem_cons]
      right
      simpa using ho
    have hlen : (gets ++ [h]).length = gets.length + 1 := by simp
    cases ho : net gets.length h q with
    | canceled => rw [ho] at h0; simp [HttpOutcome.fetchFailure, HttpOutcome.remoteFailure] at h0
    | deadlineExceeded =>
      rw [ho] at h0; simp [HttpOutcome.fetchFailure, HttpOutcome.remoteFailure] at h0
    | response status body =>
      rw [ho] at h0
      have hs : status ≠ 200 := by
        simpa [HttpOutcome.fetchFailure, HttpOutcome.remoteFailure] using h0
      rw [List.cons_append]
      simp only [checkFetcherHosts, ho, hs, ne_eq, not_false_eq_true, if_true]
      rw [ih _ _ ht, hlen]
      simp [outcomesFrom, fetchFailureTexts, ho, HttpOutcome.fetchFailureText]
    | readError msg =>
      rw [List.cons_append]
      simp only [checkFetcherHosts, ho]
      rw [ih _ _ ht, hlen]
      simp [outcomesFrom, fetchFailureTexts, ho, HttpOutcome.fetchFailureText]
    | netError msg =>
      rw [List.cons_append]
      simp only [checkFetcherHosts, ho]
      rw [ih _ _ ht, hlen]
      simp [outcomesFrom, fetchFailureTexts, ho, HttpOutcome.fetchFailureText]
    | badRequest msg =>
      rw [List.cons_append]
      simp only [checkFetcherHosts, ho]
      rw [ih _ _ ht, hlen]
      simp [outcomesFrom, fetchFailureTexts, ho, HttpOutcome.fetchFailureText]

theorem outcomesFrom_length (net : Nat → String → HttpOutcome) (n : Nat) (hosts : List String) :
    (outcomesFrom net n hosts).length = hosts.length := by
  induction hosts generalizing n with
  | nil => rfl
  | cons h t ih => simp [outcomesFrom, ih]
theorem mem_errsSet (errs : List String) (k x : String) :
    x ∈ errsSet errs k ↔ x ∈ errs ∨ x = k := by
  unfold errsSet
  split_ifs with h
  · constructor
    · exact Or.inl
    · rintro (h' | h')
      · exact h'
      · rw [h']; exact h
  · simp

theorem errsSet_nodup (errs : List String) (k : String) (hnd : errs.Nodup) :
    (errsSet errs k).Nodup := by
  unfold errsSet
  split_ifs with h
  · exact hnd
  · exact List.Nodup.append hnd (List.nodup_singleton k) (by simpa using h)

theorem errsSet_length_le (errs : List String) (k : String) :
    (errsSet errs k).length ≤ errs.length + 1 := by
  unfold errsSet
  split_ifs <;> simp

theorem failureKeys_nodup (outcomes : List HttpOutcome) (errs : List String)
    (hnd : errs.Nodup) : (failureKeys errs outcomes).Nodup := by
  induction outcomes generalizing errs with
  | nil => simpa [failureKeys] using hnd
  | cons o os ih =>
    simp only [failureKeys, List.foldl_cons] at ih ⊢
    exact ih _ (errsSet_nodup errs _ hnd)

theorem mem_failureKeys (outcomes : List HttpOutcome) (errs : List String) (x : String) :
    x ∈ failureKeys errs outcomes ↔ x ∈ errs ∨ ∃ o ∈ outcomes, x = o.failureKey := by
  induction outcomes generalizing errs with
  | nil => simp [failureKeys]
  | cons o os ih =>
    simp only [failureKeys, List.foldl_cons] at ih ⊢
    rw [ih, mem_errsSet]
    simp only [List.mem_cons, exists_eq_or_imp]
    tauto

theorem failureKeys_length_le (outcomes : List HttpOutcome) (errs : List String) :
    (failureKeys errs outcomes).length ≤ errs.length + outcomes.length := by
  induction outcomes generalizing errs with
  | nil => simp [failureKeys]
  | cons o os ih =>
    simp only [failureKeys, List.foldl_cons, List.length_cons] at ih ⊢
    have h1 := ih (errsSet errs o.failureKey)
    have h2 := errsSet_length_le errs o.failureKey
    omega

theorem joinBlank_append_singleton (l : List String) (t : String) :
    ∃ a, joinBlank (l ++ [t]) = a ++ t := by
  induction l with
  | nil => exact ⟨"", by simp [joinBlank]⟩
  | cons x l' ih =>
    obtain ⟨a, ha⟩ := ih
    cases l' with
    | nil => exact ⟨x ++ " ", by simp [joinBlank]⟩
    | cons y l'' =>
      refine ⟨x ++ " " ++ a, ?_⟩
      have ha' : joinBlank (y :: (l'' ++ [t])) = a ++ t := ha
      show x ++ " " ++ joinBlank (y :: (l'' ++ [t])) = x ++ " " ++ a ++ t
      rw [ha']
      simp [String.append_assoc]

/-- C14: `checkFetcher` contacts the hosts in list order.  If the hosts before
`h` all fail without a context error and `h` answers with status 200 and a
readable body, the result is that body without error, every host up to `h` was
contacted in order and no host after `h` is.  In particular hosts
`[unreachable, good]` yield the body of `good`. -/
theorem checkFetcher_first_success (net : GetBackend) (q : String) (pre post : List String)
    (h body : String)
    (hpre : ∀ o ∈ outcomesFrom (fun n host => net n host q) 0 pre, o.fetchFailure = true)
    (hh : net pre.length h q = .response 200 body) :
    checkFetcher net q (pre ++ h :: post) =
      { body := some body, err := none, gets := pre ++ [h] } ∧
    checkFetcher oneGoodHost "q" ["unreachable", "good"] =
      { body := some "checks", err := none, gets := ["unreachable", "good"] } := by
  refine ⟨?_, by decide⟩
  unfold checkFetcher
  rw [checkFetcherHosts_failures net q pre (h :: post) [] [] hpre]
  simp [checkFetcherHosts, hh]

/-- The C14 statement at the hosts `[unreachable, good, other]` of
`oneGoodHost`: the body of `good` is returned and `other` is not contacted. -/
theorem checkFetcher_first_success_witness :
    checkFetcher oneGoodHost "q" (["unreachable"] ++ "good" :: ["other"]) =
      { body := some "checks", err := none, gets := ["unreachable"] ++ ["good"] } :=
  (checkFetcher_first_success oneGoodHost "q" ["unreachable"] ["other"] "good" "checks"
    (by decide) (by decide)).1

/-- C15: in both host loops a context error at host `h` ends the loop.  When
the hosts before `h` failed remotely and the request to `h` ends with
`context.Canceled` or `context.DeadlineExceeded`, no host after `h` is
contacted; `updateCheck` returns the context error itself, `checkFetcher`
returns the error built from `jerrors`, whose last element is the context
error, so that its text contains the text of the context error. -/
theorem host_loops_stop_on_context_error (js : Sender) (unet : Backend)
    (posts : List (String × jugglerCheck)) (check : jugglerCheck) (gnet : GetBackend)
    (q : String) (pre post : List String) (h : String) (e : GoError) :
    (js.JHosts = pre ++ h :: post →
      (∀ o ∈ outcomesFrom (fun n host => unet n host check) posts.length pre,
        o.remoteFailure = true) →
      (unet (posts.length + pre.length) h check).contextError = some e →
      updateCheck js unet posts check =
        (some e, posts ++ (pre ++ [h]).map (fun host => (host, check))) ∧
      (e = .canceled ∨ e = .deadlineExceeded)) ∧
    ((∀ o ∈ outcomesFrom (fun n host => gnet n host q) 0 pre, o.fetchFailure = true) →
      (gnet pre.length h q).contextError = some e →
      checkFetcher gnet q (pre ++ h :: post) =
        { body := none
          err := some (.getCheckFailed
            (fetchFailureTexts pre (outcomesFrom (fun n host => gnet n host q) 0 pre) ++
              [(gnet pre.length h q).fetchFailureText h]))
          gets := pre ++ [h] } ∧
      ((gnet pre.length h q).fetchFailureText h = canceledText ∧ e = .canceled ∨
       (gnet pre.length h q).fetchFailureText h = deadlineExceededText ∧
        e = .deadlineExceeded) ∧
      ∀ quote : String → String,
        (∃ a b, quote ((gnet pre.length h q).fetchFailureText h) =
          a ++ (gnet pre.length h q).fetchFailureText h ++ b) →
        ∃ a b, getCheckErrorText quote
          (fetchFailureTexts pre (outcomesFrom (fun n host => gnet n host q) 0 pre) ++
            [(gnet pre.length h q).fetchFailureText h]) =
          a ++ (gnet pre.length h q).fetchFailureText h ++ b) := by
  constructor
  · intro hhosts hpre hh
    unfold updateCheck
    rw [hhosts, updateCheckHosts_failures unet check pre (h :: post) [] posts hpre]
    cases ho : unet (posts.length + pre.length) h check with
    | canceled =>
      rw [ho] at hh
      simp only [HttpOutcome.contextError, Option.some.injEq] at hh
      subst hh
      simp [updateCheckHosts, ho]
    | deadlineExceeded =>
      rw [ho] at hh
      simp only [HttpOutcome.contextError, Option.some.injEq] at hh
      subst hh
      simp [updateCheckHosts, ho]
    | badRequest msg => rw [ho] at hh; simp [HttpOutcome.contextError] at hh
    | response status body => rw [ho] at hh; simp [HttpOutcome.contextError] at hh
    | readError msg => rw [ho] at hh; simp [HttpOutcome.contextError] at hh
    | netError msg => rw [ho] at hh; simp [HttpOutcome.contextError] at hh
  · intro hpre hh
    refine ⟨?_, ?_, ?_⟩
    · unfold checkFetcher
      rw [checkFetcherHosts_failures gnet q pre (h :: post) [] [] hpre]
      cases ho : gnet pre.length h q with
      | canceled => simp [checkFetcherHosts, ho, HttpOutcome.fetchFailureText]
      | deadlineExceeded => simp [checkFetcherHosts, ho, HttpOutcome.fetchFailureText]
      | badRequest msg => rw [ho] at hh; simp [HttpOutcome.contextError] at hh
      | response status body => rw [ho] at hh; simp [HttpOutcome.contextError] at hh
      | readError msg => rw [ho] at hh; simp [HttpOutcome.contextError] at hh
      | netError msg => rw [ho] at hh; simp [HttpOutcome.contextError] at hh
    · cases ho : gnet pre.length h q with
      | canceled =>
        rw [ho] at hh
        simp only [HttpOutcome.contextError, Option.some.injEq] at hh
        exact Or.inl ⟨rfl, hh.symm⟩
      | deadlineExceeded =>
        rw [ho] at hh
        simp only [HttpOutcome.contextError, Option.some.injEq] at hh
        exact Or.inr ⟨rfl, hh.symm⟩
      | badRequest msg => rw [ho] at hh; simp [HttpOutcome.contextError] at hh
      | response status body => rw [ho] at hh; simp [HttpOutcome.contextError] at hh
      | readError msg => rw [ho] at hh; simp [HttpOutcome.contextError] at hh
      | netError msg => rw [ho] at hh; simp [HttpOutcome.contextError] at hh
    · rintro quote ⟨a, b, hq⟩
      obtain ⟨p, hp⟩ := joinBlank_append_singleton
        ((fetchFailureTexts pre (outcomesFrom (fun n host => gnet n host q) 0 pre)).map quote)
        (quote ((gnet pre.length h q).fetchFailureText h))
      refine ⟨"Failed to get juggler check: [" ++ p ++ a, b ++ "]", ?_⟩
      simp only [getCheckErrorText, List.map_append, List.map_cons, List.map_nil]
      rw [hp, hq]
      simp [String.append_assoc]

/-- The C15 statement at three hosts of which the first rejects and the second
meets the deadline: both loops stop at the second host and carry the deadline
error. -/
theorem host_loops_stop_on_context_error_witness :
    updateCheck { baseSender with JHosts := ["j1", "j2", "j3"] } rejectThenDeadline []
        plainCheck =
      (some .deadlineExceeded,
        [] ++ (["j1"] ++ ["j2"]).map (fun host => (host, plainCheck))) ∧
    checkFetcher readRejectThenDeadline "q" (["j1"] ++ "j2" :: ["j3"]) =
      { body := none
        err := some (.getCheckFailed
          (fetchFailureTexts ["j1"]
              (outcomesFrom (fun n host => readRejectThenDeadline n host "q") 0 ["j1"]) ++
            [(readRejectThenDeadline ["j1"].length "j2" "q").fetchFailureText "j2"]))
        gets := ["j1"] ++ ["j2"] } :=
  ⟨((host_loops_stop_on_context_error { baseSender with JHosts := ["j1", "j2", "j3"] }
      rejectThenDeadline [] plainCheck readRejectThenDeadline "q" ["j1"] ["j3"] "j2"
      .deadlineExceeded).1 rfl (by decide) (by decide)).1,
   ((host_loops_stop_on_context_error { baseSender with JHosts := ["j1", "j2", "j3"] }
      rejectThenDeadline [] plainCheck readRejectThenDeadline "q" ["j1"] ["j3"] "j2"
      .deadlineExceeded).2 (by decide) (by decide)).1⟩

/-- C16 fails as stated: a host answering an update with status 201 and a
readable body is not a success; `updateCheck` records the body as a failure
and, with no further host, returns the aggregate error. -/
theorem updateCheck_rejects_201 :
    baseSender.JHosts = ["j1"] ∧
    answerCreated 0 "j1" plainCheck = .response 201 "created" ∧
    updateCheck baseSender answerCreated [] plainCheck =
      (some (.updateErrs ["created"]), [("j1", plainCheck)]) := by
  decide

/-- C16 (amended): `updateCheck` takes status 200, and no other status, as
success.  When the hosts before `h` failed remotely, a response of `h` with
status 200 and a readable body ends the call without error and no further host
is contacted; a response of `h` with any other status (the other 2xx codes
included) is recorded as a failure under its body and the loop goes on with the
hosts after `h`. -/
theorem updateCheck_only_200_succeeds (js : Sender) (net : Backend)
    (posts : List (String × jugglerCheck)) (check : jugglerCheck) (pre post : List String)
    (h : String) (hhosts : js.JHosts = pre ++ h :: post)
    (hpre : ∀ o ∈ outcomesFrom (fun n host => net n host check) posts.length pre,
      o.remoteFailure = true) :
    (∀ body, net (posts.length + pre.length) h check = .response 200 body →
      updateCheck js net posts check =
        (none, posts ++ (pre ++ [h]).map (fun host => (host, check)))) ∧
    (∀ status body, status ≠ 200 →
      net (posts.length + pre.length) h check = .response status body →
      updateCheck js net posts check =
        updateCheckHosts net check post
          (errsSet
            (failureKeys [] (outcomesFrom (fun n host => net n host check) posts.length pre))
            body)
          (posts ++ (pre ++ [h]).map (fun host => (host, check)))) := by
  constructor
  · intro body hh
    unfold updateCheck
    rw [hhosts, updateCheckHosts_failures net check pre (h :: post) [] posts hpre]
    simp [updateCheckHosts, hh]
  · intro status body hs hh
    unfold updateCheck
    rw [hhosts, updateCheckHosts_failures net check pre (h :: post) [] posts hpre]
    simp [updateCheckHosts, hh, hs]

/-- The C16 statement at one host that answers with status 200. -/
theorem updateCheck_only_200_succeeds_witness :
    updateCheck baseSender acceptAll [] plainCheck =
      (none, [] ++ ([] ++ ["j1"]).map (fun host => (host, plainCheck))) :=
  (updateCheck_only_200_succeeds baseSender acceptAll [] plainCheck [] [] "j1" rfl
    (by decide)).1 "ok" (by decide)

/-- C17 fails as stated: two hosts reject the update with the same body and the
aggregate error carries one entry, not two. -/
theorem updateCheck_merges_equal_failures :
    ({ baseSender with JHosts := ["j1", "j2"] } : Sender).JHosts.length = 2 ∧
    updateCheck { baseSender with JHosts := ["j1", "j2"] } rejectAll [] plainCheck =
      (some (.updateErrs ["no"]), [("j1", plainCheck), ("j2", plainCheck)]) := by
  decide

/-- C17 (amended): when every configured host fails remotely, `updateCheck`
contacts all of them and returns the error built from `errs`, which holds the
distinct failure texts: every failure text is in it, it has at least one and at
most as many entries as there are hosts, and none twice.  With no host at all
it returns the error of api.go:444.  It never returns success. -/
theorem updateCheck_all_hosts_fail (js : Sender) (net : Backend)
    (posts : List (String × jugglerCheck)) (check : jugglerCheck)
    (hall : ∀ o ∈ outcomesFrom (fun n host => net n host check) posts.length js.JHosts,
      o.remoteFailure = true) :
    (updateCheck js net posts check).2 = posts ++ js.JHosts.map (fun host => (host, check)) ∧
    (updateCheck js net posts check).1 ≠ none ∧
    (js.JHosts = [] →
      (updateCheck js net posts check).1 = some (.unexpected check.Host check.Service)) ∧
    (js.JHosts ≠ [] →
      ∃ errs, (updateCheck js net posts check).1 = some (.updateErrs errs) ∧
        errs ≠ [] ∧ errs.Nodup ∧ errs.length ≤ js.JHosts.length ∧
        ∀ x, x ∈ errs ↔
          ∃ o ∈ outcomesFrom (fun n host => net n host check) posts.length js.JHosts,
            x = o.failureKey) := by
  have hrun : updateCheck js net posts check =
      updateCheckHosts net check []
        (failureKeys [] (outcomesFrom (fun n host => net n host check) posts.length js.JHosts))
        (posts ++ js.JHosts.map (fun host => (host, check))) := by
    unfold updateCheck
    have := updateCheckHosts_failures net check js.JHosts [] [] posts hall
    rwa [List.append_nil] at this
  have hmem : ∀ x, x ∈ failureKeys []
      (outcomesFrom (fun n host => net n host check) posts.length js.JHosts) ↔
      ∃ o ∈ outcomesFrom (fun n host => net n host check) posts.length js.JHosts,
        x = o.failureKey := by
    intro x
    rw [mem_failureKeys]
    simp
  refine ⟨?_, ?_, ?_, ?_⟩
  · rw [hrun]
    simp only [updateCheckHosts]
    split_ifs <;> rfl
  · rw [hrun]
    simp only [updateCheckHosts]
    split_ifs <;> simp
  · intro hnil
    rw [hrun, hnil]
    simp [updateCheckHosts, outcomesFrom, failureKeys]
  · intro hne
    obtain ⟨h0, t, hht⟩ := List.exists_cons_of_ne_nil hne
    have hkey : (net posts.length h0 check).failureKey ∈ failureKeys []
        (outcomesFrom (fun n host => net n host check) posts.length js.JHosts) := by
      rw [hmem]
      exact ⟨_, by rw [hht]; simp [outcomesFrom], rfl⟩
    have hpos : (failureKeys []
        (outcomesFrom (fun n host => net n host check) posts.length js.JHosts)).length > 0 :=
      List.length_pos_of_mem hkey
    refine ⟨_, ?_, List.ne_nil_of_length_pos hpos,
      failureKeys_nodup _ [] List.nodup_nil, ?_, hmem⟩
    · rw [hrun]
      simp [updateCheckHosts, hpos]
    · have := failureKeys_length_le
        (outcomesFrom (fun n host => net n host check) posts.length js.JHosts) []
      rw [outcomesFrom_length] at this
      simpa using this

/-- The C17 statement at two hosts that reject every update. -/
theorem updateCheck_all_hosts_fail_witness :
    (updateCheck { baseSender with JHosts := ["j1", "j2"] } rejectAll [] plainCheck).2 =
      [] ++ ({ baseSender with JHosts := ["j1", "j2"] } : Sender).JHosts.map
        (fun host => (host, plainCheck)) ∧
    (updateCheck { baseSender with JHosts := ["j1", "j2"] } rejectAll [] plainCheck).1 ≠ none :=
  ⟨(updateCheck_all_hosts_fail { baseSender with JHosts := ["j1", "j2"] } rejectAll []
      plainCheck (by decide)).1,
   (updateCheck_all_hosts_fail { baseSender with JHosts := ["j1", "j2"] } rejectAll []
      plainCheck (by decide)).2.1⟩

/-! ### The cache read -/

theorem mapGet_mapSet_of_ne {α : Type} (m : List (String × α)) (k k' : String) (v : α)
    (hne : k' ≠ k) : mapGet (mapSet m k v) k' = mapGet m k' := by
  induction m with
  | nil =>
    have : ¬ k = k' := fun e => hne e.symm
    simp [mapSet, mapGet, this]
  | cons p rest ih =>
    obtain ⟨k₁, v₁⟩ := p
    by_cases h : k₁ = k
    · have h' : ¬ k₁ = k' := fun e => hne (e ▸ h)
      have h'' : ¬ k = k' := fun e => hne e.symm
      simp [mapSet, mapGet, h, h', h'']
    · by_cases h2 : k₁ = k'
      · subst h2
        simp [mapSet, mapGet, h]
      · simp [mapSet, mapGet, h, h2, ih]

theorem cacheGet_fetched_of_absent (store : CacheStore) (ttl : Int) (key : String)
    (f : String × Option GoError) (now1 now2 : Int) (hmiss : mapGet store key = none) :
    (cacheGet store ttl key f now1 now2).fetched = true := by
  simp [cacheGet, hmiss]

/-- C19: a `Get` that finishes at or after the expiry of the entry returns the
value and error of the entry and leaves the key absent from the store, so that
the next `Get` for the key invokes the fetch function; this holds for an entry
the call created (always when `ttl = 0`, the clock not going backwards) and for
one it found. -/
theorem cacheGet_evicts_expired (store : CacheStore) (ttl : Int) (key : String)
    (f : String × Option GoError) (now1 now2 : Int) :
    (mapGet store key = none → now1 + ttl ≤ now2 →
      (cacheGet store ttl key f now1 now2).value = f.1 ∧
      (cacheGet store ttl key f now1 now2).err = f.2 ∧
      mapGet (cacheGet store ttl key f now1 now2).store key = none ∧
      ∀ ttl' f' t1 t2,
        (cacheGet (cacheGet store ttl key f now1 now2).store ttl' key f' t1 t2).fetched = true) ∧
    (mapGet store key = none → ttl = 0 → now1 ≤ now2 →
      (cacheGet store ttl key f now1 now2).value = f.1 ∧
      (cacheGet store ttl key f now1 now2).err = f.2 ∧
      mapGet (cacheGet store ttl key f now1 now2).store key = none ∧
      ∀ ttl' f' t1 t2,
        (cacheGet (cacheGet store ttl key f now1 now2).store ttl' key f' t1 t2).fetched = true) ∧
    (∀ item, mapGet store key = some item → item.expires ≤ now2 →
      (cacheGet store ttl key f now1 now2).value = item.value ∧
      (cacheGet store ttl key f now1 now2).err = item.err ∧
      (cacheGet store ttl key f now1 now2).fetched = false ∧
      mapGet (cacheGet store ttl key f now1 now2).store key = none ∧
      ∀ ttl' f' t1 t2,
        (cacheGet (cacheGet store ttl key f now1 now2).store ttl' key f' t1 t2).fetched = true) := by
  have hmiss : mapGet store key = none → now1 + ttl ≤ now2 →
      (cacheGet store ttl key f now1 now2).value = f.1 ∧
      (cacheGet store ttl key f now1 now2).err = f.2 ∧
      mapGet (cacheGet store ttl key f now1 now2).store key = none ∧
      ∀ ttl' f' t1 t2,
        (cacheGet (cacheGet store ttl key f now1 now2).store ttl' key f' t1 t2).fetched =
          true := by
    intro hm hexp
    have hge : now2 - (now1 + ttl) ≥ 0 := by omega
    have hkey : mapGet (cacheGet store ttl key f now1 now2).store key = none := by
      simp only [cacheGet, hm, hge, if_true]
      exact mapGet_mapDelete_self _ key
    refine ⟨by simp [cacheGet, hm], by simp [cacheGet, hm], hkey, ?_⟩
    intro ttl' f' t1 t2
    exact cacheGet_fetched_of_absent _ ttl' key f' t1 t2 hkey
  refine ⟨hmiss, ?_, ?_⟩
  · intro hm h0 hle
    exact hmiss hm (by omega)
  · intro item hm hexp
    have hge : now2 - item.expires ≥ 0 := by omega
    have hkey : mapGet (cacheGet store ttl key f now1 now2).store key = none := by
      simp only [cacheGet, hm, hge, if_true]
      exact mapGet_mapDelete_self _ key
    refine ⟨by simp [cacheGet, hm], by simp [cacheGet, hm], by simp [cacheGet, hm], hkey, ?_⟩
    intro ttl' f' t1 t2
    exact cacheGet_fetched_of_absent _ ttl' key f' t1 t2 hkey

/-- The C19 statement at an empty store with `ttl = 0` and at a store whose
entry for `h` expired at time 10, read at time 10. -/
theorem cacheGet_evicts_expired_witness :
    (cacheGet [] 0 "h" ("checks", none) 5 5).value = "checks" ∧
    mapGet (cacheGet [] 0 "h" ("checks", none) 5 5).store "h" = none ∧
    (cacheGet oneEntryStore 60 "h" ("checks", none) 10 10).value = "cached" ∧
    mapGet (cacheGet oneEntryStore 60 "h" ("checks", none) 10 10).store "h" = none :=
  ⟨((cacheGet_evicts_expired [] 0 "h" ("checks", none) 5 5).2.1 (by decide) rfl
      (by decide)).1,
   ((cacheGet_evicts_expired [] 0 "h" ("checks", none) 5 5).2.1 (by decide) rfl
      (by decide)).2.2.1,
   ((cacheGet_evicts_expired oneEntryStore 60 "h" ("checks", none) 10 10).2.2
      { expires := 10, value := "cached", err := none } (by decide) (by decide)).1,
   ((cacheGet_evicts_expired oneEntryStore 60 "h" ("checks", none) 10 10).2.2
      { expires := 10, value := "cached", err := none } (by decide) (by decide)).2.2.2.1⟩

/-- C20: when `Get` is called for an absent key and the fetch function returns
an error, `Get` invokes the fetch function and returns its value and error, the
key is absent from the store afterwards, the entries of all other keys are as
before, and the next `Get` for the key invokes the fetch function again. -/
theorem cacheGet_drops_failed_fetch (store : CacheStore) (ttl : Int) (key : String)
    (f : String × Option GoError) (now1 now2 : Int) (e : GoError)
    (hmiss : mapGet store key = none) (herr : f.2 = some e) :
    (cacheGet store ttl key f now1 now2).err = some e ∧
    (cacheGet store ttl key f now1 now2).value = f.1 ∧
    (cacheGet store ttl key f now1 now2).fetched = true ∧
    mapGet (cacheGet store ttl key f now1 now2).store key = none ∧
    (∀ k, k ≠ key → mapGet (cacheGet store ttl key f now1 now2).store k = mapGet store k) ∧
    ∀ ttl' f' t1 t2,
      (cacheGet (cacheGet store ttl key f now1 now2).store ttl' key f' t1 t2).fetched = true := by
  have hkey : mapGet (cacheGet store ttl key f now1 now2).store key = none := by
    simp only [cacheGet, hmiss, herr]
    split_ifs <;> first | exact mapGet_mapDelete_self _ key | simp_all
  refine ⟨by simp [cacheGet, hmiss, herr], by simp [cacheGet, hmiss],
    cacheGet_fetched_of_absent store ttl key f now1 now2 hmiss, hkey, ?_, ?_⟩
  · intro k hk
    simp only [cacheGet, hmiss, herr]
    split_ifs <;>
      first
      | rw [mapGet_mapDelete_of_ne _ key k hk, mapGet_mapDelete_of_ne _ key k hk,
          mapGet_mapSet_of_ne _ key k _ hk]
      | rw [mapGet_mapDelete_of_ne _ key k hk, mapGet_mapSet_of_ne _ key k _ hk]
      | simp_all
  · intro ttl' f' t1 t2
    exact cacheGet_fetched_of_absent _ ttl' key f' t1 t2 hkey

/-- The C20 statement at a store with an entry for `x` only and a fetch for `h`
that meets the deadline. -/
theorem cacheGet_drops_failed_fetch_witness :
    (cacheGet [("x", { expires := 99, value := "v", err := none })] 60 "h"
      ("", some .deadlineExceeded) 0 1).err = some .deadlineExceeded ∧
    (cacheGet [("x", { expires := 99, value := "v", err := none })] 60 "h"
      ("", some .deadlineExceeded) 0 1).store =
      [("x", { expires := 99, value := "v", err := none })] := by
  refine ⟨(cacheGet_drops_failed_fetch [("x", { expires := 99, value := "v", err := none })]
    60 "h" ("", some .deadlineExceeded) 0 1 .deadlineExceeded (by decide) rfl).1, by decide⟩

/-! ### One reconciliation of the attributes per Service -/

theorem ensureTTL_snd (js : Sender) (c : jugglerCheck) :
    (ensureTTL js c).2 =
      (if c.TTL ≠ (withDefaults js).TTL then
        { c with Update := true, TTL := (withDefaults js).TTL }
       else c) := by
  simp only [ensureTTL, withDefaults]
  by_cases h0 : js.TTL = 0
  · simp only [h0, if_true]
    split_ifs <;> rfl
  · simp only [h0, if_false]
    split_ifs <;> rfl

theorem ensureAggregator_snd (js : Sender) (c : jugglerCheck) :
    (ensureAggregator js c).2 =
      (if aggregatorOutdated (withDefaults js) c then
        { c with Update := true, Aggregator := (withDefaults js).Aggregator,
                 AggregatorKWArgs := (withDefaults js).AggregatorKWArgs }
       else c) := by
  have h : aggregatorOutdated (withDefaults js) c = aggregatorOutdated js c := rfl
  simp only [ensureAggregator, h]
  split_ifs <;> rfl

theorem ensureMethods_snd (js : Sender) (c : jugglerCheck) :
    (ensureMethods js c).2 =
      (if methodsOutdated c.Methods (withDefaults js).Methods then
        { c with Update := true, Methods := (withDefaults js).Methods }
       else c) := by
  have h : (withDefaults js).Methods = (defaultMethods js).Methods := rfl
  simp only [ensureMethods, h]
  split_ifs <;> rfl

theorem ensureFlap_snd_congr (js js' : Sender) (c : jugglerCheck)
    (hC : js'.ChecksOptions = js.ChecksOptions) (hF : js'.Flap = js.Flap) :
    (ensureFlap js' c).2 = (ensureFlap js c).2 := by
  cases h1 : mapGet js.ChecksOptions c.Service with
  | some f => simp only [ensureFlap, hC, hF, h1]; split_ifs <;> rfl
  | none =>
    cases h2 : js.Flap with
    | none => simp only [ensureFlap, hC, hF, h1, h2]
    | some g => simp only [ensureFlap, hC, hF, h1, h2]; split_ifs <;> rfl

theorem ensureTags_snd (js : Sender) (c : jugglerCheck) :
    (ensureTags js c).2 =
      (if c.Tags.length = 0 then { c with Update := true, Tags := (withDefaults js).Tags }
       else appendMissingTags c.Tags c (withDefaults js).Tags) := by
  have h : (withDefaults js).Tags = (defaultTags js).Tags := rfl
  simp only [ensureTags, h]
  split_ifs <;> rfl

theorem ensureDescription_snd (js : Sender) (c : jugglerCheck) :
    (ensureDescription js c).2 =
      (if c.Description ≠ (withDefaults js).Description ∧ (withDefaults js).Description ≠ "" then
        { c with Update := true, Description := (withDefaults js).Description }
       else c) := by
  simp only [ensureDescription, withDefaults]
  by_cases h0 : js.Description = ""
  · simp only [h0, if_true]
    split_ifs <;> rfl
  · simp only [h0, if_false]
    split_ifs <;> rfl

theorem ensureNamespace_snd (js : Sender) (c : jugglerCheck) :
    (ensureNamespace js c).2 =
      (if (withDefaults js).Token ≠ "" ∧ c.Namespace ≠ (withDefaults js).Namespace then
        { c with Update := true, Namespace := (withDefaults js).Namespace }
       else c) := by
  simp only [ensureNamespace, withDefaults]
  by_cases h0 : js.Namespace = ""
  · simp only [h0, if_true]
    split_ifs <;> rfl
  · simp only [h0, if_false]
    split_ifs <;> rfl

theorem withDefaults_ensureAttributes_steps (js : Sender) (c : jugglerCheck) :
    withDefaults (ensureTTL js c).1 = withDefaults js ∧
    withDefaults (ensureAggregator js c).1 = withDefaults js ∧
    withDefaults (ensureMethods js c).1 = withDefaults js ∧
    withDefaults (ensureFlap js c).1 = withDefaults js ∧
    withDefaults (ensureTags js c).1 = withDefaults js ∧
    withDefaults (ensureDescription js c).1 = withDefaults js ∧
    withDefaults (ensureNamespace js c).1 = withDefaults js := by
  refine ⟨?_, ?_, ?_, ?_, ?_, ?_, ?_⟩
  · rw [ensureTTL_fst]
    cases js
    simp only [withDefaults_eq, Sender.mk.injEq, true_and, and_true]
    split_ifs <;> simp_all
  · rw [ensureAggregator_fst]
  · rw [ensureMethods_fst, withDefaults_defaultMethods]
  · rw [ensureFlap_fst]
  · rw [ensureTags_fst, withDefaults_defaultTags]
  · rw [ensureDescription_fst]
    cases js
    simp only [withDefaults_eq, Sender.mk.injEq, true_and, and_true]
    split_ifs <;> simp_all
  · rw [ensureNamespace_fst]
    cases js
    simp only [withDefaults_eq, Sender.mk.injEq, true_and, and_true]
    split_ifs <;> simp_all

/-- The check after the attribute steps depends on the receiver only through
its options after defaulting. -/
theorem ensureAttributes_snd_congr (js js' : Sender) (c : jugglerCheck)
    (h : withDefaults js' = withDefaults js) :
    (ensureAttributes js' c).2 = (ensureAttributes js c).2 := by
  have step : ∀ (a b : Sender) (x : jugglerCheck), withDefaults a = withDefaults b →
      (ensureTTL a x).2 = (ensureTTL b x).2 ∧
      (ensureAggregator a x).2 = (ensureAggregator b x).2 ∧
      (ensureMethods a x).2 = (ensureMethods b x).2 ∧
      (ensureFlap a x).2 = (ensureFlap b x).2 ∧
      (ensureTags a x).2 = (ensureTags b x).2 ∧
      (ensureDescription a x).2 = (ensureDescription b x).2 ∧
      (ensureNamespace a x).2 = (ensureNamespace b x).2 := by
    intro a b x hab
    have hC : a.ChecksOptions = b.ChecksOptions :=
      (congrArg Sender.ChecksOptions hab :
        (withDefaults a).ChecksOptions = (withDefaults b).ChecksOptions)
    have hF : a.Flap = b.Flap :=
      (congrArg Sender.Flap hab : (withDefaults a).Flap = (withDefaults b).Flap)
    refine ⟨?_, ?_, ?_, ensureFlap_snd_congr b a x hC hF, ?_, ?_, ?_⟩
    · rw [ensureTTL_snd, ensureTTL_snd, hab]
    · rw [ensureAggregator_snd, ensureAggregator_snd, hab]
    · rw [ensureMethods_snd, ensureMethods_snd, hab]
    · rw [ensureTags_snd, ensureTags_snd, hab]
    · rw [ensureDescription_snd, ensureDescription_snd, hab]
    · rw [ensureNamespace_snd, ensureNamespace_snd, hab]
  simp only [ensureAttributes]
  have w1 := (withDefaults_ensureAttributes_steps js c).1
  have w1' := (withDefaults_ensureAttributes_steps js' c).1
  have e1 := (step js' js c h).1
  have h1 : withDefaults (ensureTTL js' c).1 = withDefaults (ensureTTL js c).1 := by
    rw [w1, w1', h]
  generalize (ensureTTL js' c).1 = a1 at h1 e1 ⊢
  generalize (ensureTTL js c).1 = b1 at h1 ⊢
  rw [e1]
  generalize (ensureTTL js c).2 = x1
  have e2 := (step a1 b1 x1 h1).2.1
  have h2 : withDefaults (ensureAggregator a1 x1).1 = withDefaults (ensureAggregator b1 x1).1 := by
    rw [(withDefaults_ensureAttributes_steps a1 x1).2.1,
      (withDefaults_ensureAttributes_steps b1 x1).2.1, h1]
  generalize (ensureAggregator a1 x1).1 = a2 at h2 e2 ⊢
  generalize (ensureAggregator b1 x1).1 = b2 at h2 ⊢
  rw [e2]
  generalize (ensureAggregator b1 x1).2 = x2
  have e3 := (step a2 b2 x2 h2).2.2.1
  have h3 : withDefaults (ensureMethods a2 x2).1 = withDefaults (ensureMethods b2 x2).1 := by
    rw [(withDefaults_ensureAttributes_steps a2 x2).2.2.1,
      (withDefaults_ensureAttributes_steps b2 x2).2.2.1, h2]
  generalize (ensureMethods a2 x2).1 = a3 at h3 e3 ⊢
  generalize (ensureMethods b2 x2).1 = b3 at h3 ⊢
  rw [e3]
  generalize (ensureMethods b2 x2).2 = x3
  have e4 := (step a3 b3 x3 h3).2.2.2.1
  have h4 : withDefaults (ensureFlap a3 x3).1 = withDefaults (ensureFlap b3 x3).1 := by
    rw [(withDefaults_ensureAttributes_steps a3 x3).2.2.2.1,
      (withDefaults_ensureAttributes_steps b3 x3).2.2.2.1, h3]
  generalize (ensureFlap a3 x3).1 = a4 at h4 e4 ⊢
  generalize (ensureFlap b3 x3).1 = b4 at h4 ⊢
  rw [e4]
  generalize (ensureFlap b3 x3).2 = x4
  have e5 := (step a4 b4 x4 h4).2.2.2.2.1
  have h5 : withDefaults (ensureTags a4 x4).1 = withDefaults (ensureTags b4 x4).1 := by
    rw [(withDefaults_ensureAttributes_steps a4 x4).2.2.2.2.1,
      (withDefaults_ensureAttributes_steps b4 x4).2.2.2.2.1, h4]
  generalize (ensureTags a4 x4).1 = a5 at h5 e5 ⊢
  generalize (ensureTags b4 x4).1 = b5 at h5 ⊢
  rw [e5]
  generalize (ensureTags b4 x4).2 = x5
  have e6 := (step a5 b5 x5 h5).2.2.2.2.2.1
  have h6 : withDefaults (ensureDescription a5 x5).1 =
      withDefaults (ensureDescription b5 x5).1 := by
    rw [(withDefaults_ensureAttributes_steps a5 x5).2.2.2.2.2.1,
      (withDefaults_ensureAttributes_steps b5 x5).2.2.2.2.2.1, h5]
  generalize (ensureDescription a5 x5).1 = a6 at h6 e6 ⊢
  generalize (ensureDescription b5 x5).1 = b6 at h6 ⊢
  rw [e6]
  generalize (ensureDescription b5 x5).2 = x6
  exact (step a6 b6 x6 h6).2.2.2.2.2.2

/-- The attribute steps never lower the update flag. -/
theorem ensureAttributes_update_of_update (js : Sender) (c : jugglerCheck)
    (hu : c.Update = true) : (ensureAttributes js c).2.Update = true := by
  have hT : ∀ (a : Sender) (x : jugglerCheck), x.Update = true →
      (ensureTTL a x).2.Update = true := by
    intro a x hx; rw [ensureTTL_snd]; split_ifs <;> simp [hx]
  have hA : ∀ (a : Sender) (x : jugglerCheck), x.Update = true →
      (ensureAggregator a x).2.Update = true := by
    intro a x hx; rw [ensureAggregator_snd]; split_ifs <;> simp [hx]
  have hM : ∀ (a : Sender) (x : jugglerCheck), x.Update = true →
      (ensureMethods a x).2.Update = true := by
    intro a x hx; rw [ensureMethods_snd]; split_ifs <;> simp [hx]
  have hF : ∀ (a : Sender) (x : jugglerCheck), x.Update = true →
      (ensureFlap a x).2.Update = true := by
    intro a x hx
    cases h1 : mapGet a.ChecksOptions x.Service with
    | some f => simp only [ensureFlap, h1]; split_ifs <;> simp [hx]
    | none =>
      cases h2 : a.Flap with
      | none => simp only [ensureFlap, h1, h2]; exact hx
      | some g => simp only [ensureFlap, h1, h2]; split_ifs <;> simp [hx]
  have hG : ∀ (a : Sender) (x : jugglerCheck), x.Update = true →
      (ensureTags a x).2.Update = true := by
    intro a x hx; rw [ensureTags_snd]; split_ifs <;> simp [appendMissingTags_eq, hx]
  have hD : ∀ (a : Sender) (x : jugglerCheck), x.Update = true →
      (ensureDescription a x).2.Update = true := by
    intro a x hx; rw [ensureDescription_snd]; split_ifs <;> simp [hx]
  have hN : ∀ (a : Sender) (x : jugglerCheck), x.Update = true →
      (ensureNamespace a x).2.Update = true := by
    intro a x hx; rw [ensureNamespace_snd]; split_ifs <;> simp [hx]
  simp only [ensureAttributes]
  exact hN _ _ (hD _ _ (hG _ _ (hF _ _ (hM _ _ (hA _ _ (hT _ _ hu))))))
theorem ensureTrigger_withDefaults (childSet : List String) (st : LoopState) (t : jugglerEvent) :
    withDefaults (ensureTrigger childSet st t).js = withDefaults st.js := by
  simp only [ensureTrigger]
  split_ifs <;> simp [ensureAttributes_fst, withDefaults_idem]

/-- An event of another Service leaves the check of `s` and the membership of
`s` in the set `updated` as they are. -/
theorem ensureTrigger_other_service (childSet : List String) (st : LoopState) (t : jugglerEvent)
    (s : String) (hne : t.Service ≠ s) :
    mapGet (ensureTrigger childSet st t).services s = mapGet st.services s ∧
    (s ∈ (ensureTrigger childSet st t).updated ↔ s ∈ st.updated) := by
  have hne' : s ≠ t.Service := fun e => hne e.symm
  simp only [ensureTrigger]
  split_ifs <;> simp [mapGet_mapSet_of_ne _ _ _ _ hne', hne']

theorem ensureTriggers_other_services (childSet : List String) (s : String)
    (pre : List jugglerEvent) (hpre : ∀ e ∈ pre, e.Service ≠ s) (st : LoopState) :
    mapGet (ensureTriggers childSet st pre).services s = mapGet st.services s ∧
    (s ∈ (ensureTriggers childSet st pre).updated ↔ s ∈ st.updated) ∧
    withDefaults (ensureTriggers childSet st pre).js = withDefaults st.js := by
  induction pre generalizing st with
  | nil => simp [ensureTriggers]
  | cons e rest ih =>
    obtain ⟨h1, h2, h3⟩ := ih (fun e' he' => hpre e' (List.mem_cons_of_mem e he'))
      (ensureTrigger childSet st e)
    obtain ⟨g1, g2⟩ := ensureTrigger_other_service childSet st e s
      (hpre e (List.mem_cons_self e rest))
    simp only [ensureTriggers, List.foldl_cons] at h1 h2 h3 ⊢
    exact ⟨by rw [h1, g1], by rw [h2, g2], by rw [h3, ensureTrigger_withDefaults]⟩

/-- Once `s` is in the set `updated`, an event keeps the attributes of the
check of `s` and can only append to its children. -/
theorem ensureTrigger_keeps_attributes (childSet : List String) (st : LoopState)
    (t : jugglerEvent) (s : String) (c : jugglerCheck) (hs : s ∈ st.updated)
    (hget : mapGet st.services s = some c) :
    s ∈ (ensureTrigger childSet st t).updated ∧
    ∃ c', mapGet (ensureTrigger childSet st t).services s = some c' ∧
      attributesOf c' = attributesOf c ∧ c.Children <+: c'.Children := by
  by_cases hts : t.Service = s
  · subst hts
    simp only [ensureTrigger, hget, hs, not_true_eq_false, if_false]
    split_ifs <;>
      first
      | exact ⟨hs, c, hget, rfl, List.prefix_refl _⟩
      | exact ⟨hs, _, mapGet_mapSet_self _ _ _, rfl, List.prefix_append _ _⟩
      | exact ⟨hs, _, mapGet_mapSet_self _ _ _, rfl, List.prefix_refl _⟩
  · obtain ⟨g1, g2⟩ := ensureTrigger_other_service childSet st t s hts
    exact ⟨g2.2 hs, c, by rw [g1, hget], rfl, List.prefix_refl _⟩

theorem ensureTriggers_keep_attributes (childSet : List String) (s : String)
    (post : List jugglerEvent) (st : LoopState) (c : jugglerCheck) (hs : s ∈ st.updated)
    (hget : mapGet st.services s = some c) :
    ∃ c', mapGet (ensureTriggers childSet st post).services s = some c' ∧
      attributesOf c' = attributesOf c ∧ c.Children <+: c'.Children := by
  induction post generalizing st c with
  | nil => exact ⟨c, by simpa [ensureTriggers] using hget, rfl, List.prefix_refl _⟩
  | cons e rest ih =>
    obtain ⟨hs1, c1, hget1, ha1, hc1⟩ := ensureTrigger_keeps_attributes childSet st e s c hs hget
    obtain ⟨c2, hget2, ha2, hc2⟩ := ih (ensureTrigger childSet st e) c1 hs1 hget1
    simp only [ensureTriggers, List.foldl_cons] at hget2 ⊢
    exact ⟨c2, hget2, by rw [ha2, ha1], hc1.trans hc2⟩

/-- The body of `ensureTrigger` with its local variables named. -/
theorem ensureTrigger_eq (childSet : List String) (st : LoopState) (t : jugglerEvent)
    (check0 check2 : jugglerCheck) (r : (Sender × jugglerCheck) × List String)
    (h0 : check0 = (match mapGet st.services t.Service with
      | some c => c
      | none => { emptyCheck with Update := true }))
    (hr : r = (if t.Service ∉ st.updated then
        (ensureAttributes st.js check0, st.updated ++ [t.Service])
      else ((st.js, check0), st.updated)))
    (h2 : check2 = (if (t.Host ++ ":" ++ t.Service) ∉ childSet then
        { r.1.2 with
          Update := true
          Children := r.1.2.Children ++
            [{ Instance := "", Host := t.Host, Type_ := "HOST", Service := t.Service }] }
      else r.1.2)) :
    ensureTrigger childSet st t =
      (if check2.Update then
        { js := r.1.1
          services := mapSet st.services t.Service
            { check2 with Host := r.1.1.Host, Service := t.Service }
          updated := r.2 }
       else { js := r.1.1, services := st.services, updated := r.2 }) := by
  subst h0 hr h2
  rfl

/-- The first event of a Service: the check it leaves for the Service depends
on the state only through the check found, the options after defaulting and the
child set. -/
theorem ensureTrigger_first_event (childSet : List String) (st st0 : LoopState)
    (t : jugglerEvent) (hget : mapGet st.services t.Service = mapGet st0.services t.Service)
    (hjs : withDefaults st.js = withDefaults st0.js)
    (hu : t.Service ∉ st.updated) (hu0 : t.Service ∉ st0.updated) :
    mapGet (ensureTrigger childSet st t).services t.Service =
      mapGet (ensureTrigger childSet st0 t).services t.Service ∧
    t.Service ∈ (ensureTrigger childSet st t).updated ∧
    (mapGet (ensureTrigger childSet st t).services t.Service).isSome = true := by
  obtain ⟨c0, hc0⟩ : ∃ c0 : jugglerCheck, c0 = (match mapGet st0.services t.Service with
      | some c => c
      | none => { emptyCheck with Update := true }) := ⟨_, rfl⟩
  have hc : c0 = (match mapGet st.services t.Service with
      | some c => c
      | none => { emptyCheck with Update := true }) := by
    rw [hget]; exact hc0
  obtain ⟨a0, ha0⟩ : ∃ a0, a0 = ensureAttributes st0.js c0 := ⟨_, rfl⟩
  obtain ⟨a, ha⟩ : ∃ a, a = ensureAttributes st.js c0 := ⟨_, rfl⟩
  have hsnd : a.2 = a0.2 := by
    rw [ha, ha0]
    exact ensureAttributes_snd_congr st0.js st.js c0 hjs
  have hhost : a.1.Host = a0.1.Host := by
    rw [ha, ha0, ensureAttributes_fst, ensureAttributes_fst]
    exact (congrArg Sender.Host hjs : (withDefaults st.js).Host = (withDefaults st0.js).Host)
  obtain ⟨k, hk⟩ : ∃ k : jugglerCheck, k = (if (t.Host ++ ":" ++ t.Service) ∉ childSet then
        { a0.2 with
          Update := true
          Children := a0.2.Children ++
            [{ Instance := "", Host := t.Host, Type_ := "HOST", Service := t.Service }] }
      else a0.2) := ⟨_, rfl⟩
  have hk' : k = (if (t.Host ++ ":" ++ t.Service) ∉ childSet then
        { a.2 with
          Update := true
          Children := a.2.Children ++
            [{ Instance := "", Host := t.Host, Type_ := "HOST", Service := t.Service }] }
      else a.2) := by
    rw [hsnd]; exact hk
  have e := ensureTrigger_eq childSet st t c0 k (a, st.updated ++ [t.Service]) hc
    (by rw [if_pos hu, ha]) hk'
  have e0 := ensureTrigger_eq childSet st0 t c0 k (a0, st0.updated ++ [t.Service]) hc0
    (by rw [if_pos hu0, ha0]) hk
  rw [e, e0]
  by_cases hup : k.Update = true
  · simp only [hup, if_true]
    refine ⟨?_, by simp, ?_⟩
    · rw [mapGet_mapSet_self, mapGet_mapSet_self, hhost]
    · rw [mapGet_mapSet_self]; rfl
  · simp only [hup]
    refine ⟨hget, by simp, ?_⟩
    cases hm : mapGet st0.services t.Service with
    | some c => simp [hget, hm]
    | none =>
      exfalso
      apply hup
      rw [hm] at hc0
      have hmono : a0.2.Update = true := by
        rw [ha0]
        exact ensureAttributes_update_of_update st0.js c0 (by rw [hc0])
      rw [hk]
      split_ifs <;> first | exact hmono | rfl

/-- C13: the attributes of a Service are reconciled once per pass.  When `t` is
the first event of its Service in the event list, the check that `ensureCheck`
leaves for that Service has the same TTL, aggregator and arguments, methods,
flap, tags, description and namespace as the check left by a pass over `t`
alone, and the children of the latter are a prefix of its children. -/
theorem ensureCheck_attributes_once
    (order : List (String × jugglerCheck) → List (String × jugglerCheck)) (net : Backend)
    (store : CacheStore) (js : Sender) (hostChecks : jugglerResponse)
    (pre post : List jugglerEvent) (t : jugglerEvent)
    (hfirst : ∀ e ∈ pre, e.Service ≠ t.Service) :
    ∃ c1 c,
      checkOf (ensureCheck order net store js hostChecks [t]).hostChecks js.Host t.Service =
        some c1 ∧
      checkOf (ensureCheck order net store js hostChecks (pre ++ t :: post)).hostChecks
        js.Host t.Service = some c ∧
      attributesOf c = attributesOf c1 ∧ c1.Children <+: c.Children := by
  have hcheck : ∀ triggers,
      checkOf (ensureCheck order net store js hostChecks triggers).hostChecks js.Host
        t.Service = mapGet (reconciled js hostChecks triggers).services t.Service := by
    intro triggers
    simp [checkOf, ensureCheck, mapGet_mapSet_self]
  obtain ⟨p1, p2, p3⟩ := ensureTriggers_other_services
    (buildChildSet (hostServices js hostChecks)) t.Service pre hfirst
    { js := js, services := hostServices js hostChecks, updated := [] }
  have hu : t.Service ∉ (ensureTriggers (buildChildSet (hostServices js hostChecks))
      { js := js, services := hostServices js hostChecks, updated := [] } pre).updated := by
    rw [p2]; simp
  obtain ⟨f1, f2, f3⟩ := ensureTrigger_first_event
    (buildChildSet (hostServices js hostChecks))
    (ensureTriggers (buildChildSet (hostServices js hostChecks))
      { js := js, services := hostServices js hostChecks, updated := [] } pre)
    { js := js, services := hostServices js hostChecks, updated := [] } t p1 p3 hu (by simp)
  obtain ⟨c1, hc1⟩ := Option.isSome_iff_exists.1 f3
  obtain ⟨c, hget, hattr, hchildren⟩ := ensureTriggers_keep_attributes
    (buildChildSet (hostServices js hostChecks)) t.Service post _ c1 f2 hc1
  refine ⟨c1, c, ?_, ?_, hattr, hchildren⟩
  · rw [hcheck, ← hc1, f1]
    simp [reconciled, ensureTriggers]
  · rw [hcheck, ← hget]
    simp [reconciled, ensureTriggers, List.foldl_append]

/-- The C13 statement at the events `a/t, a/s, b/s` on an empty remote state:
the check of `s` has the attributes of a pass over `a/s` alone. -/
theorem ensureCheck_attributes_once_witness :
    ∃ c1 c,
      checkOf (ensureCheck id acceptAll [] baseSender [] [trigger "a" "s"]).hostChecks
        baseSender.Host (trigger "a" "s").Service = some c1 ∧
      checkOf (ensureCheck id acceptAll [] baseSender []
        ([trigger "a" "t"] ++ trigger "a" "s" :: [trigger "b" "s"])).hostChecks
        baseSender.Host (trigger "a" "s").Service = some c ∧
      attributesOf c = attributesOf c1 ∧ c1.Children <+: c.Children :=
  ensureCheck_attributes_once id acceptAll [] baseSender [] [trigger "a" "t"]
    [trigger "b" "s"] (trigger "a" "s") (by decide)

/-! ### The cache hit and the sweep -/

/-- C21: a cache hit.  When the store holds an entry for the key and the clock
of cache.go:72 is before its expiry, `cache.Get` returns the value and the
error of the entry, does not invoke the fetch function, and leaves the whole
store as it was. -/
theorem cacheGet_hit (store : CacheStore) (ttl : Int) (key : String)
    (f : String × Option GoError) (now1 now2 : Int) (item : itemType)
    (hhit : mapGet store key = some item) (hfresh : now2 < item.expires) :
    cacheGet store ttl key f now1 now2 =
      { value := item.value, err := item.err, store := store, fetched := false } := by
  have h : ¬ (item.expires ≤ now2) := by omega
  simp [cacheGet, hhit, h]

theorem cacheGet_hit_witness :
    cacheGet oneEntryStore 60 "h" ("fresh", none) 3 5 =
      { value := "cached", err := none, store := oneEntryStore, fetched := false } :=
  cacheGet_hit oneEntryStore 60 "h" ("fresh", none) 3 5
    { expires := 10, value := "cached", err := none } (by decide) (by decide)

/-- C22: an entry whose expiry equals the time of the sweep survives it.  The
sweep at time 10 over a store whose only entry expires at 10 deletes nothing
(its test is `now - expires > 0`), although `cache.Get` at the same time treats
the entry as expired (its test is `now - expires >= 0`) and evicts it. -/
theorem cleanerPass_keeps_entry_expiring_now :
    cleanerPass oneEntryStore 10 = oneEntryStore ∧
    (∃ item, mapGet (cleanerPass oneEntryStore 10) "h" = some item ∧
      expiredForGet item 10 = true) ∧
    (cacheGet (cleanerPass oneEntryStore 10) 60 "h" ("fresh", none) 10 10).store = [] := by
  refine ⟨by decide, ⟨{ expires := 10, value := "cached", err := none }, by decide, by decide⟩,
    by decide⟩

theorem foldl_mapDelete {α : Type} (keys : List String) (m : List (String × α)) :
    keys.foldl mapDelete m = m.filter fun kv => decide (kv.1 ∉ keys) := by
  induction keys generalizing m with
  | nil => simp
  | cons k rest ih =>
    rw [List.foldl_cons, ih, mapDelete, List.filter_filter]
    congr 1
    funext kv
    by_cases h1 : kv.1 = k <;> by_cases h2 : kv.1 ∈ rest <;> simp [h1, h2]

/-- What a sweep leaves of a store with distinct keys: the entries that its
test `now - expires > 0` does not select, unchanged and in their order. -/
theorem cleanerPass_eq_filter (store : CacheStore) (now : Int)
    (hnd : (store.map Prod.fst).Nodup) :
    cleanerPass store now = store.filter fun kv => decide (now - kv.2.expires ≤ 0) := by
  have hfilter : (staleItems store now).foldl mapDelete store =
      store.filter fun kv => decide (now - kv.2.expires ≤ 0) := by
    rw [foldl_mapDelete]
    apply List.filter_congr
    intro kv hkv
    have hiff : kv.1 ∈ staleItems store now ↔ now - kv.2.expires > 0 := by
      simp only [staleItems, List.mem_map, List.mem_filter, decide_eq_true_eq]
      constructor
      · rintro ⟨kv', ⟨hmem, hstale⟩, hk⟩
        have h1 := mapGet_of_mem_of_nodup store hnd kv'.1 kv'.2 hmem
        have h2 := mapGet_of_mem_of_nodup store hnd kv.1 kv.2 hkv
        rw [hk, h2] at h1
        rw [Option.some.inj h1]
        exact hstale
      · intro h
        exact ⟨kv, ⟨hkv, h⟩, rfl⟩
    by_cases h : now - kv.2.expires > 0
    · simp [hiff.2 h]
      omega
    · have h' : kv.1 ∉ staleItems store now := fun hm => h (hiff.1 hm)
      simp [h', h]
      omega
  unfold cleanerPass
  simp only []
  split_ifs with hlen
  · exact hfilter
  · have hnil : staleItems store now = [] := by
      cases hs : staleItems store now with
      | nil => rfl
      | cons a l => rw [hs] at hlen; simp at hlen
    rw [← hfilter, hnil]
    rfl

/-! ### Decoding the result of a plugin -/

theorem joinBlank_cons_cons (a b : String) (rest : List String) :
    joinBlank (a :: b :: rest) = a ++ " " ++ joinBlank (b :: rest) := rfl

theorem joinBlank_contains (l : List String) (k : String) (h : k ∈ l) :
    ∃ pre post, joinBlank l = pre ++ k ++ post := by
  induction l with
  | nil => simp at h
  | cons a rest ih =>
    cases rest with
    | nil =>
      have : k = a := by simpa using h
      subst this
      exact ⟨"", "", by simp [joinBlank]⟩
    | cons b rest' =>
      rcases List.mem_cons.1 h with h | h
      · subst h
        exact ⟨"", " " ++ joinBlank (b :: rest'), by
          rw [joinBlank_cons_cons]; simp [String.append_assoc]⟩
      · obtain ⟨pre, post, e⟩ := ih h
        exact ⟨a ++ " " ++ pre, post, by
          rw [joinBlank_cons_cons, e]; simp [String.append_assoc]⟩

theorem errsText_contains (order : List String → List String)
    (horder : ∀ l, (order l).Perm l) (errs : List String) (k : String) (h : k ∈ errs) :
    ∃ pre post, errsText order errs = pre ++ k ++ post := by
  have hmem : k ++ ":" ∈ (order errs).map fun k => k ++ ":" :=
    List.mem_map_of_mem _ ((horder errs).mem_iff.2 h)
  obtain ⟨pre, post, e⟩ := joinBlank_contains _ _ hmem
  exact ⟨"map[" ++ pre, ":" ++ post ++ "]", by
    unfold errsText; rw [e]; simp [String.append_assoc]⟩

theorem decodeItem_errs (f : Float64 → String) (st : DecodeState) (kv : LValue × LValue)
    (x : String) :
    x ∈ (decodeItem f st kv).errs ↔ x ∈ st.errs ∨ itemEvent f kv.1 kv.2 = .error x := by
  unfold decodeItem
  cases h : itemEvent f kv.1 kv.2 with
  | error msg =>
    simp only [mem_errsSet, Except.error.injEq]
    constructor
    · rintro (h' | h')
      · exact Or.inl h'
      · exact Or.inr h'.symm
    · rintro (h' | h')
      · exact Or.inl h'
      · exact Or.inr h'.symm
  | ok je => simp

theorem decodeItem_events (f : Float64 → String) (st : DecodeState) (kv : LValue × LValue) :
    (decodeItem f st kv).events =
      st.events ++ (match itemEvent f kv.1 kv.2 with
        | .ok je => [je]
        | .error _ => []) := by
  unfold decodeItem
  cases h : itemEvent f kv.1 kv.2 <;> simp

theorem foldl_decodeItem_errs (f : Float64 → String) (l : List (LValue × LValue))
    (st : DecodeState) (x : String) :
    x ∈ (l.foldl (decodeItem f) st).errs ↔
      x ∈ st.errs ∨ ∃ kv ∈ l, itemEvent f kv.1 kv.2 = .error x := by
  induction l generalizing st with
  | nil => simp
  | cons kv rest ih =>
    rw [List.foldl_cons, ih, decodeItem_errs]
    simp only [List.mem_cons, exists_eq_or_imp, or_assoc]

theorem foldl_decodeItem_ok (f : Float64 → String) (l : List (LValue × LValue))
    (st : DecodeState) (hvalid : ∀ kv ∈ l, ∃ je, itemEvent f kv.1 kv.2 = .ok je) :
    ∃ events, (l.foldl (decodeItem f) st).events = st.events ++ events ∧
      List.Forall₂ (fun kv je => itemEvent f kv.1 kv.2 = .ok je) l events := by
  induction l generalizing st with
  | nil => exact ⟨[], by simp, List.Forall₂.nil⟩
  | cons kv rest ih =>
    obtain ⟨je, hje⟩ := hvalid kv (List.mem_cons_self _ _)
    obtain ⟨events, he, hall⟩ :=
      ih (decodeItem f st kv) fun kv' h' => hvalid kv' (List.mem_cons_of_mem _ h')
    refine ⟨je :: events, ?_, List.Forall₂.cons hje hall⟩
    rw [List.foldl_cons, he, decodeItem_events, hje]
    simp

/-- What `luaResultToJugglerEvents` returns for a table: an error exactly when
the callback recorded a key for some pair, and otherwise one event per pair,
in the order of `ForEach`. -/
theorem luaResult_cases (f : Float64 → String) (order : List String → List String)
    (t : LTable) :
    (∀ msg kv, kv ∈ forEach t → itemEvent f kv.1 kv.2 = .error msg →
      ∃ errs, msg ∈ errs ∧
        luaResultToJugglerEvents f order (some t) = .error (.errorf (errsText order errs))) ∧
    ((∀ kv ∈ forEach t, ∃ je, itemEvent f kv.1 kv.2 = .ok je) →
      ∃ events, luaResultToJugglerEvents f order (some t) = .ok events ∧
        List.Forall₂ (fun kv je => itemEvent f kv.1 kv.2 = .ok je) (forEach t) events) := by
  constructor
  · intro msg kv hmem herr
    have hin : msg ∈ ((forEach t).foldl (decodeItem f) { errs := [], events := [] }).errs :=
      (foldl_decodeItem_errs f _ _ msg).2 (Or.inr ⟨kv, hmem, herr⟩)
    refine ⟨_, hin, ?_⟩
    have hpos : ((forEach t).foldl (decodeItem f) { errs := [], events := [] }).errs.length > 0 :=
      List.length_pos_of_mem hin
    simp only [luaResultToJugglerEvents, hpos, if_true]
  · intro hvalid
    obtain ⟨events, he, hall⟩ := foldl_decodeItem_ok f (forEach t) { errs := [], events := [] } hvalid
    have hnil : ((forEach t).foldl (decodeItem f) { errs := [], events := [] }).errs = [] := by
      apply List.eq_nil_iff_forall_not_mem.2
      intro x hx
      rcases (foldl_decodeItem_errs f _ _ x).1 hx with h | ⟨kv, hmem, herr⟩
      · simp at h
      · obtain ⟨je, hje⟩ := hvalid kv hmem
        rw [hje] at herr
        cases herr
    refine ⟨events, ?_, hall⟩
    simp only [luaResultToJugglerEvents, hnil, List.length_nil, gt_iff_lt, lt_self_iff_false,
      if_false, he, List.nil_append]

/-- The events of a successful decoding match the pairs of `ForEach` one by one. -/
theorem luaResult_ok (f : Float64 → String) (order : List String → List String)
    (t : LTable) (events : List pluginEvent)
    (hok : luaResultToJugglerEvents f order (some t) = .ok events) :
    List.Forall₂ (fun kv je => itemEvent f kv.1 kv.2 = .ok je) (forEach t) events := by
  have hvalid : ∀ kv ∈ forEach t, ∃ je, itemEvent f kv.1 kv.2 = .ok je := by
    intro kv hmem
    cases h : itemEvent f kv.1 kv.2 with
    | ok je => exact ⟨je, rfl⟩
    | error msg =>
      obtain ⟨errs, _, herr⟩ := (luaResult_cases f order t).1 msg kv hmem h
      rw [herr] at hok
      cases hok
  obtain ⟨events', he, hall⟩ := (luaResult_cases f order t).2 hvalid
  rw [he] at hok
  cases hok
  exact hall

theorem itemEvent_ok_iff (f : Float64 → String) (k v : LValue) :
    (∃ je, itemEvent f k v = .ok je) ↔ validItem f v = true := by
  cases v with
  | LTable array strdict dict =>
    simp only [itemEvent, validItem]
    cases htags : rawGetString { array := array, strdict := strdict, dict := dict } "tags" with
    | LTable tarray tstrdict tdict =>
      simp only []
      cases htype : mapGet (luaTags f
          (forEach { array := tarray, strdict := tstrdict, dict := tdict })) "type" with
      | none => simp
      | some ty =>
        simp only [Option.isSome_some, iff_true]
        cases rawGetString { array := array, strdict := strdict, dict := dict } "level" <;>
          exact ⟨_, rfl⟩
    | _ => simp
  | _ => simp [itemEvent, validItem]

/-- The event of a valid item, field by field. -/
theorem itemEvent_fields (f : Float64 → String) (k v : LValue) (je : pluginEvent)
    (h : itemEvent f k v = .ok je) :
    ∃ lt : LTable, v = lt.toLValue ∧ je.Service = itemService f lt ∧
      je.Level = (if (rawGetString lt "level").isNil then "OK"
        else LVAsString f (rawGetString lt "level")) ∧
      je.Description = (if (rawGetString lt "level").isNil
        then itemDescription f lt ++ " (force OK)" else itemDescription f lt) := by
  cases v with
  | LTable array strdict dict =>
    refine ⟨{ array := array, strdict := strdict, dict := dict }, rfl, ?_⟩
    simp only [itemEvent] at h
    cases htags : rawGetString { array := array, strdict := strdict, dict := dict } "tags" with
    | LTable tarray tstrdict tdict =>
      rw [htags] at h
      simp only [] at h
      cases htype : mapGet (luaTags f
          (forEach { array := tarray, strdict := tstrdict, dict := tdict })) "type" with
      | none => rw [htype] at h; simp at h
      | some ty =>
        rw [htype] at h
        simp only [] at h
        cases hl : rawGetString { array := array, strdict := strdict, dict := dict } "level" <;>
          rw [hl] at h <;> simp only [Except.ok.injEq] at h <;> subst h <;>
          simp [LValue.isNil]
    | _ => rw [htags] at h; simp at h
  | _ => simp [itemEvent] at h

/-- C23: an item whose tags lack `type` fails the whole decoding.  If the
result holds a table whose `tags` field is a table in which the tag `type` is
not set, `luaResultToJugglerEvents` returns an error and no events, and the
text of the error contains `Missing tag type for N`, where `N` is the tag
`name` of that item when it is set and `UnknownEntity` otherwise. -/
theorem luaResult_missing_type (f : Float64 → String) (order : List String → List String)
    (horder : ∀ l, (order l).Perm l) (result lt tags : LTable) (k : LValue)
    (hitem : (k, lt.toLValue) ∈ forEach result)
    (htags : rawGetString lt "tags" = tags.toLValue)
    (htype : mapGet (luaTags f (forEach tags)) "type" = none) :
    ∃ text pre post,
      luaResultToJugglerEvents f order (some result) = .error (.errorf text) ∧
      text = pre ++ ("Missing tag type for " ++
        (match mapGet (luaTags f (forEach tags)) "name" with
          | some entity => entity
          | none => "UnknownEntity")) ++ post := by
  have herr : itemEvent f k lt.toLValue = .error ("Missing tag type for " ++
      (match mapGet (luaTags f (forEach tags)) "name" with
        | some entity => entity
        | none => "UnknownEntity")) := by
    have htags' : rawGetString { array := lt.array, strdict := lt.strdict, dict := lt.dict }
        "tags" = .LTable tags.array tags.strdict tags.dict := htags
    have htype' : mapGet (luaTags f (forEach
        { array := tags.array, strdict := tags.strdict, dict := tags.dict })) "type" = none :=
      htype
    simp only [LTable.toLValue, itemEvent, htags', htype']
  obtain ⟨errs, hmem, hres⟩ := (luaResult_cases f order result).1 _ _ hitem herr
  obtain ⟨pre, post, htext⟩ := errsText_contains order horder errs _ hmem
  exact ⟨_, pre, post, hres, htext⟩

theorem luaResult_missing_type_witness :
    (∃ text pre post,
      luaResultToJugglerEvents fmtWhole id
        (some (resultOf [taggedItem [], untypedItem])) = .error (.errorf text) ∧
      text = pre ++ ("Missing tag type for " ++ "front") ++ post) ∧
    (∃ text pre post,
      luaResultToJugglerEvents fmtWhole id
        (some (resultOf [namelessItem])) = .error (.errorf text) ∧
      text = pre ++ ("Missing tag type for " ++ "UnknownEntity") ++ post) :=
  ⟨luaResult_missing_type fmtWhole id (fun _ => List.Perm.refl _)
      (resultOf [taggedItem [], untypedItem])
      { array := [], strdict := [("tags", record [("name", .LString "front")]),
          ("level", .LString "CRIT")], dict := [] }
      { array := [], strdict := [("name", .LString "front")], dict := [] }
      (.LNumber (.finite 2)) (by
        simp [forEach, resultOf, taggedItem, untypedItem, record, LTable.toLValue, LValue.isNil,
          List.enum, List.enumFrom]
        norm_num) rfl (by decide),
    luaResult_missing_type fmtWhole id (fun _ => List.Perm.refl _)
      (resultOf [namelessItem])
      { array := [], strdict := [("tags", record [("role", .LString "db")])], dict := [] }
      { array := [], strdict := [("role", .LString "db")], dict := [] }
      (.LNumber (.finite 1)) (by simp [forEach, resultOf, namelessItem, record,
        LTable.toLValue, LValue.isNil, List.enum, List.enumFrom]) rfl (by decide)⟩

/-- C24: the forced default of the level.  Every event of a successful decoding
belongs to an item that is a table.  If that item has no `level` field the
event has Level `OK` and its Description is the description of the item
followed by ` (force OK)`; if it has one, the Description is the description
of the item without the marker.  The description of an item is the text of its
`description` field, and `no trigger description` when that text is empty, as
it is for an absent field or an empty string. -/
theorem luaResult_missing_level (f : Float64 → String) (order : List String → List String)
    (result : LTable) (events : List pluginEvent)
    (hok : luaResultToJugglerEvents f order (some result) = .ok events) :
    events.length = (forEach result).length ∧
    (∀ kv je, (kv, je) ∈ (forEach result).zip events →
      ∃ lt : LTable, kv.2 = lt.toLValue ∧
        ((rawGetString lt "level").isNil = true →
          je.Level = "OK" ∧ je.Description = itemDescription f lt ++ " (force OK)") ∧
        ((rawGetString lt "level").isNil = false →
          je.Description = itemDescription f lt)) ∧
    (∀ lt : LTable, rawGetString lt "description" = .LNil →
      itemDescription f lt = "no trigger description") ∧
    (∀ lt : LTable, rawGetString lt "description" = .LString "" →
      itemDescription f lt = "no trigger description") ∧
    (∀ (lt : LTable) (s : String), s ≠ "" → rawGetString lt "description" = .LString s →
      itemDescription f lt = s) := by
  have hall := luaResult_ok f order result events hok
  refine ⟨hall.length_eq.symm, ?_, ?_, ?_, ?_⟩
  · intro kv je hmem
    have hje := (List.forall₂_iff_zip.1 hall).2 hmem
    obtain ⟨lt, hv, _, hlevel, hdesc⟩ := itemEvent_fields f kv.1 kv.2 je hje
    refine ⟨lt, hv, ?_, ?_⟩
    · intro hnil
      rw [hnil] at hlevel hdesc
      exact ⟨hlevel, hdesc⟩
    · intro hnil
      rw [hnil] at hdesc
      exact hdesc
  · intro lt h
    simp [itemDescription, h, LVAsString]
  · intro lt h
    simp [itemDescription, h, LVAsString]
  · intro lt s hs h
    simp [itemDescription, h, LVAsString, hs]

theorem luaResult_missing_level_witness :
    luaResultToJugglerEvents fmtWhole id
      (some (resultOf [taggedItem [("description", .LString "5xx too high")],
        taggedItem [("level", .LString "WARN")]])) =
      .ok [{ Tags := [("type", "host"), ("name", "front")],
             Description := "5xx too high (force OK)", Service := "UnknownServce",
             Level := "OK" },
           { Tags := [("type", "host"), ("name", "front")],
             Description := "no trigger description", Service := "UnknownServce",
             Level := "WARN" }] ∧
    [({ Tags := [("type", "host"), ("name", "front")],
        Description := "5xx too high (force OK)", Service := "UnknownServce",
        Level := "OK" } : pluginEvent),
      { Tags := [("type", "host"), ("name", "front")],
        Description := "no trigger description", Service := "UnknownServce",
        Level := "WARN" }].length =
      (forEach (resultOf [taggedItem [("description", .LString "5xx too high")],
        taggedItem [("level", .LString "WARN")]])).length :=
  ⟨rfl, (luaResult_missing_level fmtWhole id
    (resultOf [taggedItem [("description", .LString "5xx too high")],
      taggedItem [("level", .LString "WARN")]]) _ rfl).1⟩

/-- C25, as stated, fails: a level that is not one of OK, INFO, WARN, CRIT is
kept.  An item whose `level` is the string `BANANA` yields an event whose Level
is `BANANA`, with a Description that carries no marker. -/
theorem luaResult_keeps_unknown_level :
    luaResultToJugglerEvents fmtWhole id
      (some (resultOf [taggedItem [("level", .LString "BANANA")]])) =
      .ok [{ Tags := [("type", "host"), ("name", "front")],
             Description := "no trigger description", Service := "UnknownServce",
             Level := "BANANA" }] ∧
    "BANANA" ∉ ["OK", "INFO", "WARN", "CRIT"] :=
  ⟨rfl, by decide⟩

/-- C25, amended: the Level of an event is `OK` when its item has no `level`
field, and then the Description ends in the marker of the forced default;
otherwise the Level is the text of the `level` field as the script gave it (the
text of a string or of a number, the empty string for any other value), and no
marker is added.  So the Level is one of OK, INFO, WARN, CRIT exactly when the
level is absent or its text is one of the four. -/
theorem luaResult_level (f : Float64 → String) (order : List String → List String)
    (result : LTable) (events : List pluginEvent)
    (hok : luaResultToJugglerEvents f order (some result) = .ok events) :
    ∀ kv je, (kv, je) ∈ (forEach result).zip events →
      ∃ lt : LTable, kv.2 = lt.toLValue ∧
        ((rawGetString lt "level").isNil = true →
          je.Level = "OK" ∧ je.Description = itemDescription f lt ++ " (force OK)") ∧
        ((rawGetString lt "level").isNil = false →
          je.Level = LVAsString f (rawGetString lt "level") ∧
          je.Description = itemDescription f lt) ∧
        (je.Level ∈ ["OK", "INFO", "WARN", "CRIT"] ↔
          ((rawGetString lt "level").isNil = true ∨
            LVAsString f (rawGetString lt "level") ∈ ["OK", "INFO", "WARN", "CRIT"])) := by
  intro kv je hmem
  have hje := (List.forall₂_iff_zip.1 (luaResult_ok f order result events hok)).2 hmem
  obtain ⟨lt, hv, _, hlevel, hdesc⟩ := itemEvent_fields f kv.1 kv.2 je hje
  refine ⟨lt, hv, ?_, ?_, ?_⟩
  · intro hnil
    rw [hnil] at hlevel hdesc
    exact ⟨hlevel, hdesc⟩
  · intro hnil
    rw [hnil] at hlevel hdesc
    exact ⟨hlevel, hdesc⟩
  · cases hnil : (rawGetString lt "level").isNil
    · rw [hnil] at hlevel
      simp only [Bool.false_eq_true, if_false] at hlevel
      rw [hlevel]
      simp
    · rw [hnil] at hlevel
      simp only [if_true] at hlevel
      rw [hlevel]
      simp

theorem luaResult_level_witness :
    ∃ lt : LTable, taggedItem [("level", .LString "INFO")] = lt.toLValue ∧
      ((rawGetString lt "level").isNil = true →
        "INFO" = "OK" ∧
          "no trigger description" = itemDescription fmtWhole lt ++ " (force OK)") ∧
      ((rawGetString lt "level").isNil = false →
        "INFO" = LVAsString fmtWhole (rawGetString lt "level") ∧
          "no trigger description" = itemDescription fmtWhole lt) ∧
      ("INFO" ∈ ["OK", "INFO", "WARN", "CRIT"] ↔
        ((rawGetString lt "level").isNil = true ∨
          LVAsString fmtWhole (rawGetString lt "level") ∈ ["OK", "INFO", "WARN", "CRIT"])) :=
  luaResult_level fmtWhole id
    (resultOf [taggedItem [("level", .LString "INFO")], taggedItem []])
    [{ Tags := [("type", "host"), ("name", "front")],
       Description := "no trigger description", Service := "UnknownServce",
       Level := "INFO" },
     { Tags := [("type", "host"), ("name", "front")],
       Description := "no trigger description (force OK)", Service := "UnknownServce",
       Level := "OK" }] rfl
    (.LNumber (.finite ((0 + 1 : Nat) : ℚ)), taggedItem [("level", .LString "INFO")])
    { Tags := [("type", "host"), ("name", "front")],
      Description := "no trigger description", Service := "UnknownServce",
      Level := "INFO" } (List.Mem.head _)

/-- C26: the default of the service is misspelt.  An item without a `service`
field yields an event whose Service is `UnknownServce`, the literal of
plugins.go:171, which is not the string `UnknownService`. -/
theorem luaResult_default_service :
    luaResultToJugglerEvents fmtWhole id
      (some (resultOf [taggedItem [("level", .LString "CRIT")]])) =
      .ok [{ Tags := [("type", "host"), ("name", "front")],
             Description := "no trigger description", Service := "UnknownServce",
             Level := "CRIT" }] ∧
    itemService fmtWhole { array := [], strdict := [], dict := [] } = "UnknownServce" ∧
    itemService fmtWhole { array := [], strdict := [], dict := [] } ≠ "UnknownService" :=
  ⟨rfl, rfl, by decide⟩

/-- C27: decoding is all or nothing.  A nil result is an error.  A result with
an item that is not valid (not a table, no `tags` table, or no tag `type`)
yields an error and no events, whatever the other items are.  A result whose
items are all valid yields no error and one event per item, in the order in
which `ForEach` visits the items, each the event of its item. -/
theorem luaResult_all_or_nothing (f : Float64 → String) (order : List String → List String) :
    luaResultToJugglerEvents f order none = .error (.errorf "lua plugin result is nil") ∧
    (∀ result : LTable, (∃ kv ∈ forEach result, validItem f kv.2 = false) →
      ∃ text, luaResultToJugglerEvents f order (some result) = .error (.errorf text)) ∧
    (∀ result : LTable, (∀ kv ∈ forEach result, validItem f kv.2 = true) →
      ∃ events, luaResultToJugglerEvents f order (some result) = .ok events ∧
        events.length = (forEach result).length ∧
        List.Forall₂ (fun kv je => itemEvent f kv.1 kv.2 = .ok je) (forEach result) events) := by
  refine ⟨rfl, ?_, ?_⟩
  · rintro result ⟨kv, hmem, hbad⟩
    cases h : itemEvent f kv.1 kv.2 with
    | ok je =>
      have := (itemEvent_ok_iff f kv.1 kv.2).1 ⟨je, h⟩
      rw [hbad] at this
      cases this
    | error msg =>
      obtain ⟨errs, _, hres⟩ := (luaResult_cases f order result).1 msg kv hmem h
      exact ⟨_, hres⟩
  · intro result hvalid
    obtain ⟨events, hres, hall⟩ := (luaResult_cases f order result).2
      fun kv hmem => (itemEvent_ok_iff f kv.1 kv.2).2 (hvalid kv hmem)
    exact ⟨events, hres, hall.length_eq.symm, hall⟩

theorem luaResult_all_or_nothing_witness :
    (∃ text, luaResultToJugglerEvents fmtWhole id
      (some (resultOf [taggedItem [], .LString "x", taggedItem []])) = .error (.errorf text)) ∧
    (∃ events, luaResultToJugglerEvents fmtWhole id
      (some (resultOf (List.replicate 32 (taggedItem [])))) = .ok events ∧
        events.length = 32) := by
  have h := luaResult_all_or_nothing fmtWhole id
  refine ⟨h.2.1 (resultOf [taggedItem [], .LString "x", taggedItem []])
    ⟨(.LNumber (.finite ((1 + 1 : Nat) : ℚ)), .LString "x"), ?_, rfl⟩, ?_⟩
  · simp [forEach, resultOf, taggedItem, record, LValue.isNil, List.enum, List.enumFrom]
    norm_num
  · obtain ⟨events, hres, hlen, _⟩ := h.2.2 (resultOf (List.replicate 32 (taggedItem []))) (by
      intro kv hmem
      simp only [forEach, resultOf, List.map_nil, List.append_nil, List.mem_filter,
        List.mem_map] at hmem
      obtain ⟨⟨iv, hiv, hkv⟩, _⟩ := hmem
      have hv : iv.2 = taggedItem [] :=
        List.eq_of_mem_replicate (List.snd_mem_of_mem_enum hiv : iv.2 ∈ List.replicate 32 _)
      rw [← hkv]
      show validItem fmtWhole iv.2 = true
      rw [hv]
      rfl)
    refine ⟨events, hres, ?_⟩
    rw [hlen]
    rfl

/-! ### Marshaling to script values -/

mutual
theorem toLuaValue_ok_iff (pf : String → Option Float64) :
    ∀ v : GoAny, (∃ lv, toLuaValue (dumperToLuaNumber pf) v = .ok lv) ↔
      ∀ l ∈ leaves v, numericLeaf pf l = true
  | .slice xs => by
    rw [toLuaValue, leaves]
    exact toLuaItems_ok_iff pf xs []
  | .map kvs => by
    rw [toLuaValue, leaves]
    exact toLuaFields_ok_iff pf kvs []
  | .struct fields => by
    rw [toLuaValue, leaves]
    exact toLuaFields_ok_iff pf fields []
  | .bytes s => by
    cases h : pf s <;> simp [toLuaValue, leaves, dumperToLuaNumber, numericLeaf, h]
  | .float x => by simp [toLuaValue, leaves, dumperToLuaNumber, numericLeaf]
  | .int i => by simp [toLuaValue, leaves, dumperToLuaNumber, numericLeaf]
  | .uint n => by simp [toLuaValue, leaves, dumperToLuaNumber, numericLeaf]
  | .string s => by
    cases h : pf s <;> simp [toLuaValue, leaves, dumperToLuaNumber, numericLeaf, h]
  | .bool b => by simp [toLuaValue, leaves, dumperToLuaNumber, numericLeaf]
  | .nil => by simp [toLuaValue, leaves, dumperToLuaNumber, numericLeaf]
  | .other => by simp [toLuaValue, leaves, dumperToLuaNumber, numericLeaf]
theorem toLuaItems_ok_iff (pf : String → Option Float64) :
    ∀ (xs : List GoAny) (acc : List LValue),
      (∃ lv, toLuaItems (dumperToLuaNumber pf) acc xs = .ok lv) ↔
        ∀ l ∈ leavesOfItems xs, numericLeaf pf l = true
  | [], acc => by simp [toLuaItems, leavesOfItems]
  | item :: rest, acc => by
    rw [toLuaItems, leavesOfItems]
    have h1 := toLuaValue_ok_iff pf item
    cases h : toLuaValue (dumperToLuaNumber pf) item with
    | error err =>
      rw [h] at h1
      simp only [exists_false, false_iff, reduceCtorEq] at h1 ⊢
      intro hall
      exact h1 fun l hl => hall l (List.mem_append_left _ hl)
    | ok v =>
      rw [h] at h1
      have h2 := toLuaItems_ok_iff pf rest (tableAppend acc v)
      simp only [h2, List.mem_append]
      constructor
      · intro hrest l hl
        rcases hl with hl | hl
        · exact h1.1 ⟨v, rfl⟩ l hl
        · exact hrest l hl
      · intro hall l hl
        exact hall l (Or.inr hl)
theorem toLuaFields_ok_iff (pf : String → Option Float64) :
    ∀ (kvs : List (String × GoAny)) (acc : List (String × LValue)),
      (∃ lv, toLuaFields (dumperToLuaNumber pf) acc kvs = .ok lv) ↔
        ∀ l ∈ leavesOfFields kvs, numericLeaf pf l = true
  | [], acc => by simp [toLuaFields, leavesOfFields]
  | (key, item) :: rest, acc => by
    rw [toLuaFields, leavesOfFields]
    have h1 := toLuaValue_ok_iff pf item
    cases h : toLuaValue (dumperToLuaNumber pf) item with
    | error err =>
      rw [h] at h1
      simp only [exists_false, false_iff, reduceCtorEq] at h1 ⊢
      intro hall
      exact h1 fun l hl => hall l (List.mem_append_left _ hl)
    | ok v =>
      rw [h] at h1
      have h2 := toLuaFields_ok_iff pf rest (rawSetString acc key v)
      simp only [h2, List.mem_append]
      constructor
      · intro hrest l hl
        rcases hl with hl | hl
        · exact h1.1 ⟨v, rfl⟩ l hl
        · exact hrest l hl
      · intro hall l hl
        exact hall l (Or.inr hl)
end

theorem dataToLuaTableLoop_ok_iff (pf : String → Option Float64) (data : List AggregationResult)
    (out : List LValue) :
    (∃ t, dataToLuaTableLoop pf out data = .ok t) ↔
      ∀ item ∈ data, ∀ l ∈ leaves item.Result, numericLeaf pf l = true := by
  induction data generalizing out with
  | nil => simp [dataToLuaTableLoop]
  | cons item rest ih =>
    rw [dataToLuaTableLoop]
    have h1 := toLuaValue_ok_iff pf item.Result
    cases h : toLuaValue (dumperToLuaNumber pf) item.Result with
    | error err =>
      rw [h] at h1
      simp only [exists_false, false_iff, reduceCtorEq] at h1 ⊢
      intro hall
      exact h1 (hall item (List.mem_cons_self _ _))
    | ok v =>
      rw [h] at h1
      simp only [ih, List.mem_cons, forall_eq_or_imp]
      constructor
      · intro hrest
        exact ⟨h1.1 ⟨v, rfl⟩, hrest⟩
      · intro hall
        exact hall.2

/-- C28: the numeric mode accepts a value exactly when all its leaves are
numeric.  `toLuaValue` with `dumperToLuaNumber` returns a script value if and
only if every leaf of the value is a float, a signed or unsigned integer, or a
string or `[]byte` whose text `strconv.ParseFloat` accepts; and `dataToLuaTable`
returns a table if and only if that holds for the `Result` of every
aggregation result.  So a string that does not parse, a boolean or a nil at
any leaf makes both fail. -/
theorem toLuaValue_numeric_iff (parseFloat : String → Option Float64) :
    (∀ v : GoAny, (∃ lv, toLuaValue (dumperToLuaNumber parseFloat) v = .ok lv) ↔
      ∀ l ∈ leaves v, numericLeaf parseFloat l = true) ∧
    (∀ data : List AggregationResult, (∃ t, dataToLuaTable parseFloat data = .ok t) ↔
      ∀ item ∈ data, ∀ l ∈ leaves item.Result, numericLeaf parseFloat l = true) ∧
    (∀ s : String, parseFloat s = none → numericLeaf parseFloat (.string s) = false ∧
      numericLeaf parseFloat (.bytes s) = false) ∧
    (∀ b : Bool, numericLeaf parseFloat (.bool b) = false) ∧
    numericLeaf parseFloat .nil = false :=
  ⟨toLuaValue_ok_iff parseFloat, fun data => dataToLuaTableLoop_ok_iff parseFloat data [],
    fun s h => by simp [numericLeaf, h], fun _ => rfl, rfl⟩

theorem toLuaValue_numeric_iff_witness :
    (∃ lv, toLuaValue (dumperToLuaNumber parseSample)
      (.map [("a", .slice [.int 1, .string "12"]), ("b", .bytes "0.5")]) = .ok lv) ∧
    ¬ (∃ lv, toLuaValue (dumperToLuaNumber parseSample)
      (.map [("a", .slice [.int 1, .bool true]), ("b", .float (.finite 2))]) = .ok lv) ∧
    ¬ (∃ t, dataToLuaTable parseSample
      [{ Tags := [("name", "front")], Result := .uint 7 },
       { Tags := [], Result := .slice [.string "many"] }] = .ok t) :=
  ⟨((toLuaValue_numeric_iff parseSample).1 _).2 (by decide),
    fun h => absurd (((toLuaValue_numeric_iff parseSample).1 _).1 h) (by decide),
    fun h => absurd (((toLuaValue_numeric_iff parseSample).2.1 _).1 h) (by decide)⟩

theorem toLuaItems_isTable (dumper : dumperFunc) (xs : List GoAny) (acc : List LValue)
    (lv : LValue) (h : toLuaItems dumper acc xs = .ok lv) : lv.isNil = false := by
  induction xs generalizing acc with
  | nil =>
    simp only [toLuaItems, Except.ok.injEq] at h
    subst h
    rfl
  | cons item rest ih =>
    rw [toLuaItems] at h
    cases hv : toLuaValue dumper item with
    | error err => rw [hv] at h; cases h
    | ok v => rw [hv] at h; exact ih _ h

theorem toLuaFields_isTable (dumper : dumperFunc) (kvs : List (String × GoAny))
    (acc : List (String × LValue)) (lv : LValue) (h : toLuaFields dumper acc kvs = .ok lv) :
    lv.isNil = false := by
  induction kvs generalizing acc with
  | nil =>
    simp only [toLuaFields, Except.ok.injEq] at h
    subst h
    rfl
  | cons kv rest ih =>
    obtain ⟨key, item⟩ := kv
    rw [toLuaFields] at h
    cases hv : toLuaValue dumper item with
    | error err => rw [hv] at h; cases h
    | ok v => rw [hv] at h; exact ih _ h

/-- A converted value is never nil when the dumper never returns nil. -/
theorem toLuaValue_not_nil (dumper : dumperFunc)
    (hd : ∀ v lv, dumper v = .ok lv → lv.isNil = false) (v : GoAny) (lv : LValue)
    (h : toLuaValue dumper v = .ok lv) : lv.isNil = false := by
  cases v with
  | slice xs => rw [toLuaValue] at h; exact toLuaItems_isTable dumper xs [] lv h
  | map kvs => rw [toLuaValue] at h; exact toLuaFields_isTable dumper kvs [] lv h
  | struct fields => rw [toLuaValue] at h; exact toLuaFields_isTable dumper fields [] lv h
  | bytes s => simp only [toLuaValue] at h; exact hd _ _ h
  | float x => simp only [toLuaValue] at h; exact hd _ _ h
  | int i => simp only [toLuaValue] at h; exact hd _ _ h
  | uint n => simp only [toLuaValue] at h; exact hd _ _ h
  | string s => simp only [toLuaValue] at h; exact hd _ _ h
  | bool b => simp only [toLuaValue] at h; exact hd _ _ h
  | nil => simp only [toLuaValue] at h; exact hd _ _ h
  | other => simp only [toLuaValue] at h; exact hd _ _ h

theorem dumperToLuaNumber_not_nil (pf : String → Option Float64) (v : GoAny) (lv : LValue)
    (h : dumperToLuaNumber pf v = .ok lv) : lv.isNil = false := by
  cases v <;> simp only [dumperToLuaNumber, Except.ok.injEq, reduceCtorEq] at h
  case string s =>
    cases hp : pf s <;> rw [hp] at h <;> simp only [Except.ok.injEq, reduceCtorEq] at h
    subst h
    rfl
  all_goals subst h; rfl

theorem dumperToLuaValue_not_nil (v : GoAny) (lv : LValue)
    (h : dumperToLuaValue v = .ok lv) : lv.isNil = false := by
  cases v <;> simp only [dumperToLuaValue, Except.ok.injEq, reduceCtorEq] at h
  all_goals subst h; rfl

theorem tableAppend_of_not_nil (array : List LValue) (v : LValue) (h : v.isNil = false) :
    tableAppend array v = array ++ [v] := by
  cases v <;> first | rfl | cases h

theorem toLuaItems_pairwise (dumper : dumperFunc)
    (hd : ∀ v lv, dumper v = .ok lv → lv.isNil = false) (xs : List GoAny) (ys : List LValue)
    (h : List.Forall₂ (fun x y => toLuaValue dumper x = .ok y) xs ys) (acc : List LValue) :
    toLuaItems dumper acc xs = .ok (.LTable (acc ++ ys) [] []) := by
  induction h generalizing acc with
  | nil => simp [toLuaItems]
  | cons hxy _ ih =>
    rw [toLuaItems, hxy]
    simp only []
    rw [tableAppend_of_not_nil _ _ (toLuaValue_not_nil dumper hd _ _ hxy), ih]
    simp

theorem resultEntry_eq (item : AggregationResult) (val : LValue) (h : val.isNil = false) :
    LValue.LTable [] (rawSetString (rawSetString [] "Tags" (tagsTable item.Tags)) "Result" val)
      [] = resultEntry item val := by
  cases val with
  | LNil => cases h
  | _ => simp [rawSetString, tagsTable, resultEntry, mapSet]

theorem dataToLuaTableLoop_pairwise (pf : String → Option Float64)
    (data : List AggregationResult) (vals : List LValue)
    (h : List.Forall₂ (fun item val =>
      toLuaValue (dumperToLuaNumber pf) item.Result = .ok val) data vals) (out : List LValue) :
    dataToLuaTableLoop pf out data =
      .ok { array := out ++ List.zipWith resultEntry data vals, strdict := [], dict := [] } := by
  induction h generalizing out with
  | nil => simp [dataToLuaTableLoop]
  | cons hxy _ ih =>
    rw [dataToLuaTableLoop, hxy]
    simp only []
    rw [resultEntry_eq _ _ (toLuaValue_not_nil _ (dumperToLuaNumber_not_nil pf) _ _ hxy),
      tableAppend_of_not_nil out (resultEntry _ _) rfl, ih]
    simp

/-- C29: marshaling keeps length and order.  For a dumper that never returns
nil, as the two dumpers of plugins.go, a slice or array (other than a `[]byte`,
which is converted as one text) whose elements convert to `ys`, one by one, is
converted to the sequence `ys`: as many entries as elements, the entry at
position `i` being the conversion of the element at position `i`.  And a list
of aggregation results whose `Result`s convert to `vals` is converted to the
sequence of their entries, one per result in the order of the input, each with
the fields `Tags` and `Result`. -/
theorem toLuaValue_keeps_order (dumper : dumperFunc)
    (hd : ∀ v lv, dumper v = .ok lv → lv.isNil = false)
    (parseFloat : String → Option Float64) :
    (∀ (xs : List GoAny) (ys : List LValue),
      List.Forall₂ (fun x y => toLuaValue dumper x = .ok y) xs ys →
        toLuaValue dumper (.slice xs) = .ok (.LTable ys [] []) ∧ ys.length = xs.length ∧
        ∀ (i : Nat) (x : GoAny), xs[i]? = some x → ∃ y, ys[i]? = some y ∧
          toLuaValue dumper x = .ok y) ∧
    (∀ (data : List AggregationResult) (vals : List LValue),
      List.Forall₂ (fun item val =>
        toLuaValue (dumperToLuaNumber parseFloat) item.Result = .ok val) data vals →
        dataToLuaTable parseFloat data =
          .ok { array := List.zipWith resultEntry data vals, strdict := [], dict := [] } ∧
        (List.zipWith resultEntry data vals).length = data.length ∧
        ∀ (i : Nat) (item : AggregationResult), data[i]? = some item →
          ∃ val, (List.zipWith resultEntry data vals)[i]? = some (resultEntry item val) ∧
            toLuaValue (dumperToLuaNumber parseFloat) item.Result = .ok val ∧
            rawGetString { array := [], strdict := [("Tags", tagsTable item.Tags),
              ("Result", val)], dict := [] } "Tags" = tagsTable item.Tags ∧
            rawGetString { array := [], strdict := [("Tags", tagsTable item.Tags),
              ("Result", val)], dict := [] } "Result" = val) := by
  constructor
  · intro xs ys h
    refine ⟨?_, h.length_eq.symm, ?_⟩
    · rw [toLuaValue, toLuaItems_pairwise dumper hd xs ys h []]
      simp
    · intro i x hx
      induction h generalizing i with
      | nil => simp at hx
      | cons hxy _ ih =>
        cases i with
        | zero =>
          simp only [List.getElem?_cons_zero, Option.some.injEq] at hx
          subst hx
          exact ⟨_, by simp, hxy⟩
        | succ j =>
          simp only [List.getElem?_cons_succ] at hx ⊢
          exact ih j hx
  · intro data vals h
    refine ⟨?_, ?_, ?_⟩
    · rw [dataToLuaTable, dataToLuaTableLoop_pairwise parseFloat data vals h []]
      simp
    · simp [List.length_zipWith, h.length_eq]
    · intro i item hitem
      induction h generalizing i with
      | nil => simp at hitem
      | cons hxy _ ih =>
        cases i with
        | zero =>
          simp only [List.getElem?_cons_zero, Option.some.injEq] at hitem
          subst hitem
          exact ⟨_, by simp, hxy, by simp [rawGetString, mapGet], by simp [rawGetString, mapGet]⟩
        | succ j =>
          simp only [List.zipWith_cons_cons, List.getElem?_cons_succ] at hitem ⊢
          exact ih j hitem

theorem toLuaValue_keeps_order_witness :
    toLuaValue (dumperToLuaNumber parseSample)
      (.slice [.int 3, .string "12", .slice [.uint 1, .uint 2]]) =
      .ok (.LTable [.LNumber (.ofInt 3), .LNumber (.finite 12),
        .LTable [.LNumber (.ofInt 1), .LNumber (.ofInt 2)] [] []] [] []) ∧
    dataToLuaTable parseSample
      [{ Tags := [("name", "front")], Result := .uint 7 },
       { Tags := [("name", "back")], Result := .string "0.5" }] =
      .ok { array := [resultEntry { Tags := [("name", "front")], Result := .uint 7 }
                        (.LNumber (.ofInt 7)),
                      resultEntry { Tags := [("name", "back")], Result := .string "0.5" }
                        (.LNumber (.finite (1 / 2)))],
            strdict := [], dict := [] } :=
  ⟨((toLuaValue_keeps_order (dumperToLuaNumber parseSample)
      (dumperToLuaNumber_not_nil parseSample) parseSample).1
      [.int 3, .string "12", .slice [.uint 1, .uint 2]]
      [.LNumber (.ofInt 3), .LNumber (.finite 12),
        .LTable [.LNumber (.ofInt 1), .LNumber (.ofInt 2)] [] []]
      (.cons rfl (.cons rfl (.cons rfl .nil)))).1,
    ((toLuaValue_keeps_order (dumperToLuaNumber parseSample)
      (dumperToLuaNumber_not_nil parseSample) parseSample).2
      [{ Tags := [("name", "front")], Result := .uint 7 },
       { Tags := [("name", "back")], Result := .string "0.5" }]
      [.LNumber (.ofInt 7), .LNumber (.finite (1 / 2))]
      (.cons rfl (.cons rfl .nil))).1⟩

theorem bitLen_le (fuel n k : Nat) (h : n < 2 ^ k) : bitLen fuel n ≤ k := by
  induction fuel generalizing n k with
  | zero => simp [bitLen]
  | succ fuel ih =>
    rw [bitLen]
    split_ifs with h0
    · exact Nat.zero_le _
    · cases k with
      | zero =>
        simp only [pow_zero, Nat.lt_one_iff] at h
        exact absurd h h0
      | succ k =>
        have : n / 2 < 2 ^ k := by
          rw [Nat.div_lt_iff_lt_mul (by decide : 0 < 2)]
          rw [pow_succ] at h
          exact h
        exact Nat.succ_le_succ (ih (n / 2) k this)

/-- The conversion to float64 is exact up to 2^53 in magnitude. -/
theorem roundToFloat64_of_small (i : Int) (h : i.natAbs ≤ 2 ^ 53) : roundToFloat64 i = i := by
  rcases Nat.lt_or_eq_of_le h with hlt | heq
  · have hsh : bitLen i.natAbs i.natAbs - 53 = 0 :=
      Nat.sub_eq_zero_of_le (bitLen_le _ _ 53 hlt)
    simp only [roundToFloat64, hsh, pow_zero, Nat.div_one, Nat.mod_one, Nat.mul_zero,
      Nat.mul_one]
    simp only [if_neg (by omega : ¬ (2 * 0 > 1 ∨ 2 * 0 = 1 ∧ i.natAbs % 2 = 1))]
    exact Int.sign_mul_natAbs i
  · rcases Int.natAbs_eq i with hi | hi
    · rw [hi, heq]
      decide
    · rw [hi, heq]
      decide

/-- C30, as stated, fails for integers: the integer 2^53 + 1 does not become a
script number of the same value.  A script number is a float64, and
`dumperToLuaValue` converts 9007199254740993 to the number 9007199254740992. -/
theorem dumperToLuaValue_rounds_integer :
    dumperToLuaValue (.int 9007199254740993) =
      .ok (.LNumber (.finite ((9007199254740992 : Int) : ℚ))) ∧
    Float64.ofInt 9007199254740993 ≠ .finite ((9007199254740993 : Int) : ℚ) := by
  constructor
  · have h : roundToFloat64 9007199254740993 = 9007199254740992 := by decide
    simp only [dumperToLuaValue, Float64.ofInt, h]
  · have h : roundToFloat64 9007199254740993 = 9007199254740992 := by decide
    simp only [Float64.ofInt, h, ne_eq, Float64.finite.injEq, Int.cast_inj]
    decide

/-- C30, amended: the generic mode passes scalars through by type.  A string
becomes the identical script string, whatever it looks like; a boolean becomes
the same script boolean; a float becomes the script number of the same value;
a signed or unsigned integer becomes the float64 nearest to it, which has the
same value whenever the magnitude of the integer is at most 2^53; a nil and a
value of any other scalar kind are rejected with an error.  So a string of the
plugin configuration reaches the script as that string. -/
theorem dumperToLuaValue_by_type :
    (∀ s : String, dumperToLuaValue (.string s) = .ok (.LString s) ∧
      toLuaValue dumperToLuaValue (.string s) = .ok (.LString s)) ∧
    (∀ b : Bool, dumperToLuaValue (.bool b) = .ok (.LBool b)) ∧
    (∀ x : Float64, dumperToLuaValue (.float x) = .ok (.LNumber x)) ∧
    (∀ i : Int, dumperToLuaValue (.int i) = .ok (.LNumber (.finite (roundToFloat64 i))) ∧
      (i.natAbs ≤ 2 ^ 53 → dumperToLuaValue (.int i) = .ok (.LNumber (.finite i)))) ∧
    (∀ n : Nat, dumperToLuaValue (.uint n) = .ok (.LNumber (.finite (roundToFloat64 n))) ∧
      (n ≤ 2 ^ 53 → dumperToLuaValue (.uint n) = .ok (.LNumber (.finite n)))) ∧
    dumperToLuaValue .nil = .error (.unexpected .nil) ∧
    dumperToLuaValue .other = .error (.unexpected .other) ∧
    (∀ name s : String, jPluginConfigToLuaTable [(name, .string s)] =
      .ok { array := [], strdict := [(name, .LString s)], dict := [] }) := by
  refine ⟨fun s => ⟨rfl, rfl⟩, fun b => rfl, fun x => rfl, fun i => ⟨rfl, ?_⟩,
    fun n => ⟨rfl, ?_⟩, rfl, rfl, fun name s => rfl⟩
  · intro h
    simp only [dumperToLuaValue, Float64.ofInt, roundToFloat64_of_small i h]
  · intro h
    have h' : ((n : Int)).natAbs ≤ 2 ^ 53 := by simpa using h
    simp only [dumperToLuaValue, Float64.ofInt, roundToFloat64_of_small (n : Int) h']
    simp

theorem dumperToLuaValue_by_type_witness :
    dumperToLuaValue (.int (-30)) = .ok (.LNumber (.finite ((-30 : Int) : ℚ))) ∧
    dumperToLuaValue (.uint 30) = .ok (.LNumber (.finite ((30 : Nat) : ℚ))) ∧
    dumperToLuaValue (.string "30") = .ok (.LString "30") :=
  ⟨(dumperToLuaValue_by_type.2.2.2.1 (-30)).2 (by decide),
    (dumperToLuaValue_by_type.2.2.2.2.1 30).2 (by decide),
    (dumperToLuaValue_by_type.1 "30").1⟩

/-! ### The verdict of the juggler sender -/

theorem failedCount_add_succeededCount (deliveries : List Bool) :
    failedCount deliveries + succeededCount deliveries = deliveries.length := by
  induction deliveries with
  | nil => rfl
  | cons ok rest ih =>
    cases ok
    · simp only [failedCount, succeededCount, List.filter, Bool.not_false, List.length_cons]
        at ih ⊢
      omega
    · simp only [failedCount, succeededCount, List.filter, Bool.not_true, List.length_cons]
        at ih ⊢
      omega

theorem succeededCount_eq_zero_iff (deliveries : List Bool) :
    succeededCount deliveries = 0 ↔ ∀ ok ∈ deliveries, ok = false := by
  unfold succeededCount
  rw [List.length_eq_zero, List.filter_eq_nil_iff]
  constructor
  · intro h ok hok
    cases ok
    · rfl
    · exact absurd rfl (h true hok)
  · intro h ok hok
    simp [h ok hok]

theorem failedCount_pos_iff (deliveries : List Bool) :
    0 < failedCount deliveries ↔ false ∈ deliveries := by
  unfold failedCount
  rw [List.length_pos_iff_exists_mem]
  constructor
  · rintro ⟨ok, hok⟩
    rw [List.mem_filter] at hok
    cases ok
    · exact hok.1
    · simp at hok
  · intro h
    exact ⟨false, by simp [List.mem_filter, h]⟩

/-- C34: partial failure is success.  When some deliveries succeed and some
fail, `Send` returns no error and logs a warning with the ratio of the failed
deliveries to all deliveries; it returns an error only when every delivery
fails, and that error names the ratio, the total out of the total.  When no
delivery fails it returns no error and logs no warning. -/
theorem sendVerdict_partial_failure_is_success (deliveries : List Bool) :
    (true ∈ deliveries → false ∈ deliveries →
      (sendVerdict deliveries).err = none ∧
      (sendVerdict deliveries).warning =
        some (ratioText (failedCount deliveries) deliveries.length) ∧
      0 < failedCount deliveries ∧ failedCount deliveries < deliveries.length) ∧
    ((sendVerdict deliveries).err ≠ none ↔ ∀ ok ∈ deliveries, ok = false) ∧
    ((∀ ok ∈ deliveries, ok = false) →
      (sendVerdict deliveries).err =
        some (.errorf (ratioText deliveries.length deliveries.length))) ∧
    (true ∈ deliveries → false ∉ deliveries →
      sendVerdict deliveries = { err := none, warning := none }) := by
  have hsum := failedCount_add_succeededCount deliveries
  have hzero := succeededCount_eq_zero_iff deliveries
  have hpos := failedCount_pos_iff deliveries
  refine ⟨?_, ?_, ?_, ?_⟩
  · intro ht hf
    have hs : succeededCount deliveries ≠ 0 := by
      intro h
      exact absurd (hzero.1 h true ht) (by decide)
    have hfp : 0 < failedCount deliveries := hpos.2 hf
    refine ⟨?_, ?_, hfp, by omega⟩
    · simp [sendVerdict, hs, hfp]
    · simp [sendVerdict, hs, hfp]
  · rw [← hzero]
    unfold sendVerdict
    by_cases hs : succeededCount deliveries = 0
    · simp [hs]
    · by_cases hfp : failedCount deliveries > 0
      · simp [hs, hfp]
      · simp [hs, hfp]
  · intro hall
    have hs : succeededCount deliveries = 0 := hzero.2 hall
    have hlen : failedCount deliveries = deliveries.length := by omega
    simp [sendVerdict, hs, hlen]
  · intro ht hf
    have hs : succeededCount deliveries ≠ 0 := by
      intro h
      exact absurd (hzero.1 h true ht) (by decide)
    have hfp : ¬ failedCount deliveries > 0 := fun h => hf (hpos.1 h)
    simp [sendVerdict, hs, hfp]

/-- The C34 statement at the deliveries of §8: with 6 of 12 deliveries failing
`Send` returns no error and warns with `6/12`; with 12 of 12 failing it returns
an error with `12/12`. -/
theorem sendVerdict_partial_failure_is_success_witness :
    ((sendVerdict sixOfTwelve).err = none ∧
      (sendVerdict sixOfTwelve).warning = some "6/12") ∧
    (sendVerdict (List.replicate 12 false)).err = some (.errorf "12/12") :=
  ⟨⟨((sendVerdict_partial_failure_is_success sixOfTwelve).1 (by decide) (by decide)).1,
    ((sendVerdict_partial_failure_is_success sixOfTwelve).1 (by decide) (by decide)).2.1⟩,
   (sendVerdict_partial_failure_is_success (List.replicate 12 false)).2.2.1 (by decide)⟩

/-! ### Flap override and dirty flag -/

/-- C35: the flap override of a service is not applied to a check that
`ensureCheck` creates.  `overrideSender` has an enabled override for service
`s` and an enabled global setting; there is no remote check.  The check that is
created and sent for `s` has the global flap, not the override: `ensureFlap`
looks the override up under the Service of the check, which is still empty
then (it is set at api.go:220). -/
theorem ensureCheck_new_check_misses_override :
    (ensureCheck id acceptAll [] overrideSender [] [trigger "a" "s"]).calls.map
      (fun c => (c.Service, c.Flap)) = [("s", some globalFlap)] ∧
    mapGet overrideSender.ChecksOptions "s" = some serviceFlap ∧
    serviceFlap.Enable = 1 ∧ globalFlap ≠ serviceFlap := by
  decide

/-- C37: the dirty flag misses a cleared flap.  `flappingCheck` is in sync
with `baseSender`, which has no flap setting, and has flap times.  After the
seven attribute steps the flag `Update` is still false and the flap of the
check is gone. -/
theorem ensureAttributes_clears_flap_silently :
    (ensureAttributes baseSender flappingCheck).2.Update = false ∧
    flappingCheck.Flap =
      some { Enable := 0, BoostTime := 0, StableTime := 60, CriticalTime := 90 } ∧
    (ensureAttributes baseSender flappingCheck).2.Flap = none ∧
    (ensureAttributes baseSender flappingCheck).2 = { flappingCheck with Flap := none } := by
  decide

/-! ### The aggregator of a check whose arguments match -/

/-- C38, as stated, fails: a check whose aggregator arguments match keeps its
aggregator.  `otherAggregatorCheck` has the arguments of `baseSender` and the
aggregator `other`; `ensureAggregator` leaves it as it is and does not mark it. -/
theorem ensureAggregator_keeps_other_id :
    (ensureAggregator baseSender otherAggregatorCheck).2 = otherAggregatorCheck ∧
    (ensureAggregator baseSender otherAggregatorCheck).2.Aggregator = "other" ∧
    baseSender.Aggregator = "agg" ∧
    (ensureAggregator baseSender otherAggregatorCheck).2.Update = false := by
  decide

/-- C38, amended: `ensureAggregator` replaces the aggregator together with the
arguments, and only when the arguments are outdated.  Then the check is marked
and its aggregator and arguments are the desired ones; otherwise the check is
left as it is, with the aggregator it had, equal to the desired one or not. -/
theorem ensureAggregator_id_follows_arguments (js : Sender) (c : jugglerCheck) :
    (aggregatorOutdated js c = true →
      (ensureAggregator js c).2 =
        { c with Update := true, Aggregator := js.Aggregator,
                 AggregatorKWArgs := js.AggregatorKWArgs }) ∧
    (aggregatorOutdated js c = false → (ensureAggregator js c).2 = c) ∧
    ((ensureAggregator js c).2.Aggregator = js.Aggregator ↔
      (aggregatorOutdated js c = true ∨ c.Aggregator = js.Aggregator)) := by
  unfold ensureAggregator
  cases h : aggregatorOutdated js c <;> simp

theorem ensureAggregator_id_follows_arguments_witness :
    (ensureAggregator ruleSender emptyCheck).2 =
      { emptyCheck with Update := true, Aggregator := ruleSender.Aggregator,
                        AggregatorKWArgs := ruleSender.AggregatorKWArgs } ∧
    (ensureAggregator baseSender otherAggregatorCheck).2 = otherAggregatorCheck :=
  ⟨(ensureAggregator_id_follows_arguments ruleSender emptyCheck).1 (by decide),
    (ensureAggregator_id_follows_arguments baseSender otherAggregatorCheck).2.1 (by decide)⟩

/-! ### The decoder of go2lua.go -/

theorem go2lua_decodeItems_fault (f : Float64 → String) (defaultLevel : String)
    (items : List (LValue × LValue)) (st : Go2lua.DecodeState)
    (h : ∃ kv ∈ items, ∀ array strdict dict, kv.2 ≠ .LTable array strdict dict) :
    Go2lua.decodeItems f defaultLevel st items = none := by
  induction items generalizing st with
  | nil => obtain ⟨kv, hmem, _⟩ := h; simp at hmem
  | cons kv rest ih =>
    obtain ⟨kv', hmem, hnt⟩ := h
    rw [Go2lua.decodeItems]
    cases hd : Go2lua.decodeItem f defaultLevel st kv with
    | none => rfl
    | some st' =>
      simp only []
      rcases List.mem_cons.1 hmem with heq | hrest
      · subst heq
        unfold Go2lua.decodeItem at hd
        cases hv : kv'.2 with
        | LTable array strdict dict => exact absurd hv (hnt array strdict dict)
        | _ => rw [hv] at hd; simp at hd
      · exact ih st' ⟨kv', hrest, hnt⟩

/-- A result with an item that is not a table makes the decoder of go2lua.go
panic, whatever the other items are. -/
theorem go2lua_fault_of_non_table (f : Float64 → String) (defaultCheckLevel defaultLevel : String)
    (result : LTable)
    (h : ∃ kv ∈ forEach result, ∀ array strdict dict, kv.2 ≠ .LTable array strdict dict) :
    Go2lua.luaResultToJugglerEvents f defaultCheckLevel defaultLevel (some result) = .fault := by
  simp only [Go2lua.luaResultToJugglerEvents, go2lua_decodeItems_fault f _ _ _ h]

/-- C36: the decoder of go2lua.go panics on an item that is not a table.  For
the result whose only item is the string `x` the callback records the error
`is not lua table` and then calls `RawGetString` on the nil table: the call
ends with a run-time panic instead of returning the error. -/
theorem go2lua_faults_on_string_item :
    Go2lua.luaResultToJugglerEvents fmtWhole "OK" "" (some (resultOf [.LString "x"])) =
      .fault ∧
    Go2lua.luaResultToJugglerEvents fmtWhole "OK" ""
      (some (resultOf [record [("host", .LString "front")], .LString "x"])) = .fault := by
  constructor <;> rfl

/-! ### The agave sender -/

/-- C39: the agave sender reports a total failure as success when failures
share their text.  One subgroup, two hosts, both answering with status 500:
both requests fail with the error `Bad response from agave: 500 Internal
Server Error`, the set `errs` holds this one text, 1 is not 1 * 2, and `Send`
returns nil.  With two hosts that fail with different texts it returns the
error. -/
theorem agave_Send_total_failure_is_nil :
    Agave.sendPoint sampleStatusText agaveDown "u" ["a1", "a2"] =
      ["Bad response from agave: 500 Internal Server Error",
       "Bad response from agave: 500 Internal Server Error"] ∧
    Agave.Send sampleStatusText agaveDown (fun _ _ => "u") id ["a1", "a2"]
      [("group", ["x:1"])] = none ∧
    Agave.Send sampleStatusText agaveMixed (fun _ _ => "u") id ["a1", "a2"]
      [("group", ["x:1"])] =
      some (.errorf
        "map[Bad response from agave: 500 Internal Server Error:\x7b\x7d connection refused:\x7b\x7d]") := by
  decide

/-! ### The flap merge of `getCheck` -/

theorem mapGet_eq_none_of_not_mem {α : Type} (m : List (String × α)) (k : String)
    (h : k ∉ m.map Prod.fst) : mapGet m k = none := by
  induction m with
  | nil => rfl
  | cons p rest ih =>
    obtain ⟨k', v⟩ := p
    simp only [List.map_cons, List.mem_cons, not_or] at h
    have hne : ¬ k' = k := fun e => h.1 e.symm
    simp only [mapGet, hne, if_false]
    exact ih h.2

theorem mapGet_map_snd {α β : Type} (f : α → β) (m : List (String × α)) (k : String) :
    mapGet (m.map fun p => (p.1, f p.2)) k = (mapGet m k).map f := by
  induction m with
  | nil => rfl
  | cons p rest ih =>
    obtain ⟨k', v⟩ := p
    by_cases h : k' = k
    · simp [mapGet, h]
    · simp only [List.map_cons, mapGet, h, if_false]
      exact ih

/-- The check of a service after the loop of api.go:151-157, for flap readings
with distinct service names. -/
theorem mapGet_mergeFlaps (flaps : List (String × jugglerFlapConfig))
    (hnd : (flaps.map Prod.fst).Nodup) (services : List (String × jugglerCheck)) (s : String) :
    mapGet (mergeFlaps services flaps) s =
      (match mapGet flaps s with
        | some v =>
          if hasFlapTimes v then
            some { (match mapGet services s with
              | some c => c
              | none => emptyCheck) with Flap := some v }
          else mapGet services s
        | none => mapGet services s) := by
  induction flaps generalizing services with
  | nil => rfl
  | cons cv rest ih =>
    obtain ⟨c, v⟩ := cv
    simp only [List.map_cons, List.nodup_cons] at hnd
    have hstep : mergeFlaps services ((c, v) :: rest) =
        mergeFlaps (if hasFlapTimes v then
          mapSet services c { (match mapGet services c with
            | some x => x
            | none => emptyCheck) with Flap := some v }
          else services) rest := by
      simp only [mergeFlaps, List.foldl_cons]
    rw [hstep, ih hnd.2]
    by_cases hs : c = s
    · subst hs
      rw [mapGet_eq_none_of_not_mem rest c hnd.1]
      simp only [mapGet, if_true]
      split_ifs with hv
      · exact mapGet_mapSet_self _ _ _
      · rfl
    · have hs' : s ≠ c := fun e => hs e.symm
      simp only [mapGet, hs, if_false]
      split_ifs with hv
      · simp only [mapGet_mapSet_of_ne _ _ _ _ hs']
      · rfl

/-- The check of a service of the sender's Host after the merge, and the
services of the other hosts. -/
theorem mergeResponse_spec (host : String)
    (doc : List (String × List (String × decodedService))) :
    (∀ h, h ≠ host → mapGet (mergeResponse host doc) h = mapGet (checkView doc) h) ∧
    (∀ sds, mapGet doc host = some sds → (sds.map Prod.fst).Nodup →
      ∀ s d, (s, d) ∈ sds → checkOf (mergeResponse host doc) host s = some (mergedCheck d)) := by
  have hflap : mapGet (flapView doc) host =
      (mapGet doc host).map fun sds => sds.map fun sd => (sd.1, sd.2.flap) :=
    mapGet_map_snd _ doc host
  have hcheck : mapGet (checkView doc) host =
      (mapGet doc host).map fun sds => sds.map fun sd => (sd.1, sd.2.check) :=
    mapGet_map_snd _ doc host
  constructor
  · intro h hne
    unfold mergeResponse
    simp only []
    cases hf : mapGet (flapView doc) host with
    | none => rfl
    | some flaps =>
      cases hc : mapGet (checkView doc) host with
      | none => rfl
      | some services => exact mapGet_mapSet_of_ne _ _ _ _ hne
  · intro sds hsds hnd s d hmem
    rw [hsds] at hflap hcheck
    simp only [Option.map_some'] at hflap hcheck
    have hget : mapGet sds s = some d := mapGet_of_mem_of_nodup sds hnd s d hmem
    have hnd' : ((sds.map fun sd => (sd.1, sd.2.flap)).map Prod.fst).Nodup := by
      simpa [List.map_map, Function.comp_def] using hnd
    unfold mergeResponse checkOf
    simp only [hflap, hcheck, mapGet_mapSet_self]
    rw [mapGet_mergeFlaps _ hnd', mapGet_map_snd (fun d => d.flap) sds s,
      mapGet_map_snd (fun d => d.check) sds s, hget]
    simp only [Option.map_some', mergedCheck]
    split_ifs <;> rfl

/-- C32, as stated, fails: a check that was decoded with a flap keeps it.  The
service `s` of the response has an empty `flaps` member and no flap time, so
all three times are zero; after `getCheck` its check has a flap that is set,
not nil. -/
theorem getCheck_keeps_decoded_flap :
    hasFlapTimes flapsMemberService.flap = false ∧
    (getCheck (fun _ _ => "q") sampleDecode readyBackend [] 60 0 1 baseSender).err = none ∧
    ((getCheck (fun _ _ => "q") sampleDecode readyBackend [] 60 0 1 baseSender).hostChecks.bind
      fun hc => checkOf hc "h" "s").map (fun c => c.Flap) = some (some emptyFlap) := by
  decide

/-- C32, amended: when `getCheck` returns checks, they are the checks of some
decoded response after the merge.  The services of every other host are as
decoded.  The check of a service of the sender's Host is as decoded, except
that its flap is the flap reading of the service when one of the boost, stable
or critical times of that reading is non-zero; otherwise its flap is the one
decoded with the check, nil when there was none. -/
theorem getCheck_flap_merge (encodeQuery : List String → String → String)
    (decode : String → Decoded) (net : GetBackend) (store : CacheStore) (ttl now1 now2 : Int)
    (js : Sender) (hc : jugglerResponse)
    (hres : (getCheck encodeQuery decode net store ttl now1 now2 js).hostChecks = some hc) :
    ∃ body doc, decode body = .document doc ∧
      (∀ h, h ≠ js.Host → mapGet hc h = mapGet (checkView doc) h) ∧
      (∀ sds, mapGet doc js.Host = some sds → (sds.map Prod.fst).Nodup →
        ∀ s d, (s, d) ∈ sds →
          checkOf hc js.Host s = some (mergedCheck d) ∧
          (hasFlapTimes d.flap = true → mergedCheck d = { d.check with Flap := some d.flap }) ∧
          (hasFlapTimes d.flap = false → mergedCheck d = d.check) ∧
          (hasFlapTimes d.flap = false → d.check.Flap = none → (mergedCheck d).Flap = none)) := by
  have hhost : ∀ j : Sender, (if j.Tags.length = 0 then { j with Tags := ["combaine"] }
      else j).Host = j.Host := by
    intro j; split_ifs <;> rfl
  simp only [getCheck] at hres
  split at hres
  · cases hres
  · split at hres
    · cases hres
    · cases hres
    · rename_i doc hdoc
      simp only [Option.some.injEq] at hres
      rw [hhost js] at hres
      subst hres
      refine ⟨_, doc, hdoc, (mergeResponse_spec js.Host doc).1, ?_⟩
      intro sds hsds hnd s d hmem
      refine ⟨(mergeResponse_spec js.Host doc).2 sds hsds hnd s d hmem, ?_, ?_, ?_⟩
      · intro h; simp [mergedCheck, h]
      · intro h; simp [mergedCheck, h]
      · intro h hnone; simp [mergedCheck, h, hnone]

theorem getCheck_flap_merge_witness :
    ∃ body doc, sampleDecode body = .document doc ∧
      (∀ h, h ≠ baseSender.Host →
        mapGet [("h", [("s", flapsMemberService.check),
            ("t", { emptyCheck with Flap := some timedService.flap })]),
          ("x", [("u", emptyCheck)])] h = mapGet (checkView doc) h) ∧
      (∀ sds, mapGet doc baseSender.Host = some sds → (sds.map Prod.fst).Nodup →
        ∀ s d, (s, d) ∈ sds →
          checkOf [("h", [("s", flapsMemberService.check),
              ("t", { emptyCheck with Flap := some timedService.flap })]),
            ("x", [("u", emptyCheck)])] baseSender.Host s = some (mergedCheck d) ∧
          (hasFlapTimes d.flap = true → mergedCheck d = { d.check with Flap := some d.flap }) ∧
          (hasFlapTimes d.flap = false → mergedCheck d = d.check) ∧
          (hasFlapTimes d.flap = false → d.check.Flap = none → (mergedCheck d).Flap = none)) :=
  getCheck_flap_merge (fun _ _ => "q") sampleDecode readyBackend [] 60 0 1 baseSender _
    (by decide)

/-! ### The checks of the other hosts, and the checks created for a new Host -/

/-- One event on a services map in which every check is marked and carries the
Host and the name of its entry: the same holds afterwards, no entry is lost
and the Service of the event has an entry. -/
theorem ensureTrigger_created (childSet : List String) (st : LoopState) (t : jugglerEvent)
    (hinv : ∀ s c, mapGet st.services s = some c →
      c.Update = true ∧ c.Host = st.js.Host ∧ c.Service = s) :
    (∀ s c, mapGet (ensureTrigger childSet st t).services s = some c →
      c.Update = true ∧ c.Host = st.js.Host ∧ c.Service = s) ∧
    (∀ s, (mapGet st.services s).isSome = true →
      (mapGet (ensureTrigger childSet st t).services s).isSome = true) ∧
    (mapGet (ensureTrigger childSet st t).services t.Service).isSome = true := by
  obtain ⟨check0, hc0⟩ : ∃ x : jugglerCheck, x = (match mapGet st.services t.Service with
      | some c => c
      | none => { emptyCheck with Update := true }) := ⟨_, rfl⟩
  obtain ⟨r, hrdef⟩ : ∃ x : (Sender × jugglerCheck) × List String,
      x = (if t.Service ∉ st.updated then
        (ensureAttributes st.js check0, st.updated ++ [t.Service])
      else ((st.js, check0), st.updated)) := ⟨_, rfl⟩
  obtain ⟨check2, hc2⟩ : ∃ x : jugglerCheck,
      x = (if (t.Host ++ ":" ++ t.Service) ∉ childSet then
        { r.1.2 with
          Update := true
          Children := r.1.2.Children ++
            [{ Instance := "", Host := t.Host, Type_ := "HOST", Service := t.Service }] }
      else r.1.2) := ⟨_, rfl⟩
  have heq := ensureTrigger_eq childSet st t check0 check2 r hc0 hrdef hc2
  have h0 : check0.Update = true := by
    rw [hc0]
    cases hg : mapGet st.services t.Service with
    | some c => exact (hinv _ _ hg).1
    | none => rfl
  have hr : r.1.2.Update = true ∧ r.1.1.Host = st.js.Host := by
    have hupd := ensureAttributes_update_of_update st.js check0 h0
    have hhost : (ensureAttributes st.js check0).1.Host = st.js.Host := by
      rw [ensureAttributes_fst]
      simp [withDefaults]
    generalize ensureAttributes st.js check0 = p at hrdef hupd hhost
    by_cases hu : t.Service ∉ st.updated
    · rw [if_pos hu] at hrdef
      rw [hrdef]
      exact ⟨hupd, hhost⟩
    · rw [if_neg hu] at hrdef
      rw [hrdef]
      exact ⟨h0, rfl⟩
  have h2 : check2.Update = true := by
    rw [hc2]
    split_ifs <;> first
      | exact hr.1
      | rfl
  rw [h2] at heq
  simp only [if_true] at heq
  rw [heq]
  refine ⟨?_, ?_, ?_⟩
  · intro s c hg
    by_cases hs : s = t.Service
    · subst hs
      simp only [mapGet_mapSet_self, Option.some.injEq] at hg
      subst hg
      exact ⟨rfl, hr.2, rfl⟩
    · simp only [mapGet_mapSet_of_ne _ _ _ _ hs] at hg
      exact hinv s c hg
  · intro s hsome
    by_cases hs : s = t.Service
    · subst hs
      simp only [mapGet_mapSet_self, Option.isSome_some]
    · simp only [mapGet_mapSet_of_ne _ _ _ _ hs]
      exact hsome
  · simp only [mapGet_mapSet_self, Option.isSome_some]

theorem ensureTriggers_created (childSet : List String) (triggers : List jugglerEvent)
    (st : LoopState)
    (hinv : ∀ s c, mapGet st.services s = some c →
      c.Update = true ∧ c.Host = st.js.Host ∧ c.Service = s) :
    (∀ s c, mapGet (ensureTriggers childSet st triggers).services s = some c →
      c.Update = true ∧ c.Host = st.js.Host ∧ c.Service = s) ∧
    (∀ s, (mapGet st.services s).isSome = true →
      (mapGet (ensureTriggers childSet st triggers).services s).isSome = true) ∧
    (∀ t ∈ triggers,
      (mapGet (ensureTriggers childSet st triggers).services t.Service).isSome = true) := by
  induction triggers generalizing st with
  | nil => exact ⟨hinv, fun _ h => h, fun t ht => by simp at ht⟩
  | cons t rest ih =>
    obtain ⟨h1, h2, h3⟩ := ensureTrigger_created childSet st t hinv
    have hhost : (ensureTrigger childSet st t).js.Host = st.js.Host := ensureTrigger_host _ _ _
    obtain ⟨i1, i2, i3⟩ := ih (ensureTrigger childSet st t) (by rw [hhost]; exact h1)
    rw [hhost] at i1
    have hfold : ensureTriggers childSet st (t :: rest) =
        ensureTriggers childSet (ensureTrigger childSet st t) rest := rfl
    rw [hfold]
    refine ⟨i1, fun s hs => i2 s (h2 s hs), ?_⟩
    intro t' ht'
    rcases List.mem_cons.1 ht' with heq | hrest
    · rw [heq]; exact i2 _ h3
    · exact i3 t' hrest

/-- C33: `ensureCheck` only changes the checks of the sender's Host.  The
entry of every other host of the response is the same after the call as
before, whether or not an update fails.  When the response has no entry for
the Host, the call creates one, and in it every Service named by an event has
a check that is marked updated, with the sender's Host as Host and the Service
of the event as Service. -/
theorem ensureCheck_frame
    (order : List (String × jugglerCheck) → List (String × jugglerCheck)) (net : Backend)
    (store : CacheStore) (js : Sender) (hostChecks : jugglerResponse)
    (triggers : List jugglerEvent) :
    (∀ h, h ≠ js.Host →
      mapGet (ensureCheck order net store js hostChecks triggers).hostChecks h =
        mapGet hostChecks h) ∧
    (mapGet hostChecks js.Host = none →
      ∃ services,
        mapGet (ensureCheck order net store js hostChecks triggers).hostChecks js.Host =
          some services ∧
        ∀ t ∈ triggers, ∃ c, mapGet services t.Service = some c ∧
          c.Update = true ∧ c.Host = js.Host ∧ c.Service = t.Service) := by
  constructor
  · intro h hne
    simp only [ensureCheck]
    exact mapGet_mapSet_of_ne _ _ _ _ hne
  · intro hnone
    refine ⟨(reconciled js hostChecks triggers).services, ?_, ?_⟩
    · simp only [ensureCheck]
      exact mapGet_mapSet_self _ _ _
    · intro t ht
      have hserv : hostServices js hostChecks = [] := by simp [hostServices, hnone]
      obtain ⟨h1, _, h3⟩ := ensureTriggers_created (buildChildSet [])
        triggers { js := js, services := [], updated := [] }
        (by intro s c hg; simp [mapGet] at hg)
      have hrec : reconciled js hostChecks triggers =
          ensureTriggers (buildChildSet []) { js := js, services := [], updated := [] }
            triggers := by
        simp only [reconciled, hserv]
      rw [hrec]
      cases hg : mapGet (ensureTriggers (buildChildSet [])
          { js := js, services := [], updated := [] } triggers).services t.Service with
      | none =>
        have := h3 t ht
        rw [hg] at this
        cases this
      | some c => exact ⟨c, rfl, h1 _ _ hg⟩

theorem ensureCheck_frame_witness :
    mapGet (ensureCheck id acceptAll [] baseSender
      [("nonExistingHost", [("nonExistingCheck", emptyCheck)])]
      [trigger "a" "s", trigger "b" "s", trigger "a" "t"]).hostChecks "nonExistingHost" =
      some [("nonExistingCheck", emptyCheck)] ∧
    ∃ services,
      mapGet (ensureCheck id acceptAll [] baseSender
        [("nonExistingHost", [("nonExistingCheck", emptyCheck)])]
        [trigger "a" "s", trigger "b" "s", trigger "a" "t"]).hostChecks baseSender.Host =
        some services ∧
      ∀ t ∈ [trigger "a" "s", trigger "b" "s", trigger "a" "t"],
        ∃ c, mapGet services t.Service = some c ∧
          c.Update = true ∧ c.Host = baseSender.Host ∧ c.Service = t.Service :=
  ⟨(ensureCheck_frame id acceptAll [] baseSender
      [("nonExistingHost", [("nonExistingCheck", emptyCheck)])]
      [trigger "a" "s", trigger "b" "s", trigger "a" "t"]).1 "nonExistingHost" (by decide),
    (ensureCheck_frame id acceptAll [] baseSender
      [("nonExistingHost", [("nonExistingCheck", emptyCheck)])]
      [trigger "a" "s", trigger "b" "s", trigger "a" "t"]).2 (by decide)⟩

/-! ### The dirty flag along the attribute steps -/

/-- The dirty flag is sound for every field but the flap: when the flag is
still false after the seven attribute steps, the check differs from the check
before the steps in its flap at most. -/
theorem ensureAttributes_sound_but_flap (js : Sender) (c : jugglerCheck)
    (hu : (ensureAttributes js c).2.Update = false) :
    { (ensureAttributes js c).2 with Flap := c.Flap } = c := by
  have hT : ∀ (a : Sender) (x : jugglerCheck), (ensureTTL a x).2.Update = false →
      (ensureTTL a x).2 = x := by
    intro a x; rw [ensureTTL_snd]; split_ifs <;> simp
  have hA : ∀ (a : Sender) (x : jugglerCheck), (ensureAggregator a x).2.Update = false →
      (ensureAggregator a x).2 = x := by
    intro a x; rw [ensureAggregator_snd]; split_ifs <;> simp
  have hM : ∀ (a : Sender) (x : jugglerCheck), (ensureMethods a x).2.Update = false →
      (ensureMethods a x).2 = x := by
    intro a x; rw [ensureMethods_snd]; split_ifs <;> simp
  have hF : ∀ (a : Sender) (x : jugglerCheck), (ensureFlap a x).2.Update = false →
      { (ensureFlap a x).2 with Flap := x.Flap } = x := by
    intro a x
    cases h1 : mapGet a.ChecksOptions x.Service with
    | some f => simp only [ensureFlap, h1]; split_ifs <;> simp
    | none =>
      cases h2 : a.Flap with
      | none => simp only [ensureFlap, h1, h2]; simp
      | some g => simp only [ensureFlap, h1, h2]; split_ifs <;> simp
  have hG : ∀ (a : Sender) (x : jugglerCheck), (ensureTags a x).2.Update = false →
      (ensureTags a x).2 = x := by
    intro a x
    rw [ensureTags_snd]
    split_ifs with h0
    · simp
    · rw [appendMissingTags_eq]
      intro hx
      simp only [Bool.or_eq_false_iff, decide_eq_false_iff_not, not_not] at hx
      cases x
      simp_all
  have hD : ∀ (a : Sender) (x : jugglerCheck), (ensureDescription a x).2.Update = false →
      (ensureDescription a x).2 = x := by
    intro a x; rw [ensureDescription_snd]; split_ifs <;> simp
  have hN : ∀ (a : Sender) (x : jugglerCheck), (ensureNamespace a x).2.Update = false →
      (ensureNamespace a x).2 = x := by
    intro a x; rw [ensureNamespace_snd]; split_ifs <;> simp
  simp only [ensureAttributes] at hu ⊢
  have e7 := hN _ _ hu
  rw [e7] at hu ⊢
  have e6 := hD _ _ hu
  rw [e6] at hu ⊢
  have e5 := hG _ _ hu
  rw [e5] at hu ⊢
  have hu4 : (ensureFlap (ensureMethods (ensureAggregator (ensureTTL js c).1 (ensureTTL js c).2).1
      (ensureAggregator (ensureTTL js c).1 (ensureTTL js c).2).2).1
      (ensureMethods (ensureAggregator (ensureTTL js c).1 (ensureTTL js c).2).1
      (ensureAggregator (ensureTTL js c).1 (ensureTTL js c).2).2).2).2.Update = false := hu
  have e4 := hF _ _ hu4
  have hu3 : (ensureMethods (ensureAggregator (ensureTTL js c).1 (ensureTTL js c).2).1
      (ensureAggregator (ensureTTL js c).1 (ensureTTL js c).2).2).2.Update = false := by
    have := congrArg jugglerCheck.Update e4
    simpa [hu4] using this.symm
  have e3 := hM _ _ hu3
  rw [e3] at hu3
  have e2 := hA _ _ hu3
  rw [e2] at hu3
  have e1 := hT _ _ hu3
  rw [e3, e2, e1] at e4
  rw [e3, e2, e1]
  have hflap : ∀ (x y : jugglerCheck), { x with Flap := y.Flap } = y →
      ∀ f, { x with Flap := f } = { y with Flap := f } := by
    intro x y h f
    rw [← h]
  have := hflap _ _ e4 c.Flap
  rw [this]

/-! ### The round trip of the numeric mode -/

theorem mapSet_of_not_mem {α : Type} (m : List (String × α)) (k : String) (v : α)
    (h : k ∉ m.map Prod.fst) : mapSet m k v = m ++ [(k, v)] := by
  induction m with
  | nil => rfl
  | cons p rest ih =>
    obtain ⟨k', v'⟩ := p
    simp only [List.map_cons, List.mem_cons, not_or] at h
    have hne : ¬ k' = k := fun e => h.1 e.symm
    simp only [mapSet, hne, if_false, List.cons_append, ih h.2]

theorem rawSetString_of_not_nil (m : List (String × LValue)) (k : String) (v : LValue)
    (h : v.isNil = false) : rawSetString m k v = mapSet m k v := by
  cases v <;> first | rfl | cases h

mutual
theorem readsBack_toLuaValue (pf : String → Option Float64) (leaf : GoAny → Float64 → Bool)
    (P : GoAny → Bool)
    (hleaf : ∀ v lv, (∀ xs, v ≠ .slice xs) → (∀ kvs, v ≠ .map kvs) →
      (∀ kvs, v ≠ .struct kvs) → toLuaValue (dumperToLuaNumber pf) v = .ok lv →
      ∃ y, lv = .LNumber y ∧ (leaf v y = true ↔ P v = true)) :
    ∀ (v : GoAny) (lv : LValue), distinctKeys v = true →
      toLuaValue (dumperToLuaNumber pf) v = .ok lv →
      (readsBack leaf v lv = true ↔ ∀ l ∈ leaves v, P l = true)
  | .slice xs, lv, hk, hc => by
    rw [toLuaValue] at hc
    rw [distinctKeys] at hk
    obtain ⟨ys, hlv, hiff⟩ := readsBack_toLuaItems pf leaf P hleaf xs [] lv hk hc
    subst hlv
    rw [leaves, ← hiff]
    simp [readsBack]
  | .map kvs, lv, hk, hc => by
    rw [toLuaValue] at hc
    simp only [distinctKeys, Bool.and_eq_true, decide_eq_true_eq] at hk
    obtain ⟨fs, hlv, hiff⟩ :=
      readsBack_toLuaFields pf leaf P hleaf kvs [] lv (by simp) hk.1 hk.2 hc
    subst hlv
    rw [leaves, ← hiff]
    simp [readsBack]
  | .struct kvs, lv, hk, hc => by
    rw [toLuaValue] at hc
    simp only [distinctKeys, Bool.and_eq_true, decide_eq_true_eq] at hk
    obtain ⟨fs, hlv, hiff⟩ :=
      readsBack_toLuaFields pf leaf P hleaf kvs [] lv (by simp) hk.1 hk.2 hc
    subst hlv
    rw [leaves, ← hiff]
    simp [readsBack]
  | .float x, lv, _, hc => by
    obtain ⟨y, hlv, hiff⟩ := hleaf (.float x) lv (by simp) (by simp) (by simp) hc
    subst hlv
    simp [readsBack, leaves, hiff]
  | .int i, lv, _, hc => by
    obtain ⟨y, hlv, hiff⟩ := hleaf (.int i) lv (by simp) (by simp) (by simp) hc
    subst hlv
    simp [readsBack, leaves, hiff]
  | .uint n, lv, _, hc => by
    obtain ⟨y, hlv, hiff⟩ := hleaf (.uint n) lv (by simp) (by simp) (by simp) hc
    subst hlv
    simp [readsBack, leaves, hiff]
  | .string s, lv, _, hc => by
    obtain ⟨y, hlv, hiff⟩ := hleaf (.string s) lv (by simp) (by simp) (by simp) hc
    subst hlv
    simp [readsBack, leaves, hiff]
  | .bool b, lv, _, hc => by
    obtain ⟨y, hlv, hiff⟩ := hleaf (.bool b) lv (by simp) (by simp) (by simp) hc
    subst hlv
    simp [readsBack, leaves, hiff]
  | .bytes s, lv, _, hc => by
    obtain ⟨y, hlv, hiff⟩ := hleaf (.bytes s) lv (by simp) (by simp) (by simp) hc
    subst hlv
    simp [readsBack, leaves, hiff]
  | .nil, lv, _, hc => by
    obtain ⟨y, hlv, hiff⟩ := hleaf .nil lv (by simp) (by simp) (by simp) hc
    subst hlv
    simp [readsBack, leaves, hiff]
  | .other, lv, _, hc => by
    obtain ⟨y, hlv, hiff⟩ := hleaf .other lv (by simp) (by simp) (by simp) hc
    subst hlv
    simp [readsBack, leaves, hiff]

theorem readsBack_toLuaItems (pf : String → Option Float64) (leaf : GoAny → Float64 → Bool)
    (P : GoAny → Bool)
    (hleaf : ∀ v lv, (∀ xs, v ≠ .slice xs) → (∀ kvs, v ≠ .map kvs) →
      (∀ kvs, v ≠ .struct kvs) → toLuaValue (dumperToLuaNumber pf) v = .ok lv →
      ∃ y, lv = .LNumber y ∧ (leaf v y = true ↔ P v = true)) :
    ∀ (xs : List GoAny) (acc : List LValue) (lv : LValue), distinctKeysItems xs = true →
      toLuaItems (dumperToLuaNumber pf) acc xs = .ok lv →
      ∃ ys, lv = .LTable (acc ++ ys) [] [] ∧
        (readsBackItems leaf xs ys = true ↔ ∀ l ∈ leavesOfItems xs, P l = true)
  | [], acc, lv, _, hc => by
    simp only [toLuaItems, Except.ok.injEq] at hc
    exact ⟨[], by simp [hc], by simp [readsBackItems, leavesOfItems]⟩
  | item :: rest, acc, lv, hk, hc => by
    rw [toLuaItems] at hc
    simp only [distinctKeysItems, Bool.and_eq_true] at hk
    cases hv : toLuaValue (dumperToLuaNumber pf) item with
    | error err => rw [hv] at hc; cases hc
    | ok v =>
      rw [hv] at hc
      simp only [] at hc
      rw [tableAppend_of_not_nil _ _
        (toLuaValue_not_nil _ (dumperToLuaNumber_not_nil pf) _ _ hv)] at hc
      obtain ⟨ys, hlv, hiff⟩ :=
        readsBack_toLuaItems pf leaf P hleaf rest (acc ++ [v]) lv hk.2 hc
      have h1 := readsBack_toLuaValue pf leaf P hleaf item v hk.1 hv
      refine ⟨v :: ys, by simp [hlv], ?_⟩
      simp only [readsBackItems, leavesOfItems, Bool.and_eq_true, h1, hiff, List.mem_append]
      constructor
      · rintro ⟨ha, hb⟩ l (hl | hl)
        · exact ha l hl
        · exact hb l hl
      · intro h
        exact ⟨fun l hl => h l (Or.inl hl), fun l hl => h l (Or.inr hl)⟩

theorem readsBack_toLuaFields (pf : String → Option Float64) (leaf : GoAny → Float64 → Bool)
    (P : GoAny → Bool)
    (hleaf : ∀ v lv, (∀ xs, v ≠ .slice xs) → (∀ kvs, v ≠ .map kvs) →
      (∀ kvs, v ≠ .struct kvs) → toLuaValue (dumperToLuaNumber pf) v = .ok lv →
      ∃ y, lv = .LNumber y ∧ (leaf v y = true ↔ P v = true)) :
    ∀ (kvs : List (String × GoAny)) (acc : List (String × LValue)) (lv : LValue),
      (∀ k ∈ kvs.map Prod.fst, k ∉ acc.map Prod.fst) → (kvs.map Prod.fst).Nodup →
      distinctKeysFields kvs = true →
      toLuaFields (dumperToLuaNumber pf) acc kvs = .ok lv →
      ∃ fs, lv = .LTable [] (acc ++ fs) [] ∧
        (readsBackFields leaf kvs fs = true ↔ ∀ l ∈ leavesOfFields kvs, P l = true)
  | [], acc, lv, _, _, _, hc => by
    simp only [toLuaFields, Except.ok.injEq] at hc
    exact ⟨[], by simp [hc], by simp [readsBackFields, leavesOfFields]⟩
  | (key, item) :: rest, acc, lv, hdis, hnd, hk, hc => by
    rw [toLuaFields] at hc
    simp only [distinctKeysFields, Bool.and_eq_true] at hk
    simp only [List.map_cons, List.nodup_cons] at hnd
    cases hv : toLuaValue (dumperToLuaNumber pf) item with
    | error err => rw [hv] at hc; cases hc
    | ok v =>
      rw [hv] at hc
      simp only [] at hc
      have hkey : key ∉ acc.map Prod.fst := hdis key (by simp)
      rw [rawSetString_of_not_nil _ _ _
        (toLuaValue_not_nil _ (dumperToLuaNumber_not_nil pf) _ _ hv),
        mapSet_of_not_mem _ _ _ hkey] at hc
      have hdis' : ∀ k ∈ rest.map Prod.fst, k ∉ (acc ++ [(key, v)]).map Prod.fst := by
        intro k hkm
        simp only [List.map_append, List.map_cons, List.map_nil, List.mem_append,
          List.mem_singleton, not_or]
        refine ⟨hdis k (by simp only [List.map_cons, List.mem_cons]; exact Or.inr hkm), ?_⟩
        intro e
        rw [e] at hkm
        exact hnd.1 hkm
      obtain ⟨fs, hlv, hiff⟩ :=
        readsBack_toLuaFields pf leaf P hleaf rest (acc ++ [(key, v)]) lv hdis' hnd.2 hk.2 hc
      have h1 := readsBack_toLuaValue pf leaf P hleaf item v hk.1 hv
      refine ⟨(key, v) :: fs, by simp [hlv], ?_⟩
      simp only [readsBackFields, leavesOfFields, Bool.and_eq_true, decide_eq_true_eq, h1, hiff,
        List.mem_append, true_and]
      constructor
      · rintro ⟨ha, hb⟩ l (hl | hl)
        · exact ha l hl
        · exact hb l hl
      · intro h
        exact ⟨fun l hl => h l (Or.inl hl), fun l hl => h l (Or.inr hl)⟩
end

/-- A converted leaf is a number, and it is numerically equal to the leaf
exactly when float64 holds the leaf without loss. -/
theorem leafEqual_iff_exactLeaf (pf : String → Option Float64) (v : GoAny) (lv : LValue)
    (h1 : ∀ xs, v ≠ .slice xs) (h2 : ∀ kvs, v ≠ .map kvs) (h3 : ∀ kvs, v ≠ .struct kvs)
    (hc : toLuaValue (dumperToLuaNumber pf) v = .ok lv) :
    ∃ y, lv = .LNumber y ∧ (leafEqual pf v y = true ↔ exactLeaf pf v = true) := by
  cases v with
  | float x =>
    simp only [toLuaValue, dumperToLuaNumber, Except.ok.injEq] at hc
    exact ⟨x, hc.symm, by simp [leafEqual, exactLeaf, Float64.numEq]⟩
  | int i =>
    simp only [toLuaValue, dumperToLuaNumber, Except.ok.injEq] at hc
    refine ⟨_, hc.symm, ?_⟩
    simp only [leafEqual, exactLeaf, Float64.numEq, Float64.ofInt, ne_eq, reduceCtorEq,
      not_false_eq_true, Float64.finite.injEq, true_and, decide_eq_true_eq, Int.cast_inj]
    exact eq_comm
  | uint n =>
    simp only [toLuaValue, dumperToLuaNumber, Except.ok.injEq] at hc
    refine ⟨_, hc.symm, ?_⟩
    simp only [leafEqual, exactLeaf, Float64.numEq, Float64.ofInt, ne_eq, reduceCtorEq,
      not_false_eq_true, Float64.finite.injEq, true_and, decide_eq_true_eq]
    rw [← Int.cast_natCast, Int.cast_inj]
    exact eq_comm
  | string s =>
    simp only [toLuaValue, dumperToLuaNumber] at hc
    cases hp : pf s with
    | none => rw [hp] at hc; cases hc
    | some x =>
      rw [hp] at hc
      simp only [Except.ok.injEq] at hc
      exact ⟨x, hc.symm, by simp [leafEqual, exactLeaf, Float64.numEq, hp]⟩
  | bytes s =>
    simp only [toLuaValue, dumperToLuaNumber] at hc
    cases hp : pf s with
    | none => rw [hp] at hc; cases hc
    | some x =>
      rw [hp] at hc
      simp only [Except.ok.injEq] at hc
      exact ⟨x, hc.symm, by simp [leafEqual, exactLeaf, Float64.numEq, hp]⟩
  | bool b => simp [toLuaValue, dumperToLuaNumber] at hc
  | nil => simp [toLuaValue, dumperToLuaNumber] at hc
  | other => simp [toLuaValue, dumperToLuaNumber] at hc
  | slice xs => exact absurd rfl (h1 xs)
  | map kvs => exact absurd rfl (h2 kvs)
  | struct kvs => exact absurd rfl (h3 kvs)

/-- A converted leaf is a number. -/
theorem toLuaValue_leaf_isNumber (pf : String → Option Float64) (v : GoAny) (lv : LValue)
    (h1 : ∀ xs, v ≠ .slice xs) (h2 : ∀ kvs, v ≠ .map kvs) (h3 : ∀ kvs, v ≠ .struct kvs)
    (hc : toLuaValue (dumperToLuaNumber pf) v = .ok lv) :
    ∃ y, lv = .LNumber y ∧ ((fun _ _ => true) v y = true ↔ (fun _ => true) v = true) := by
  obtain ⟨y, hy, _⟩ := leafEqual_iff_exactLeaf pf v lv h1 h2 h3 hc
  exact ⟨y, hy, by simp⟩

/-- C31, as stated, fails: an integer above 2^53 does not come back with its
value.  The value with the single leaf 9007199254740993 (2^53 + 1), a signed
64-bit integer, is converted to a table whose leaf is the number
9007199254740992; the shape is kept, the leaf is not numerically equal. -/
theorem toLuaValue_round_trip_loses_integer :
    toLuaValue (dumperToLuaNumber parseSample)
      (.map [("hits", .slice [.int 9007199254740993])]) =
      .ok (.LTable [] [("hits", .LTable [.LNumber (.finite ((9007199254740992 : Int) : ℚ))]
        [] [])] []) ∧
    readsBack (fun _ _ => true) (.map [("hits", .slice [.int 9007199254740993])])
      (.LTable [] [("hits", .LTable [.LNumber (.finite ((9007199254740992 : Int) : ℚ))]
        [] [])] []) = true ∧
    readsBack (leafEqual parseSample) (.map [("hits", .slice [.int 9007199254740993])])
      (.LTable [] [("hits", .LTable [.LNumber (.finite ((9007199254740992 : Int) : ℚ))]
        [] [])] []) = false := by
  have h : roundToFloat64 9007199254740993 = 9007199254740992 := by decide
  refine ⟨?_, ?_, ?_⟩
  · simp [toLuaValue, toLuaFields, toLuaItems, dumperToLuaNumber, Float64.ofInt, h,
      tableAppend, rawSetString, mapSet]
  · simp [readsBack, readsBackFields, readsBackItems]
  · simp [readsBack, readsBackFields, readsBackItems, leafEqual, Float64.numEq]

/-- C31, amended: the round trip of the numeric mode.  A value built from
slices, maps and structs with distinct keys whose leaves are all numeric is
converted to a script value of the same shape: a sequence with one entry per
element in order, a table with the same keys, a number in the place of every
leaf.  Every leaf is numerically equal to the number in its place if and only
if float64 holds every leaf without loss: a float other than NaN, a text that
`strconv.ParseFloat` reads as a number other than NaN, an integer that its
conversion to float64 does not round, as every integer of magnitude at most
2^53. -/
theorem toLuaValue_round_trip (parseFloat : String → Option Float64) (v : GoAny)
    (hnum : ∀ l ∈ leaves v, numericLeaf parseFloat l = true)
    (hkeys : distinctKeys v = true) :
    (∃ lv, toLuaValue (dumperToLuaNumber parseFloat) v = .ok lv ∧
      readsBack (fun _ _ => true) v lv = true ∧
      (readsBack (leafEqual parseFloat) v lv = true ↔
        ∀ l ∈ leaves v, exactLeaf parseFloat l = true)) ∧
    (∀ i : Int, i.natAbs ≤ 2 ^ 53 → exactLeaf parseFloat (.int i) = true) ∧
    (∀ n : Nat, n ≤ 2 ^ 53 → exactLeaf parseFloat (.uint n) = true) ∧
    (∀ x : Float64, x ≠ .nan → exactLeaf parseFloat (.float x) = true) := by
  refine ⟨?_, ?_, ?_, ?_⟩
  · obtain ⟨lv, hlv⟩ := (toLuaValue_ok_iff parseFloat v).2 hnum
    refine ⟨lv, hlv, ?_, ?_⟩
    · rw [readsBack_toLuaValue parseFloat (fun _ _ => true) (fun _ => true)
        (toLuaValue_leaf_isNumber parseFloat) v lv hkeys hlv]
      simp
    · exact readsBack_toLuaValue parseFloat (leafEqual parseFloat) (exactLeaf parseFloat)
        (leafEqual_iff_exactLeaf parseFloat) v lv hkeys hlv
  · intro i hi
    simp [exactLeaf, roundToFloat64_of_small i hi]
  · intro n hn
    have h' : ((n : Int)).natAbs ≤ 2 ^ 53 := by simpa using hn
    simp [exactLeaf, roundToFloat64_of_small (n : Int) h']
  · intro x hx
    simp [exactLeaf, hx]

theorem toLuaValue_round_trip_witness :
    ∃ lv, toLuaValue (dumperToLuaNumber parseSample)
        (.map [("a", .slice [.int 3, .string "12"]), ("b", .float (.finite (1 / 2)))]) =
        .ok lv ∧
      readsBack (fun _ _ => true)
        (.map [("a", .slice [.int 3, .string "12"]), ("b", .float (.finite (1 / 2)))]) lv =
        true ∧
      (readsBack (leafEqual parseSample)
        (.map [("a", .slice [.int 3, .string "12"]), ("b", .float (.finite (1 / 2)))]) lv =
        true ↔
        ∀ l ∈ leaves
          (.map [("a", .slice [.int 3, .string "12"]), ("b", .float (.finite (1 / 2)))]),
          exactLeaf parseSample l = true) :=
  (toLuaValue_round_trip parseSample
    (.map [("a", .slice [.int 3, .string "12"]), ("b", .float (.finite (1 / 2)))])
    (by decide) (by decide)).1

end Juggler
